import Mathlib

/-!
# Sparse Google-matrix engine (Network.js, App.js, App_vec.js)

A shallow embedding of the numerical core of the repository:

* `Network.complete` builds the offset array `firstpos`, the list of dangling
  nodes and the out-degree vector `link_num` from an edge list that is already
  grouped by source;
* `Network.GGmult` and `Network.GTmult` multiply the damped Google matrix and
  its transpose against a dense vector;
* `pagerank_normalize`, `calc_pagerank_project` and `compute_project` form the
  deflating power iteration;
* `compute_GR` builds the restricted matrices column by column with the
  projectors `projectP`, `projectQ` and the resolvent loop;
* `Network.read_network` turns the tokens of a graph file into the edge arrays
  that `complete` works on.

Conventions of the embedding.

* Scalars are exact rationals (`ℚ`): the source computes in IEEE doubles, the
  statements below are about exact arithmetic.
* A JavaScript vector `v` (a `Vector` object with storage `v.c`, or a raw array
  in `App_vec.js`) is a `List`; a read `v.c[i]` is `v.getD i 0` and a write
  `v.c[i] = x` is `v.set i x`.  Vectors have a fixed size, so a write past the
  end changes nothing; every statement below carries the size hypotheses under
  which all reads and writes are in range.
* A method that mutates its receiver or an argument returns the new value.
* Node ids and edge positions are natural numbers (0-indexed, as after the
  conversion done by `read_network`).
* `GGmult` and `GTmult` divide by `size` and by `link_num[jj]` of a node with
  `firstpos[jj] < firstpos[jj+1]`; on a graph built by `complete` from a sorted
  edge list these divisors are positive wherever the quotient is used (see
  `complete_link_num_pos`), and the operators are total functions on `ℚ`.
* `pagerank_normalize` and `compute_project` divide by a computed sum that can
  be `0`; there the IEEE result is `NaN` or `±Infinity`, which has no rational
  counterpart, and the embedding returns `Fault.divisionByZero`.
-/

namespace Regomax

/-! ## Data model -/

/-- Dense vector of scalars, indexed by node id. -/
abbrev Vec := List ℚ

/-- The fields of the class `Network` (Network.js 8-36).  `from_` and `to_` are
the fields `from` and `to` of the source (both are reserved words here). -/
structure Network where
  size : Nat
  link_len : Nat
  from_ : List Nat
  to_ : List Nat
  link_num : List Int
  firstpos : List Nat
  dangling : List Nat
deriving DecidableEq, Repr

/-- Modelled from the spec: the constructor `new Vector(n)` of Vector.js (not
among the sources) gives a fixed-size vector of `n` entries. -/
def newVector {α : Type} [Zero α] (n : Nat) : List α := List.replicate n 0

/-- Modelled from the spec: `Vector.resize(n)` of Vector.js (not among the
sources) gives the receiver the size `n`. -/
def resize {α : Type} [Zero α] (_v : List α) (n : Nat) : List α := List.replicate n 0

/-- Network.js 125-130, `init_mem`. -/
def init_mem (net : Network) : Network :=
  { net with
    from_ := newVector net.link_len
    to_ := newVector net.link_len
    link_num := newVector net.size
    firstpos := newVector (net.size + 1) }

/-! ## `Network.complete` -/

/-- Network.js 140-143 and 145-148: the loop
`while (jj < target) { jj++; firstpos[jj] = i; }`.  Its body runs exactly
`target - jj` times (not at all when `target ≤ jj`); `fillGapsN` is the loop
unrolled that many times and returns the new `firstpos` and the new `jj`. -/
def fillGapsN : Nat → List Nat → Nat → Nat → List Nat × Nat
  | 0, firstpos, jj, _ => (firstpos, jj)
  | n + 1, firstpos, jj, i => fillGapsN n (firstpos.set (jj + 1) i) (jj + 1) i

/-- The loop `while (jj < target) { jj++; firstpos[jj] = i; }`. -/
def fillGaps (firstpos : List Nat) (jj target i : Nat) : List Nat × Nat :=
  fillGapsN (target - jj) firstpos jj i

/-- Network.js 137-144: `jj = 0; firstpos[0] = 0;` and the scan over the edges
`i = 0 .. link_len-1`, each running the inner loop up to `from[i]`. -/
def scanEdges (net : Network) : List Nat × Nat :=
  (List.range net.link_len).foldl
    (fun (st : List Nat × Nat) i => fillGaps st.1 st.2 (net.from_.getD i 0) i)
    (net.firstpos.set 0 0, 0)

/-- Network.js 137-148: the whole construction of `firstpos`; the closing loop
runs with `i = link_len`, the value the edge scan leaves in `i`. -/
def buildFirstpos (net : Network) : List Nat :=
  (fillGaps (scanEdges net).1 (scanEdges net).2 net.size net.link_len).1

/-- Network.js 151-156: the first pass, counting the nodes `i` with
`firstpos[i] === firstpos[i+1]`. -/
def countDangling (firstpos : List Nat) (size : Nat) : Nat :=
  (List.range size).foldl
    (fun dangling_len i =>
      if firstpos.getD i 0 = firstpos.getD (i + 1) 0 then dangling_len + 1 else dangling_len)
    0

/-- Network.js 160-165: the second pass, `dangling[dangling_len++] = i` for
every node `i` with `firstpos[i] === firstpos[i+1]`. -/
def fillDangling (firstpos : List Nat) (size : Nat) (dangling : List Nat) : List Nat × Nat :=
  (List.range size).foldl
    (fun (st : List Nat × Nat) i =>
      if firstpos.getD i 0 = firstpos.getD (i + 1) 0 then (st.1.set st.2 i, st.2 + 1) else st)
    (dangling, 0)

/-- Network.js 169-171: `link_num[jj] = firstpos[jj+1] - firstpos[jj]`. -/
def fillLinkNum (firstpos : List Nat) (size : Nat) (link_num : List Int) : List Int :=
  (List.range size).foldl
    (fun ln jj => ln.set jj ((firstpos.getD (jj + 1) 0 : Int) - (firstpos.getD jj 0 : Int)))
    link_num

/-- Network.js 132-172, `complete`. -/
def complete (net : Network) : Network :=
  let firstpos := buildFirstpos net
  let dangling_len := countDangling firstpos net.size
  let dangling := resize net.dangling dangling_len
  let dangling :=
    if dangling_len > 0 then (fillDangling firstpos net.size dangling).1 else dangling
  { net with
    firstpos := firstpos
    dangling := dangling
    link_num := fillLinkNum firstpos net.size net.link_num }

/-- The state in which `read_network` hands a graph of `size` nodes with the
0-indexed edge arrays `from_`, `to_` to `complete` (Network.js 75-118). -/
def loaded (size : Nat) (from_ to_ : List Nat) : Network :=
  { size := size
    link_len := from_.length
    from_ := from_
    to_ := to_
    link_num := newVector size
    firstpos := newVector (size + 1)
    dangling := [] }

/-! ## `Network.GGmult` and `Network.GTmult` -/

/-- Network.js 278-290 and 218-230, the damping step shared by both operators:
nothing when `delta_alpha === 0`; otherwise `output *= 1 - delta_alpha`, then
`sum = 1` when `norm_flag` is truthy and the sum of `input` otherwise,
`sum *= delta_alpha / size`, and `output += sum` on every slot. -/
def damping (net : Network) (delta_alpha : ℚ) (output input : Vec) (norm_flag : Nat) : Vec :=
  if delta_alpha = 0 then output
  else
    let val := 1 - delta_alpha
    let output := (List.range net.size).foldl (fun o i => o.set i (o.getD i 0 * val)) output
    let sum : ℚ :=
      if norm_flag ≠ 0 then 1
      else (List.range net.size).foldl (fun sum i => sum + input.getD i 0) 0
    let sum := sum * (delta_alpha / (net.size : ℚ))
    (List.range net.size).foldl (fun o i => o.set i (o.getD i 0 + sum)) output

/-- Network.js 245-251: the dangling contribution of `GGmult`, the sum of
`input` over the dangling nodes divided by `size` (`0` without dangling
nodes). -/
def GGmult_dangling (net : Network) (input : Vec) : ℚ :=
  if net.dangling.length > 0 then
    (List.range net.dangling.length).foldl
      (fun sum i => sum + input.getD (net.dangling.getD i 0) 0) 0 / (net.size : ℚ)
  else 0

/-- Network.js 257-275: the body of the loop `out = S * in` of `GGmult` for one
node `jj`; a node with `firstpos[jj] >= firstpos[jj+1]` is skipped, otherwise
`val = input[jj] / link_num[jj]` is added to the slot `to[i]` of every edge `i`
of `jj`. -/
def GGmult_node (net : Network) (input : Vec) (output : Vec) (jj : Nat) : Vec :=
  let a := net.firstpos.getD jj 0
  let b := net.firstpos.getD (jj + 1) 0
  if a ≥ b then output
  else
    let val := input.getD jj 0 / ((net.link_num.getD jj 0 : Int) : ℚ)
    (List.range' a (b - a)).foldl
      (fun o i => o.set (net.to_.getD i 0) (o.getD (net.to_.getD i 0) 0 + val)) output

/-- Network.js 256-276: the loop `for (jj = 0; jj < size; jj++)` of `GGmult`. -/
def GGmult_links (net : Network) (output input : Vec) : Vec :=
  (List.range net.size).foldl (GGmult_node net input) output

/-- Network.js 239-291, `GGmult(delta_alpha, output, input, norm_flag)`; the
result is the new content of `output`. -/
def GGmult (net : Network) (delta_alpha : ℚ) (output input : Vec) (norm_flag : Nat) : Vec :=
  let sum := GGmult_dangling net input
  let output := (List.range net.size).foldl (fun o i => o.set i sum) output
  let output := GGmult_links net output input
  damping net delta_alpha output input norm_flag

/-- Network.js 187-199: the dangling contribution of `GTmult`.  With a dangling
node present the first loop clears `output` and sums `input`, the sum is divided
by `size` and added to the slot of every dangling node; otherwise `output` is
only cleared. -/
def GTmult_dangling (net : Network) (output input : Vec) : Vec :=
  if net.dangling.length > 0 then
    let st := (List.range net.size).foldl
      (fun (st : Vec × ℚ) i => (st.1.set i 0, st.2 + input.getD i 0)) (output, 0)
    let sum := st.2 / (net.size : ℚ)
    (List.range net.dangling.length).foldl
      (fun o i => o.set (net.dangling.getD i 0) (o.getD (net.dangling.getD i 0) 0 + sum)) st.1
  else (List.range net.size).foldl (fun o i => o.set i 0) output

/-- Network.js 203-210: the body of the loop `out = S^T * in` of `GTmult` for
one node `jj`; a node with `firstpos[jj] >= firstpos[jj+1]` is skipped,
otherwise the sum of `input` over the targets of its edges, divided by
`link_num[jj]`, is added to slot `jj`. -/
def GTmult_node (net : Network) (input : Vec) (output : Vec) (jj : Nat) : Vec :=
  let a := net.firstpos.getD jj 0
  let b := net.firstpos.getD (jj + 1) 0
  if a ≥ b then output
  else
    let sum := (List.range' a (b - a)).foldl
      (fun sum i => sum + input.getD (net.to_.getD i 0) 0) 0
    output.set jj (output.getD jj 0 + sum / ((net.link_num.getD jj 0 : Int) : ℚ))

/-- Network.js 202-216: the loop `for (jj = 0; jj < size; jj++)` of `GTmult`. -/
def GTmult_links (net : Network) (output input : Vec) : Vec :=
  (List.range net.size).foldl (GTmult_node net input) output

/-- Network.js 180-231, `GTmult(delta_alpha, output, input, norm_flag)`; the
result is the new content of `output`. -/
def GTmult (net : Network) (delta_alpha : ℚ) (output input : Vec) (norm_flag : Nat) : Vec :=
  let output := GTmult_dangling net output input
  let output := GTmult_links net output input
  damping net delta_alpha output input norm_flag

/-! ## Vector helpers of `App_vec.js` -/

/-- How a run leaves the exact model: a JavaScript `throw`, or a division by
zero, whose IEEE result (`NaN` or `±Infinity`) is not a rational number. -/
inductive Fault where
  | thrown (msg : String)
  | divisionByZero
deriving DecidableEq, Repr

/-- Equality of results is decidable. -/
instance instDecidableEqExcept {ε α : Type} [DecidableEq ε] [DecidableEq α] :
    DecidableEq (Except ε α)
  | Except.ok a, Except.ok b =>
    if h : a = b then isTrue (by rw [h]) else isFalse (fun hc => h (Except.ok.inj hc))
  | Except.error a, Except.error b =>
    if h : a = b then isTrue (by rw [h]) else isFalse (fun hc => h (Except.error.inj hc))
  | Except.ok _, Except.error _ => isFalse (fun hc => by cases hc)
  | Except.error _, Except.ok _ => isFalse (fun hc => by cases hc)

/-- App_vec.js 179-187, `sum_vector`. -/
def sum_vector (a : Vec) : ℚ :=
  (List.range a.length).foldl (fun sum i => sum + a.getD i 0) 0

/-- App_vec.js 119-126, `scalar_product`. -/
def scalar_product (a b : Vec) : Except Fault ℚ :=
  if a.length ≠ b.length then Except.error (Fault.thrown "dimensions error")
  else Except.ok ((List.range a.length).foldl (fun sum i => sum + a.getD i 0 * b.getD i 0) 0)

/-- App_vec.js 193-199, `pagerank_normalize` (App.js 70-76 does the same through
`Vector.sum_vector` and `Vector.div_eq`): `sum = sum_vector(a)`, every entry is
divided by `sum`, and `sum` is returned next to the new content of `a`.  With
`sum = 0` and at least one entry the division is a division by zero. -/
def pagerank_normalize (a : Vec) : Except Fault (Vec × ℚ) :=
  let sum := sum_vector a
  if 0 < a.length ∧ sum = 0 then Except.error Fault.divisionByZero
  else Except.ok ((List.range a.length).foldl (fun a i => a.set i (a.getD i 0 / sum)) a, sum)

/-! ## The deflating power iteration (App.js) -/

/-- App.js 11, `eps_pagerank = 1e-13`. -/
def eps_pagerank : ℚ := 1 / 10 ^ 13

/-- Modelled from the spec: `Vector.put_value(x)` of Vector.js (not among the
sources) gives every entry the value `x`. -/
def put_value (v : Vec) (x : ℚ) : Vec := List.replicate v.length x

/-- Modelled from the spec: `Vector.mul_eq(x)` of Vector.js (not among the
sources) rescales the vector, multiplying every entry by `x`. -/
def mul_eq (v : Vec) (x : ℚ) : Vec := v.map (fun e => e * x)

/-- App.js 52-64, `diff_norm_rel`. -/
def diff_norm_rel (a b : Vec) : ℚ :=
  (List.range a.length).foldl
    (fun sum i =>
      let ss := |a.getD i 0| + |b.getD i 0|
      if ss = 0 then sum else sum + |a.getD i 0 - b.getD i 0| / ss)
    0

/-- App.js 101-105 and 119-123: `dlambda = 0` and, for every node of the
subset, `dlambda += pagerank[node[l]]; pagerank[node[l]] = 0`. -/
def deflate (pagerank : Vec) (node : List Nat) : ℚ × Vec :=
  (List.range node.length).foldl
    (fun (st : ℚ × Vec) l =>
      (st.1 + st.2.getD (node.getD l 0) 0, st.2.set (node.getD l 0) 0))
    (0, pagerank)

/-- The variables of `calc_pagerank_project` that live across iterations. -/
structure IterState where
  pagerank : Vec
  a : Vec
  quality_rel : ℚ
  dlambda : ℚ
deriving DecidableEq, Repr

/-- App.js 111-146: the body of the loop of `calc_pagerank_project` at index
`i`; the flag returned with the state says whether the body ended in `break`.
The value `quality` (App.js 128) is only logged and is left out. -/
def iterStep (max_iter : Int) (net : Network) (delta_alpha : ℚ) (iprint : Int)
    (node : List Nat) (trans_frag : Nat) (i : Nat) (st : IterState) :
    Except Fault (IterState × Bool) := do
  let qfak := 1 + delta_alpha / 2
  let a := st.pagerank
  let pagerank := st.a
  let pagerank :=
    if trans_frag ≠ 0 then GTmult net delta_alpha pagerank a 1
    else GGmult net delta_alpha pagerank a 1
  let d := deflate pagerank node
  let n ← pagerank_normalize d.2
  let pagerank := n.1
  let pnorm := n.2
  let dlambda := if trans_frag ≠ 0 then 1 - pnorm else d.1
  if (i : Int) % iprint = 0 ∨ (i : Int) = max_iter then
    let q1 := st.quality_rel
    let quality_rel := diff_norm_rel pagerank a
    if quality_rel < eps_pagerank then
      pure (⟨pagerank, a, quality_rel, dlambda⟩, true)
    else if quality_rel < 1 / 10 ^ 3 ∧ quality_rel * qfak > q1 then
      pure (⟨pagerank, a, quality_rel, dlambda⟩, true)
    else pure (⟨pagerank, a, quality_rel, dlambda⟩, false)
  else pure (⟨pagerank, a, st.quality_rel, dlambda⟩, false)

/-- App.js 110-147: the loop `for (i = 0; i <= max_iter; i++)`, entered at
index `i` with `n` passes left before the bound; a pass that ends in `break`
ends the loop. -/
def iterLoop (max_iter : Int) (net : Network) (delta_alpha : ℚ) (iprint : Int)
    (node : List Nat) (trans_frag : Nat) : Nat → Nat → IterState → Except Fault IterState
  | 0, _, st => pure st
  | n + 1, i, st => do
    let r ← iterStep max_iter net delta_alpha iprint node trans_frag i st
    if r.2 then pure r.1
    else iterLoop max_iter net delta_alpha iprint node trans_frag n (i + 1) r.1

/-- App.js 87-155, `calc_pagerank_project`; the result is the new content of
`pagerank` and the returned `dlambda`.  The parameter `max_iter` stands for the
value `2 * Math.floor(-Math.log(eps_pagerank) / (delta_alpha + 3E-7))` that the
source computes on entry (App.js 93-94), which involves a logarithm and is not a
rational function of `delta_alpha`. -/
def calc_pagerank_project (max_iter : Int) (pagerank : Vec) (net : Network) (delta_alpha : ℚ)
    (iprint : Int) (node : List Nat) (trans_frag : Nat) : Except Fault (Vec × ℚ) := do
  let iprint := if iprint ≤ 0 then 1 else iprint
  let n ← pagerank_normalize pagerank
  let pagerank := n.1
  let a := pagerank
  let quality_rel : ℚ := 10 ^ 40
  let d := deflate pagerank node
  let n ← pagerank_normalize d.2
  let pagerank := n.1
  let pnorm := n.2
  let dlambda := if trans_frag ≠ 0 then 1 - pnorm else d.1
  let st ← iterLoop max_iter net delta_alpha iprint node trans_frag (max_iter + 1).toNat 0
    ⟨pagerank, a, quality_rel, dlambda⟩
  pure (st.pagerank, st.dlambda)

/-- App.js 166-202, `compute_project`; the result is the new content of
`right`, `left` and `pg` and the returned `dlambda1`.  The three eigensolver
calls run in the order in which the source starts them (`left`, `right`, `pg`);
the reciprocal `1.0 / scalar_product(left, right)` is a division by zero when
the scalar product vanishes. -/
def compute_project (max_iter : Int) (right left pg : Vec) (net : Network) (delta_alpha : ℚ)
    (node : List Nat) : Except Fault (Vec × Vec × Vec × ℚ) := do
  let iprint : Int := 10
  let node0 : List Nat := []
  let right := put_value right 1
  let left := put_value left 1
  let pg := put_value pg 1
  let p2 ← calc_pagerank_project max_iter left net delta_alpha iprint node 1
  let p1 ← calc_pagerank_project max_iter right net delta_alpha iprint node 0
  let p3 ← calc_pagerank_project max_iter pg net delta_alpha iprint node0 0
  let left := p2.1
  let right := p1.1
  let pg := p3.1
  let dlambda1 := p1.2
  let sp0 ← scalar_product left right
  if sp0 = 0 then throw Fault.divisionByZero
  let sp := 1 / sp0
  let left := mul_eq left sp
  let _ ← scalar_product left right
  pure (right, left, pg, dlambda1)

/-! ## The restricted-matrix solver (App.js, `compute_GR`) -/

/-- Modelled from the spec: the class `Matrix` of Matrix.js (not among the
sources), a dense array of scalars addressed `mat[row][col]`, with the two
dimension fields `x` and `y` that App.js reads. -/
structure Matrix where
  x : Nat
  y : Nat
  mat : List (List ℚ)
deriving DecidableEq, Repr

/-- Modelled from the spec: `new Matrix(x, y)` of Matrix.js (not among the
sources) gives a matrix of `y` rows of `x` entries. -/
def newMatrix (x y : Nat) : Matrix :=
  { x := x, y := y, mat := List.replicate y (List.replicate x 0) }

/-- The read `m.mat[j][i]`. -/
def Matrix.entry (m : Matrix) (j i : Nat) : ℚ := (m.mat.getD j []).getD i 0

/-- The write `m.mat[j][i] = v`. -/
def Matrix.put (m : Matrix) (j i : Nat) (v : ℚ) : Matrix :=
  { m with mat := m.mat.set j ((m.mat.getD j []).set i v) }

/-- Modelled from the spec: `Vector.eq(src)` of Vector.js (not among the
sources) copies `src` into the receiver; App_vec.js 391 writes the same copy as
the loop `t[i] = s[i]`. -/
def vec_eq (dst src : Vec) : Vec :=
  (List.range src.length).foldl (fun t i => t.set i (src.getD i 0)) dst

/-- Modelled from the spec: `Vector.add_eq(b)` of Vector.js (not among the
sources) adds `b` to the receiver entry by entry; App_vec.js 426 writes the same
sum as the loop `output[i] += s[i]`. -/
def add_eq (a b : Vec) : Vec :=
  (List.range a.length).foldl (fun a i => a.set i (a.getD i 0 + b.getD i 0)) a

/-- App_vec.js 153-161, `diff_norm1`. -/
def diff_norm1 (a b : Vec) : Except Fault ℚ :=
  if a.length ≠ b.length then Except.error (Fault.thrown "dimention error")
  else Except.ok ((List.range a.length).foldl (fun sum i => sum + |a.getD i 0 - b.getD i 0|) 0)

/-- App_vec.js 72-76, `lam_diff`: `t[i] -= sp * a[i]` on every entry. -/
def lam_diff (t : Vec) (sp : ℚ) (a : Vec) : Except Fault Vec :=
  if t.length ≠ a.length then Except.error (Fault.thrown "dimensions error")
  else Except.ok ((List.range t.length).foldl (fun t i => t.set i (t.getD i 0 - sp * a.getD i 0)) t)

/-- App.js 25-30 (App_vec.js 83-88), `projectQ`; the result is the new content
of `v`. -/
def projectQ (right left v : Vec) : Except Fault Vec := do
  let sp ← scalar_product left v
  lam_diff v sp right

/-- App.js 38-45 (App_vec.js 96-103), `projectP`; the result is the new content
of `v`.  The quotient `scalar_product(left, v) / f` is a division by zero when
`f` is `0`. -/
def projectP (right left v : Vec) (f : ℚ) : Except Fault Vec := do
  let n := v.length
  let sp0 ← scalar_product left v
  if f = 0 then throw Fault.divisionByZero
  else
    let sp := sp0 / f
    if v.length ≠ right.length then throw (Fault.thrown "dimensions error")
    else pure ((List.range n).foldl (fun v i => v.set i (sp * right.getD i 0)) v)

/-- The five matrices and the six scratch vectors that the column loop of
`compute_GR` reads and writes. -/
structure GRState where
  G_R : Matrix
  G_rr : Matrix
  G_pr : Matrix
  G_qr : Matrix
  G_I : Matrix
  input : Vec
  output : Vec
  s : Vec
  t : Vec
  f : Vec
  f2 : Vec
deriving DecidableEq, Repr

/-- App.js 260-264: for every `j`, `G_R[j][i] = output[node[j]]`,
`G_rr[j][i] = output[node[j]]` and `output[node[j]] = 0`. -/
def storeImpulse (node : List Nat) (i : Nat) (G_R G_rr : Matrix) (output : Vec) :
    Matrix × Matrix × Vec :=
  (List.range node.length).foldl
    (fun (st : Matrix × Matrix × Vec) j =>
      (st.1.put j i (st.2.2.getD (node.getD j 0) 0),
        st.2.1.put j i (st.2.2.getD (node.getD j 0) 0),
        st.2.2.set (node.getD j 0) 0))
    (G_R, G_rr, output)

/-- App.js 256-270: the head of the column body for column `i`, from the unit
impulse up to `f.eq(s)`. -/
def columnHead (net : Network) (delta_alpha : ℚ) (node : List Nat) (psiR psiL : Vec)
    (dlambda : ℚ) (i : Nat) (st : GRState) : Except Fault GRState := do
  let input := put_value st.input 0
  let input := input.set (node.getD i 0) 1
  let output := GGmult net delta_alpha st.output input 1
  let input := input.set (node.getD i 0) 0
  let w := storeImpulse node i st.G_R st.G_rr output
  let output := w.2.2
  let s := vec_eq st.s output
  let output ← projectP psiR psiL output dlambda
  let s ← projectQ psiR psiL s
  let f := vec_eq st.f s
  pure { st with G_R := w.1, G_rr := w.2.1, input := input, output := output, s := s, f := f }

/-- The four vectors that the inner loop of `compute_GR` reads and writes. -/
structure ResState where
  s : Vec
  t : Vec
  f : Vec
  f2 : Vec
deriving DecidableEq, Repr

/-- App.js 273-290: the body of the inner loop of `compute_GR`; the flag
returned with the state says whether the body ended in `break`
(`quality <= 0`). -/
def resolventStep (net : Network) (delta_alpha : ℚ) (node : List Nat) (psiR psiL : Vec)
    (st : ResState) : Except Fault (ResState × Bool) := do
  let t := vec_eq st.t st.s
  let f2 := GGmult net delta_alpha st.f2 st.f 0
  let f := f2
  let f2 := st.f
  let f := (List.range node.length).foldl (fun f j => f.set (node.getD j 0) 0) f
  let f ← projectQ psiR psiL f
  let s := add_eq st.s f
  let quality ← diff_norm1 t s
  pure ({ s := s, t := t, f := f, f2 := f2 }, decide (quality ≤ 0))

/-- App.js 272-291: the loop `for (l = 0; l < max_iter; l++)` with `n` passes
left before the bound; a pass that ends in `break` ends the loop. -/
def resolventLoop (net : Network) (delta_alpha : ℚ) (node : List Nat) (psiR psiL : Vec) :
    Nat → ResState → Except Fault ResState
  | 0, st => pure st
  | n + 1, st => do
    let r ← resolventStep net delta_alpha node psiR psiL st
    if r.2 then pure r.1 else resolventLoop net delta_alpha node psiR psiL n r.1

/-- App.js 299-301 and 303-305: `G[j][i] = f[node[j]]` for every `j`. -/
def storeColumn (node : List Nat) (i : Nat) (G : Matrix) (f : Vec) : Matrix :=
  (List.range node.length).foldl (fun G j => G.put j i (f.getD (node.getD j 0) 0)) G

/-- App.js 308-311: `G_I[j][i] = f[node[j]]` and `G_R[j][i] += f[node[j]]` for
every `j`. -/
def storeTotal (node : List Nat) (i : Nat) (G_I G_R : Matrix) (f : Vec) : Matrix × Matrix :=
  (List.range node.length).foldl
    (fun (st : Matrix × Matrix) j =>
      (st.1.put j i (f.getD (node.getD j 0) 0),
        st.2.put j i (st.2.entry j i + f.getD (node.getD j 0) 0)))
    (G_I, G_R)

/-- App.js 298-311: the tail of the column body for column `i`, the three
applications of `GGmult` that fill `G_pr`, `G_qr`, `G_I` and complete `G_R`. -/
def columnTail (net : Network) (delta_alpha : ℚ) (node : List Nat) (i : Nat) (st : GRState) :
    GRState :=
  let f := GGmult net delta_alpha st.f st.output 0
  let G_pr := storeColumn node i st.G_pr f
  let f := GGmult net delta_alpha f st.s 0
  let G_qr := storeColumn node i st.G_qr f
  let output := add_eq st.output st.s
  let f := GGmult net delta_alpha f output 0
  let w := storeTotal node i st.G_I st.G_R f
  { st with G_R := w.2, G_pr := G_pr, G_qr := G_qr, G_I := w.1, output := output, f := f }

/-- App.js 255-314: the body of the column loop for column `i`. -/
def columnBody (max_iter : Int) (net : Network) (delta_alpha : ℚ) (node : List Nat)
    (psiR psiL : Vec) (dlambda : ℚ) (i : Nat) (st : GRState) : Except Fault GRState := do
  let st ← columnHead net delta_alpha node psiR psiL dlambda i st
  let r ← resolventLoop net delta_alpha node psiR psiL max_iter.toNat
    { s := st.s, t := st.t, f := st.f, f2 := st.f2 }
  pure (columnTail net delta_alpha node i { st with s := r.s, t := r.t, f := r.f, f2 := r.f2 })

/-- App.js 224-228: the five dimension checks at the entry of `compute_GR`. -/
def checkSizes (G_R G_rr G_pr G_qr G_I : Matrix) (nr : Nat) : Except Fault Unit :=
  if G_R.x ≠ nr ∨ G_R.y ≠ nr then throw (Fault.thrown "Wrong matrix size of G_R  in compute_GR")
  else if G_rr.x ≠ nr ∨ G_rr.y ≠ nr then
    throw (Fault.thrown "Wrong matrix size of G_rr  in compute_GR")
  else if G_pr.x ≠ nr ∨ G_pr.y ≠ nr then
    throw (Fault.thrown "Wrong matrix size of G_pr  in compute_GR")
  else if G_qr.x ≠ nr ∨ G_qr.y ≠ nr then
    throw (Fault.thrown "Wrong matrix size of G_qr  in compute_GR")
  else if G_I.x ≠ nr ∨ G_I.y ≠ nr then
    throw (Fault.thrown "Wrong matrix size of G_I  in compute_GR")
  else pure ()

/-- What `compute_GR` leaves behind: the state of the column loop, the three
vectors filled by `compute_project`, and the value `dlambda` it returned. -/
structure GRResult where
  st : GRState
  psiL : Vec
  psiR : Vec
  pg : Vec
  dlambda : ℚ
deriving DecidableEq, Repr

/-- App.js 217-316, `compute_GR`.  The parameter `max_iter` stands for the value
`2 * Math.floor(-Math.log(eps_pagerank) / (delta_alpha + 3e-7))` of App.js
236-237, the same that `calc_pagerank_project` computes. -/
def compute_GR (max_iter : Int) (G_R G_rr G_pr G_qr G_I : Matrix) (psiL psiR pg : Vec)
    (net : Network) (delta_alpha : ℚ) (node : List Nat) : Except Fault GRResult := do
  let n := net.size
  let nr := node.length
  checkSizes G_R G_rr G_pr G_qr G_I nr
  let p ← compute_project max_iter psiR psiL pg net delta_alpha node
  let psiR := p.1
  let psiL := p.2.1
  let pg := p.2.2.1
  let dlambda := p.2.2.2
  let st : GRState :=
    { G_R := G_R, G_rr := G_rr, G_pr := G_pr, G_qr := G_qr, G_I := G_I,
      input := newVector n, output := newVector n, s := newVector n, t := newVector n,
      f := newVector n, f2 := newVector n }
  let st ← (List.range nr).foldlM
    (fun st i => columnBody max_iter net delta_alpha node psiR psiL dlambda i st) st
  pure { st := st, psiL := psiL, psiR := psiR, pg := pg, dlambda := dlambda }

/-! ## Hypotheses on the input of `complete` -/

/-- The vectors have the sizes given by `init_mem`. -/
def Allocated (net : Network) : Prop :=
  net.from_.length = net.link_len ∧ net.to_.length = net.link_len ∧
    net.link_num.length = net.size ∧ net.firstpos.length = net.size + 1

/-- The edge list is sorted ascending by source. -/
def SourcesSorted (net : Network) : Prop :=
  ∀ k, k < net.link_len → k + 1 < net.link_len →
    net.from_.getD k 0 ≤ net.from_.getD (k + 1) 0

/-- Every source lies in `[0, size)`. -/
def SourcesInRange (net : Network) : Prop :=
  ∀ k, k < net.link_len → net.from_.getD k 0 < net.size

/-- Every target lies in `[0, size)`. -/
def TargetsInRange (net : Network) : Prop :=
  ∀ k, k < net.link_len → net.to_.getD k 0 < net.size

instance (net : Network) : Decidable (Allocated net) := by
  unfold Allocated; infer_instance

instance (net : Network) : Decidable (SourcesSorted net) := by
  unfold SourcesSorted; infer_instance

instance (net : Network) : Decidable (SourcesInRange net) := by
  unfold SourcesInRange; infer_instance

instance (net : Network) : Decidable (TargetsInRange net) := by
  unfold TargetsInRange; infer_instance

/-! ## Reference definitions of the operators, in the words of the specification -/

/-- The constant of the teleportation term: `normSum = 1` if `normalize`, else
`sum(in)`. -/
def normSum (norm_flag : Nat) (input : Vec) : ℚ :=
  if norm_flag ≠ 0 then 1 else input.sum

/-- The sum of `in[d]` over the dangling nodes `d`. -/
def danglingMass (net : Network) (input : Vec) : ℚ :=
  (net.dangling.map (fun d => input.getD d 0)).sum

/-- The sum over the edges `k` with `to[k] = i` of
`in[from[k]] / link_num[from[k]]`. -/
def linkInflow (net : Network) (input : Vec) (i : Nat) : ℚ :=
  ∑ k ∈ (Finset.range net.link_len).filter (fun k => net.to_.getD k 0 = i),
    input.getD (net.from_.getD k 0) 0 /
      ((net.link_num.getD (net.from_.getD k 0) 0 : Int) : ℚ)

/-- Slot `i` of the undamped forward propagation `S * in`: the dangling mass
spread uniformly over all nodes plus the mass arriving along the links. -/
def S_ref (net : Network) (input : Vec) (i : Nat) : ℚ :=
  danglingMass net input / (net.size : ℚ) + linkInflow net input i

/-- Slot `i` of the forward operator as the specification defines it. -/
def GGmult_ref (net : Network) (delta_alpha : ℚ) (input : Vec) (norm_flag : Nat) (i : Nat) : ℚ :=
  (1 - delta_alpha) * S_ref net input i +
    (delta_alpha / (net.size : ℚ)) * normSum norm_flag input

/-- Slot `j` of the undamped transpose propagation `S^T * in`: `sum(in) / N` at
a dangling node, the average of the inputs at the successors of `j`
otherwise. -/
def ST_ref (net : Network) (input : Vec) (j : Nat) : ℚ :=
  if j ∈ net.dangling then input.sum / (net.size : ℚ)
  else
    (∑ k ∈ Finset.Ico (net.firstpos.getD j 0) (net.firstpos.getD (j + 1) 0),
        input.getD (net.to_.getD k 0) 0) /
      ((net.link_num.getD j 0 : Int) : ℚ)

/-- Slot `j` of the transpose operator as the specification defines it. -/
def GTmult_ref (net : Network) (delta_alpha : ℚ) (input : Vec) (norm_flag : Nat) (j : Nat) : ℚ :=
  (1 - delta_alpha) * ST_ref net input j +
    (delta_alpha / (net.size : ℚ)) * normSum norm_flag input

/-! ## Auxiliary notions used in the statements and proofs -/

/-- The value `v` is the right offset for node `j`: exactly the edges before
position `v` have a source below `j`. -/
def OffsetOk (net : Network) (j v : Nat) : Prop :=
  v ≤ net.link_len ∧ ∀ k, k < net.link_len → (k < v ↔ net.from_.getD k 0 < j)

/-- The loop invariant of the edge scan after `m` edges. -/
def ScanInv (net : Network) (m : Nat) (st : List Nat × Nat) : Prop :=
  st.1.length = net.size + 1 ∧ st.2 ≤ net.size ∧
    (∀ k, k < m → net.from_.getD k 0 ≤ st.2) ∧
    (∀ k, m ≤ k → k < net.link_len → st.2 ≤ net.from_.getD k 0) ∧
    (∀ j, j ≤ st.2 → OffsetOk net j (st.1.getD j 0))

/-- The nodes below `n` whose two consecutive offsets coincide. -/
def emptyNodes (fp : List Nat) (n : Nat) : List Nat :=
  (List.range n).filter (fun i => fp.getD i 0 = fp.getD (i + 1) 0)

/-- The positions of the edges whose source is node `i`. -/
def outEdges (net : Network) (i : Nat) : List Nat :=
  (List.range net.link_len).filter (fun k => net.from_.getD k 0 = i)

/-- What the loop `out = S^T * in` adds to slot `jj`: the sum of the inputs at
the targets of the edges of `jj`, divided by `link_num[jj]`. -/
def GTmult_gain (net : Network) (input : Vec) (jj : Nat) : ℚ :=
  (∑ i ∈ Finset.Ico (net.firstpos.getD jj 0) (net.firstpos.getD (jj + 1) 0),
    input.getD (net.to_.getD i 0) 0) / ((net.link_num.getD jj 0 : Int) : ℚ)

/-- The storage of the matrix has `nr` rows of `nr` entries. -/
def Matrix.Shaped (m : Matrix) (nr : Nat) : Prop :=
  m.mat.length = nr ∧ ∀ j, j < nr → (m.mat.getD j []).length = nr

/-- A loop `for (j = 0; j < n; j++) G[j][i] = g(j, G[j][i])` over column `i`. -/
def writeColumn (n i : Nat) (g : Nat → ℚ → ℚ) (G : Matrix) : Matrix :=
  (List.range n).foldl (fun G j => G.put j i (g j (G.entry j i))) G

/-- The vector `o` after `o[node[l]] = 0` for the first `m` nodes of the
subset. -/
def zeroPrefix (node : List Nat) (m : Nat) (o : Vec) : Vec :=
  (List.range m).foldl (fun o l => o.set (node.getD l 0) 0) o

/-- The six scratch vectors of the column loop have `n` entries each. -/
def GRState.Sized (st : GRState) (n : Nat) : Prop :=
  st.input.length = n ∧ st.output.length = n ∧ st.s.length = n ∧ st.t.length = n ∧
    st.f.length = n ∧ st.f2.length = n

/-- The storage of each of the five matrices has `nr` rows of `nr` entries. -/
def GRState.Shaped (st : GRState) (nr : Nat) : Prop :=
  st.G_R.Shaped nr ∧ st.G_rr.Shaped nr ∧ st.G_pr.Shaped nr ∧ st.G_qr.Shaped nr ∧
    st.G_I.Shaped nr

/-- The unit impulse at node `k` among `n` nodes. -/
def impulse (n k : Nat) : Vec := (List.replicate n (0 : ℚ)).set k 1

/-- The output of `GGmult` on the unit impulse at `node[i]`, the first step of
column `i`. -/
def impulseOut (net : Network) (delta_alpha : ℚ) (node : List Nat) (i : Nat) : Vec :=
  GGmult net delta_alpha (newVector net.size) (impulse net.size (node.getD i 0)) 1

/-- The four vectors of the inner loop have `n` entries each. -/
def ResState.Sized (rs : ResState) (n : Nat) : Prop :=
  rs.s.length = n ∧ rs.t.length = n ∧ rs.f.length = n ∧ rs.f2.length = n

/-- The vector part of column `i` of `compute_GR` on fresh buffers: `ov` is
`output` after the projector P and `sfin` is `s` when the inner loop ends. -/
def ColumnRun (max_iter : Int) (net : Network) (delta_alpha : ℚ) (node : List Nat)
    (psiR psiL : Vec) (dlambda : ℚ) (i : Nat) (ov sfin : Vec) : Prop :=
  projectP psiR psiL (zeroPrefix node node.length (impulseOut net delta_alpha node i)) dlambda =
      Except.ok ov ∧
    ∃ sv rs,
      projectQ psiR psiL (zeroPrefix node node.length (impulseOut net delta_alpha node i)) =
        Except.ok sv ∧
      resolventLoop net delta_alpha node psiR psiL max_iter.toNat
        { s := sv, t := newVector net.size, f := sv, f2 := newVector net.size } =
          Except.ok rs ∧
      rs.s = sfin

/-- Column `i` of the five matrices of `st` holds the values that the column
body derives from the vectors `ov` and `sfin`. -/
def IsColumn (net : Network) (delta_alpha : ℚ) (node : List Nat) (i : Nat) (st : GRState)
    (ov sfin : Vec) : Prop :=
  ∀ j, j < node.length →
    st.G_rr.entry j i =
        (zeroPrefix node j (impulseOut net delta_alpha node i)).getD (node.getD j 0) 0 ∧
      st.G_pr.entry j i =
        (GGmult net delta_alpha (newVector net.size) ov 0).getD (node.getD j 0) 0 ∧
      st.G_qr.entry j i =
        (GGmult net delta_alpha (newVector net.size) sfin 0).getD (node.getD j 0) 0 ∧
      st.G_I.entry j i =
        (GGmult net delta_alpha (newVector net.size) (add_eq ov sfin) 0).getD (node.getD j 0) 0 ∧
      st.G_R.entry j i =
        (zeroPrefix node j (impulseOut net delta_alpha node i)).getD (node.getD j 0) 0 +
          (GGmult net delta_alpha (newVector net.size) (add_eq ov sfin) 0).getD
            (node.getD j 0) 0

/-- Two states hold the same values in column `i` of the five matrices. -/
def SameColumn (i : Nat) (st st' : GRState) : Prop :=
  ∀ j, st.G_R.entry j i = st'.G_R.entry j i ∧ st.G_rr.entry j i = st'.G_rr.entry j i ∧
    st.G_pr.entry j i = st'.G_pr.entry j i ∧ st.G_qr.entry j i = st'.G_qr.entry j i ∧
    st.G_I.entry j i = st'.G_I.entry j i

/-- The state in which `compute_GR` enters its column loop: the five matrices
as passed in, and six freshly allocated scratch vectors (App.js 242-247). -/
def entryState (G_R G_rr G_pr G_qr G_I : Matrix) (n : Nat) : GRState :=
  { G_R := G_R, G_rr := G_rr, G_pr := G_pr, G_qr := G_qr, G_I := G_I,
    input := newVector n, output := newVector n, s := newVector n, t := newVector n,
    f := newVector n, f2 := newVector n }

/-- The graph was built by `complete` from a sorted edge list with all
endpoints in range. -/
def WellFormed (net : Network) : Prop :=
  ∃ net0, Allocated net0 ∧ SourcesSorted net0 ∧ SourcesInRange net0 ∧ TargetsInRange net0 ∧
    net = complete net0

/-- The arguments of `compute_GR` fit together: the storage of each of the five
matrices has `nr` rows of `nr` entries (`nr` the size of the subset), the three
vectors have one entry per node, and the subset holds nodes of the graph. -/
def GRInput (G_R G_rr G_pr G_qr G_I : Matrix) (psiL psiR pg : Vec) (net : Network)
    (node : List Nat) : Prop :=
  (G_R.Shaped node.length ∧ G_rr.Shaped node.length ∧ G_pr.Shaped node.length ∧
      G_qr.Shaped node.length ∧ G_I.Shaped node.length) ∧
    psiL.length = net.size ∧ psiR.length = net.size ∧ pg.length = net.size ∧
    ∀ k, k ∈ node → k < net.size

/-- The complete graph on three nodes (every node links to the two others),
used as a concrete input. -/
def triangle : Network := complete (loaded 3 [0, 0, 1, 1, 2, 2] [1, 2, 0, 2, 0, 1])

/-- App.js 96-108: the state with which `calc_pagerank_project` enters its
loop: the start vector is normalised and copied to `a`, the subset is zeroed
while its mass is summed, and the vector is normalised again. -/
def calc_entry (pagerank : Vec) (node : List Nat) (trans_frag : Nat) : Except Fault IterState := do
  let n ← pagerank_normalize pagerank
  let d := deflate n.1 node
  let m ← pagerank_normalize d.2
  pure ⟨m.1, n.1, 10 ^ 40, if trans_frag ≠ 0 then 1 - m.2 else d.1⟩

/-- The first `n` passes of the loop body from index `i` on, run one after the
other whatever the stop tests say; the flag tells whether one of these passes
ended in `break`. -/
def iterRun (max_iter : Int) (net : Network) (delta_alpha : ℚ) (iprint : Int)
    (node : List Nat) (trans_frag : Nat) : Nat → Nat → IterState → Except Fault (IterState × Bool)
  | 0, _, st => pure (st, false)
  | n + 1, i, st => do
    let r ← iterStep max_iter net delta_alpha iprint node trans_frag i st
    let r2 ← iterRun max_iter net delta_alpha iprint node trans_frag n (i + 1) r.1
    pure (r2.1, r.2 || r2.2)

/-- The number of passes that the loop `iterLoop` makes when entered at index
`i` with `n` passes left; every pass applies the operator (`GGmult` or `GTmult`)
exactly once, as its first statement. -/
def passes (max_iter : Int) (net : Network) (delta_alpha : ℚ) (iprint : Int)
    (node : List Nat) (trans_frag : Nat) : Nat → Nat → IterState → Nat
  | 0, _, _ => 0
  | n + 1, i, st =>
    match iterStep max_iter net delta_alpha iprint node trans_frag i st with
    | Except.error _ => 1
    | Except.ok r =>
      if r.2 then 1 else 1 + passes max_iter net delta_alpha iprint node trans_frag n (i + 1) r.1

/-- A graph on 12 nodes on which the deflated iteration converges slowly:
the edges 0→1, 0→2 and 1→0, and an edge k→0 from every node k of 2..11. -/
def slowGraph : Network :=
  complete (loaded 12 [0, 0, 1, 2, 3, 4, 5, 6, 7, 8, 9, 10, 11]
    [1, 2, 0, 0, 0, 0, 0, 0, 0, 0, 0, 0, 0])

/-- The nodes 2..11. -/
def slowSubset : List Nat := [2, 3, 4, 5, 6, 7, 8, 9, 10, 11]

/-- The deflation invariant: the vector is zero at every node of the subset
and its entries sum to 1. -/
def Deflated (node : List Nat) (p : Vec) : Prop :=
  (∀ l, l < node.length → p.getD (node.getD l 0) 0 = 0) ∧ p.sum = 1

/-- The two vectors of the loop state have `n` entries each. -/
def IterState.Sized (st : IterState) (n : Nat) : Prop :=
  st.pagerank.length = n ∧ st.a.length = n

/-- The number of times that `calc_pagerank_project` applies the operator
(`GGmult` or `GTmult`): none when the entry sequence fails, otherwise one per
pass of its loop. -/
def applications (max_iter : Int) (pagerank : Vec) (net : Network) (delta_alpha : ℚ)
    (iprint : Int) (node : List Nat) (trans_frag : Nat) : Nat :=
  match calc_entry pagerank node trans_frag with
  | Except.error _ => 0
  | Except.ok st0 =>
    passes max_iter net delta_alpha (if iprint ≤ 0 then 1 else iprint) node trans_frag
      (max_iter + 1).toNat 0 st0

/-- The state with which the eigensolver enters its loop on `slowGraph` from
the all-ones vector with the subset `slowSubset` in forward mode. -/
def slowEntry : IterState :=
  { pagerank := [1 / 2, 1 / 2, 0, 0, 0, 0, 0, 0, 0, 0, 0, 0]
    a := List.replicate 12 (1 / 12)
    quality_rel := 10 ^ 40
    dlambda := 5 / 6 }

/-! ## `Network.read_network` -/

/-- The content of a graph file as `read_network` tokenises it (Network.js
73-74, 80-81, 85 and 91-97): the node count of line 1, the edge count of line 2
and, for every further line, either nothing (an empty line, which the loop
skips) or the two node ids that `parseInt` reads from its two fields.  The ids
are 1-based, as written in the file. -/
structure NetFile where
  size : Nat
  link_len : Nat
  body : List (Option (Nat × Nat))
deriving DecidableEq, Repr

/-- Network.js 8-36: the fields of a new `Network` object, all vectors empty
(`size` and `link_len`, not yet assigned, are shown as 0). -/
def fresh : Network :=
  { size := 0, link_len := 0, from_ := [], to_ := [], link_num := [], firstpos := [],
    dangling := [] }

/-- Network.js 88-107: the body of the loop over the lines at index `i`, on the
object and the two arrays `from_t`, `to_t`.  An empty line is skipped; in
limited mode (`limit` truthy) an edge with both ids at most `limit` is pushed
to the arrays, 0-indexed; otherwise the edge is stored at position `i` of
`from` and `to`.  The ids of a file are at least 1, so `n1 - 1` and `n2 - 1`
are natural numbers. -/
def readLine (limit : Nat) (body : List (Option (Nat × Nat)))
    (st : Network × List Nat × List Nat) (i : Nat) : Network × List Nat × List Nat :=
  match body.getD i none with
  | none => st
  | some (n1, n2) =>
    if limit ≠ 0 then
      if n1 ≤ limit ∧ n2 ≤ limit then (st.1, st.2.1 ++ [n1 - 1], st.2.2 ++ [n2 - 1]) else st
    else
      ({ st.1 with from_ := st.1.from_.set i (n1 - 1), to_ := st.1.to_.set i (n2 - 1) },
        st.2.1, st.2.2)

/-- Network.js 71-118, `read_network`, on a new object whose field `limit` is
`limit` (0 when the constructor got no limit); the result is the object after
`complete`.  In limited mode the two header lines are sliced off without being
read. -/
def read_network (limit : Nat) (file : NetFile) : Except Fault Network :=
  let net := fresh
  let net :=
    if limit ≠ 0 then
      { net with size := limit, link_num := newVector limit, firstpos := newVector (limit + 1) }
    else init_mem { net with size := file.size, link_len := file.link_len }
  let st := (List.range file.body.length).foldl (readLine limit file.body) (net, [], [])
  let net := st.1
  let from_t := st.2.1
  let to_t := st.2.2
  if limit ≠ 0 then
    if from_t.length ≠ to_t.length then Except.error (Fault.thrown "Unequal link arrays!")
    else
      let net := { net with link_len := from_t.length }
      let net := { net with from_ := newVector net.link_len, to_ := newVector net.link_len }
      let net := (List.range net.link_len).foldl
        (fun (net : Network) i =>
          { net with
            from_ := net.from_.set i (from_t.getD i 0), to_ := net.to_.set i (to_t.getD i 0) })
        net
      Except.ok (complete net)
  else Except.ok (complete net)

/-- The edges of a file that limited loading retains: those of the non-empty
lines whose two ids are at most `limit`. -/
def retained (limit : Nat) (body : List (Option (Nat × Nat))) : List (Nat × Nat) :=
  (body.filterMap id).filter (fun e => e.1 ≤ limit ∧ e.2 ≤ limit)

/-- Every node id of the file is at least 1. -/
def IdsPositive (file : NetFile) : Prop :=
  ∀ e, e ∈ file.body.filterMap id → 1 ≤ e.1 ∧ 1 ≤ e.2

instance (file : NetFile) : Decidable (IdsPositive file) := by
  unfold IdsPositive
  infer_instance

/-- The 1-norm of a vector, the sum of the absolute values of its entries. -/
def norm1 (v : Vec) : ℚ := ∑ i ∈ Finset.range v.length, |v.getD i 0|

/-- The map `v ↦ projectQ(zero-at-subset(GGmult(α, v, norm_flag = 0)))` of the
resolvent loop, in the words of the specification: `g` is the output of the
forward operator with the entries of the subset set to zero, and the projector
Q subtracts from `g` its component `⟨left, g⟩ right` along `right`. -/
def resolventMap (net : Network) (delta_alpha : ℚ) (node : List Nat) (psiR psiL : Vec)
    (v : Vec) : Vec :=
  let g := zeroPrefix node node.length (GGmult net delta_alpha (newVector net.size) v 0)
  (List.range net.size).map
    (fun j => g.getD j 0 -
      (∑ i ∈ Finset.range net.size, psiL.getD i 0 * g.getD i 0) * psiR.getD j 0)

/-- The cycle `0 → 1 → 2 → 3 → 0` on four nodes, used as a concrete input. -/
def fourCycle : Network := complete (loaded 4 [0, 1, 2, 3] [1, 2, 3, 0])

/-- The state that the head of column 0 of `compute_GR` leaves on `fourCycle`
with damping 1/2, the subset `{0}`, `psiR = psiL = [0, 1, 0, 0]` and
`dlambda = 1/2`, from 1×1 zero matrices and fresh scratch vectors. -/
def fourCycleHead : GRState :=
  { G_R := ⟨1, 1, [[1 / 8]]⟩
    G_rr := ⟨1, 1, [[1 / 8]]⟩
    G_pr := newMatrix 1 1
    G_qr := newMatrix 1 1
    G_I := newMatrix 1 1
    input := [0, 0, 0, 0]
    output := [0, 5 / 4, 0, 0]
    s := [0, 0, 1 / 8, 1 / 8]
    t := [0, 0, 0, 0]
    f := [0, 0, 1 / 8, 1 / 8]
    f2 := [0, 0, 0, 0] }

/-- The stop test of the eigensolver on a measured relative difference and the
previously measured one: below `eps_pagerank = 1e-13`, or below `1e-3` while
`relDiff * (1 + alpha / 2)` exceeds the previous measure. -/
def stopTest (delta_alpha relDiff previous : ℚ) : Prop :=
  relDiff < eps_pagerank ∨ (relDiff < 1 / 10 ^ 3 ∧ relDiff * (1 + delta_alpha / 2) > previous)

instance (delta_alpha relDiff previous : ℚ) : Decidable (stopTest delta_alpha relDiff previous) := by
  unfold stopTest
  infer_instance

/-- App.js 127: the iterations at which the relative difference is measured
and the stop tests are made, `i % iprint === 0 || i === max_iter`. -/
def tested (max_iter iprint : Int) (i : Nat) : Prop :=
  (i : Int) % iprint = 0 ∨ (i : Int) = max_iter

instance (max_iter iprint : Int) (i : Nat) : Decidable (tested max_iter iprint i) := by
  unfold tested
  infer_instance

/-! # Theorems -/

/-! ## Reading and writing list cells -/

theorem getD_set (l : List α) (a j : Nat) (x d : α) :
    (l.set a x).getD j d = if a = j ∧ a < l.length then x else l.getD j d := by
  simp only [List.getD_eq_getElem?_getD, List.getElem?_set]
  by_cases h : a = j
  · subst h
    by_cases h2 : a < l.length
    · simp [h2]
    · simp [h2, List.getElem?_eq_none (Nat.le_of_not_lt h2)]
  · simp [h]

theorem getD_of_le_length (l : List α) (j : Nat) (d : α) (h : l.length ≤ j) :
    l.getD j d = d := by
  simp [List.getD_eq_getElem?_getD, List.getElem?_eq_none h]

/-! ## The offset array built by `complete` -/

theorem fillGapsN_snd (n : Nat) (fp : List Nat) (jj i : Nat) :
    (fillGapsN n fp jj i).2 = jj + n := by
  induction n generalizing fp jj with
  | zero => rfl
  | succ n ih => simp only [fillGapsN, ih]; omega

theorem fillGapsN_length (n : Nat) (fp : List Nat) (jj i : Nat) :
    (fillGapsN n fp jj i).1.length = fp.length := by
  induction n generalizing fp jj with
  | zero => rfl
  | succ n ih => simp only [fillGapsN, ih, List.length_set]

theorem fillGapsN_getD (n : Nat) (fp : List Nat) (jj i j : Nat) :
    (fillGapsN n fp jj i).1.getD j 0 =
      if jj < j ∧ j ≤ jj + n ∧ j < fp.length then i else fp.getD j 0 := by
  induction n generalizing fp jj with
  | zero =>
    have : ¬ (jj < j ∧ j ≤ jj + 0 ∧ j < fp.length) := by omega
    simp only [fillGapsN, this, if_false]
  | succ n ih =>
    simp only [fillGapsN, ih, List.length_set, getD_set]
    by_cases h1 : jj + 1 = j
    · subst h1
      by_cases h2 : jj + 1 < fp.length
      · have a1 : ¬ (jj + 1 < jj + 1 ∧ jj + 1 ≤ jj + 1 + n ∧ jj + 1 < fp.length) := by omega
        have a2 : (jj < jj + 1 ∧ jj + 1 ≤ jj + (n + 1) ∧ jj + 1 < fp.length) := by omega
        simp [a1, a2, h2]
      · have a1 : ¬ (jj + 1 < jj + 1 ∧ jj + 1 ≤ jj + 1 + n ∧ jj + 1 < fp.length) := by omega
        have a2 : ¬ (jj < jj + 1 ∧ jj + 1 ≤ jj + (n + 1) ∧ jj + 1 < fp.length) := by omega
        simp [a1, a2, h2]
    · by_cases h3 : jj + 1 < j ∧ j ≤ jj + 1 + n ∧ j < fp.length
      · have a2 : (jj < j ∧ j ≤ jj + (n + 1) ∧ j < fp.length) := by omega
        simp [h3, a2]
      · have a2 : ¬ (jj < j ∧ j ≤ jj + (n + 1) ∧ j < fp.length) := by omega
        simp [h3, a2, h1]

/-- In a sorted source array, sources are non-decreasing along any two
positions. -/
theorem sources_mono {net : Network} (hs : SourcesSorted net) (a b : Nat) (hab : a ≤ b)
    (hb : b < net.link_len) : net.from_.getD a 0 ≤ net.from_.getD b 0 := by
  induction b with
  | zero =>
    have : a = 0 := by omega
    subst this
    exact le_refl _
  | succ b ih =>
    by_cases h : a = b + 1
    · subst h
      exact le_refl _
    · exact le_trans (ih (by omega) (by omega)) (hs b (by omega) hb)

theorem scanInv_step {net : Network} (hs : SourcesSorted net) (hr : SourcesInRange net)
    (m : Nat) (hm : m < net.link_len) (st : List Nat × Nat) (h : ScanInv net m st) :
    ScanInv net (m + 1) (fillGaps st.1 st.2 (net.from_.getD m 0) m) := by
  obtain ⟨hlen, hjj, hlo, hhi, hok⟩ := h
  have hle : st.2 ≤ net.from_.getD m 0 := hhi m (le_refl _) hm
  have hlt : net.from_.getD m 0 < net.size := hr m hm
  have hsnd : (fillGaps st.1 st.2 (net.from_.getD m 0) m).2 = net.from_.getD m 0 := by
    simp only [fillGaps, fillGapsN_snd]; omega
  refine ⟨?_, ?_, ?_, ?_, ?_⟩
  · simp only [fillGaps, fillGapsN_length, hlen]
  · rw [hsnd]; omega
  · intro k hk
    rw [hsnd]
    exact sources_mono hs k m (by omega) hm
  · intro k hk hkM
    rw [hsnd]
    exact sources_mono hs m k (by omega) hkM
  · intro j hj
    rw [hsnd] at hj
    simp only [fillGaps, fillGapsN_getD]
    by_cases hc : st.2 < j ∧ j ≤ st.2 + (net.from_.getD m 0 - st.2) ∧ j < st.1.length
    · rw [if_pos hc]
      refine ⟨le_of_lt hm, ?_⟩
      intro k hk
      constructor
      · intro hkm
        have := hlo k hkm
        omega
      · intro hfk
        by_contra hcon
        have := sources_mono hs m k (by omega) hk
        omega
    · rw [if_neg hc]
      exact hok j (by omega)

theorem scanInv_zero {net : Network} (ha : Allocated net) :
    ScanInv net 0 (net.firstpos.set 0 0, 0) := by
  obtain ⟨_, _, _, hfp⟩ := ha
  refine ⟨by simp [hfp], Nat.zero_le _, ?_, ?_, ?_⟩
  · intro k hk; omega
  · intro k _ _; exact Nat.zero_le _
  · intro j hj
    have hj0 : j = 0 := by simpa using hj
    subst hj0
    have : (net.firstpos.set 0 0).getD 0 0 = 0 := by
      rw [getD_set]; simp [hfp]
    rw [this]
    refine ⟨Nat.zero_le _, ?_⟩
    intro k _
    simp

theorem scanInv_fold {net : Network} (hs : SourcesSorted net) (hr : SourcesInRange net)
    (ha : Allocated net) (m : Nat) (hm : m ≤ net.link_len) :
    ScanInv net m ((List.range m).foldl
      (fun (st : List Nat × Nat) i => fillGaps st.1 st.2 (net.from_.getD i 0) i)
      (net.firstpos.set 0 0, 0)) := by
  induction m with
  | zero => exact scanInv_zero ha
  | succ m ih =>
    rw [List.range_succ, List.foldl_append]
    exact scanInv_step hs hr m (by omega) _ (ih (by omega))

theorem buildFirstpos_length {net : Network} (hs : SourcesSorted net)
    (hr : SourcesInRange net) (ha : Allocated net) :
    (buildFirstpos net).length = net.size + 1 := by
  have h := scanInv_fold hs hr ha net.link_len (le_refl _)
  simp only [buildFirstpos, fillGaps, fillGapsN_length]
  exact h.1

/-- Every cell of the offset array built by `complete` is the right offset for
its node. -/
theorem buildFirstpos_ok {net : Network} (hs : SourcesSorted net)
    (hr : SourcesInRange net) (ha : Allocated net) (j : Nat) (hj : j ≤ net.size) :
    OffsetOk net j ((buildFirstpos net).getD j 0) := by
  have h := scanInv_fold hs hr ha net.link_len (le_refl _)
  obtain ⟨hlen, hjj, hlo, _, hok⟩ := h
  simp only [buildFirstpos, fillGaps, fillGapsN_getD]
  have e : scanEdges net = (List.range net.link_len).foldl
      (fun (st : List Nat × Nat) i => fillGaps st.1 st.2 (net.from_.getD i 0) i)
      (net.firstpos.set 0 0, 0) := rfl
  rw [e]
  split_ifs with hc
  · refine ⟨le_refl _, ?_⟩
    intro k hk
    have := hlo k hk
    constructor
    · intro _; omega
    · intro _; exact hk
  · exact hok j (by omega)

theorem buildFirstpos_zero {net : Network} (hs : SourcesSorted net)
    (hr : SourcesInRange net) (ha : Allocated net) : (buildFirstpos net).getD 0 0 = 0 := by
  obtain ⟨hle, h⟩ := buildFirstpos_ok hs hr ha 0 (Nat.zero_le _)
  by_contra hne
  have hpos : 0 < (buildFirstpos net).getD 0 0 := Nat.pos_of_ne_zero hne
  have := (h 0 (by omega)).1 hpos
  omega

theorem buildFirstpos_last {net : Network} (hs : SourcesSorted net)
    (hr : SourcesInRange net) (ha : Allocated net) :
    (buildFirstpos net).getD net.size 0 = net.link_len := by
  obtain ⟨hle, h⟩ := buildFirstpos_ok hs hr ha net.size (le_refl _)
  by_contra hne
  have hlt : (buildFirstpos net).getD net.size 0 < net.link_len := by omega
  have := (h _ hlt).2 (hr _ hlt)
  omega

theorem buildFirstpos_mono {net : Network} (hs : SourcesSorted net)
    (hr : SourcesInRange net) (ha : Allocated net) (i : Nat) (hi : i < net.size) :
    (buildFirstpos net).getD i 0 ≤ (buildFirstpos net).getD (i + 1) 0 := by
  obtain ⟨hle, h⟩ := buildFirstpos_ok hs hr ha i (by omega)
  obtain ⟨hle2, h2⟩ := buildFirstpos_ok hs hr ha (i + 1) (by omega)
  by_contra hcon
  have hlt : (buildFirstpos net).getD (i + 1) 0 < (buildFirstpos net).getD i 0 := by omega
  have hk : (buildFirstpos net).getD (i + 1) 0 < net.link_len := by omega
  have h3 := (h _ hk).1 hlt
  have h4 := (h2 _ hk).2 (by omega)
  omega

/-- The edges of node `i` are exactly the positions from `firstpos[i]` up to
`firstpos[i+1]`. -/
theorem buildFirstpos_group {net : Network} (hs : SourcesSorted net)
    (hr : SourcesInRange net) (ha : Allocated net) (i k : Nat) (hi : i < net.size)
    (hk : k < net.link_len) :
    ((buildFirstpos net).getD i 0 ≤ k ∧ k < (buildFirstpos net).getD (i + 1) 0) ↔
      net.from_.getD k 0 = i := by
  obtain ⟨_, h⟩ := buildFirstpos_ok hs hr ha i (by omega)
  obtain ⟨_, h2⟩ := buildFirstpos_ok hs hr ha (i + 1) (by omega)
  have a := h k hk
  have b := h2 k hk
  constructor
  · rintro ⟨h1, h3⟩
    have := b.1 h3
    have : ¬ net.from_.getD k 0 < i := fun hc => by have := a.2 hc; omega
    omega
  · intro he
    have h3 := b.2 (by omega)
    have : ¬ k < (buildFirstpos net).getD i 0 := fun hc => by have := a.1 hc; omega
    exact ⟨by omega, h3⟩

/-! ## Loops that rewrite a vector cell by cell -/

theorem foldl_set_length {α β : Type} (f : List α → β → Nat) (g : List α → β → α)
    (ks : List β) (l : List α) :
    (ks.foldl (fun o k => o.set (f o k) (g o k)) l).length = l.length := by
  induction ks generalizing l with
  | nil => rfl
  | cons k ks ih => simp only [List.foldl_cons, ih, List.length_set]

/-- A loop `for (i = 0; i < n; i++) o[i] = g(i, o[i])` rewrites each of the
first `n` cells from its own old value. -/
theorem foldl_range_set_getD {α : Type} (g : Nat → α → α) (d : α) (n : Nat) (l : List α)
    (j : Nat) :
    ((List.range n).foldl (fun o i => o.set i (g i (o.getD i d))) l).getD j d =
      if j < n ∧ j < l.length then g j (l.getD j d) else l.getD j d := by
  induction n with
  | zero => simp
  | succ n ih =>
    rw [List.range_succ, List.foldl_append]
    simp only [List.foldl_cons, List.foldl_nil, getD_set]
    rw [foldl_set_length (fun _ i => i) (fun o i => g i (o.getD i d))]
    by_cases h1 : n = j
    · subst h1
      have a1 : ¬ (n < n ∧ n < l.length) := by omega
      rw [if_neg a1] at ih
      by_cases h2 : n < l.length
      · rw [if_pos ⟨rfl, h2⟩, if_pos ⟨by omega, h2⟩, ih]
      · rw [if_neg (fun hc => h2 hc.2), if_neg (fun hc => h2 hc.2), ih]
    · rw [if_neg (fun hc => h1 hc.1), ih]
      by_cases h3 : j < n ∧ j < l.length
      · rw [if_pos h3, if_pos ⟨by omega, h3.2⟩]
      · rw [if_neg h3, if_neg (by omega)]

theorem foldl_range_set_length {α : Type} (g : Nat → α → α) (d : α) (n : Nat) (l : List α) :
    ((List.range n).foldl (fun o i => o.set i (g i (o.getD i d))) l).length = l.length :=
  foldl_set_length (fun _ i => i) (fun o i => g i (o.getD i d)) _ l

/-! ## The out-degrees and the dangling list built by `complete` -/

theorem fillLinkNum_length (fp : List Nat) (n : Nat) (ln : List Int) :
    (fillLinkNum fp n ln).length = ln.length :=
  foldl_set_length (fun _ i => i) (fun _ jj => (fp.getD (jj + 1) 0 : Int) - (fp.getD jj 0 : Int))
    _ ln

theorem fillLinkNum_getD (fp : List Nat) (n : Nat) (ln : List Int) (j : Nat) (hj : j < n)
    (hl : j < ln.length) :
    (fillLinkNum fp n ln).getD j 0 = (fp.getD (j + 1) 0 : Int) - (fp.getD j 0 : Int) := by
  have h := foldl_range_set_getD
    (fun jj (_ : Int) => (fp.getD (jj + 1) 0 : Int) - (fp.getD jj 0 : Int)) 0 n ln j
  simp only [fillLinkNum]
  rw [h, if_pos ⟨hj, hl⟩]

theorem emptyNodes_succ (fp : List Nat) (n : Nat) :
    emptyNodes fp (n + 1) =
      if fp.getD n 0 = fp.getD (n + 1) 0 then emptyNodes fp n ++ [n] else emptyNodes fp n := by
  simp only [emptyNodes, List.range_succ, List.filter_append]
  by_cases h : fp.getD n 0 = fp.getD (n + 1) 0
  · rw [if_pos h, List.filter_cons_of_pos (by simpa using h), List.filter_nil]
  · rw [if_neg h, List.filter_cons_of_neg (by simpa using h), List.filter_nil,
      List.append_nil]

theorem emptyNodes_length_mono (fp : List Nat) (n m : Nat) (h : n ≤ m) :
    (emptyNodes fp n).length ≤ (emptyNodes fp m).length := by
  induction m with
  | zero =>
    have : n = 0 := by omega
    subst this
    exact le_refl _
  | succ m ih =>
    by_cases hn : n = m + 1
    · subst hn
      exact le_refl _
    · have := ih (by omega)
      rw [emptyNodes_succ]
      split_ifs
      · simp only [List.length_append, List.length_singleton]; omega
      · exact this

theorem countDangling_eq (fp : List Nat) (n : Nat) :
    countDangling fp n = (emptyNodes fp n).length := by
  induction n with
  | zero => rfl
  | succ n ih =>
    have e : countDangling fp (n + 1) =
        if fp.getD n 0 = fp.getD (n + 1) 0 then countDangling fp n + 1
        else countDangling fp n := by
      simp only [countDangling, List.range_succ, List.foldl_append, List.foldl_cons,
        List.foldl_nil]
    rw [e, emptyNodes_succ, ih]
    split_ifs
    · simp
    · rfl

theorem set_append_drop (A d : List Nat) (x : Nat) (h : A.length < d.length) :
    (A ++ d.drop A.length).set A.length x = (A ++ [x]) ++ d.drop (A.length + 1) := by
  induction A generalizing d with
  | nil =>
    cases d with
    | nil => simp at h
    | cons y ys => simp
  | cons a A ih =>
    cases d with
    | nil => simp at h
    | cons y ys =>
      have h2 : A.length < ys.length := by simpa using h
      simpa using ih ys h2

theorem fillDangling_eq (fp : List Nat) (n : Nat) (d : List Nat)
    (h : (emptyNodes fp n).length ≤ d.length) :
    (List.range n).foldl
      (fun (st : List Nat × Nat) i =>
        if fp.getD i 0 = fp.getD (i + 1) 0 then (st.1.set st.2 i, st.2 + 1) else st)
      (d, 0) =
    (emptyNodes fp n ++ d.drop (emptyNodes fp n).length, (emptyNodes fp n).length) := by
  induction n with
  | zero => simp [emptyNodes]
  | succ n ih =>
    have hm := emptyNodes_length_mono fp n (n + 1) (by omega)
    rw [List.range_succ, List.foldl_append, ih (by omega)]
    simp only [List.foldl_cons, List.foldl_nil]
    rw [emptyNodes_succ] at h ⊢
    by_cases hc : fp.getD n 0 = fp.getD (n + 1) 0
    · simp only [hc, if_true] at h ⊢
      have hlt : (emptyNodes fp n).length < d.length := by
        simp only [List.length_append, List.length_singleton] at h; omega
      rw [set_append_drop _ _ _ hlt]
      simp
    · simp only [hc, if_false]

/-- The dangling list built by `complete` is the ascending list of the nodes
whose two consecutive offsets coincide. -/
theorem complete_dangling (net : Network) :
    (complete net).dangling = emptyNodes (buildFirstpos net) net.size := by
  simp only [complete, fillDangling, resize]
  rw [countDangling_eq]
  split_ifs with h
  · rw [fillDangling_eq _ _ _ (by simp)]
    simp
  · have : (emptyNodes (buildFirstpos net) net.size).length = 0 := by omega
    rw [this]
    exact (List.length_eq_zero.mp this).symm

theorem countP_range_window (p : Nat → Bool) (a b M : Nat) (hab : a ≤ b)
    (hp : ∀ k, k < M → (p k = true ↔ a ≤ k ∧ k < b)) (m : Nat) (hm : m ≤ M) :
    List.countP p (List.range m) = min m b - min m a := by
  induction m with
  | zero => simp
  | succ m ih =>
    rw [List.range_succ, List.countP_append, List.countP_singleton, ih (by omega)]
    have h := hp m (by omega)
    by_cases hc : p m = true
    · rw [if_pos hc]
      have := h.1 hc
      omega
    · rw [if_neg hc]
      have : ¬ (a ≤ m ∧ m < b) := fun hh => hc (h.2 hh)
      omega

/-- The number of edges leaving node `i` is the width of its window in the
offset array. -/
theorem outEdges_length {net : Network} (hs : SourcesSorted net) (hr : SourcesInRange net)
    (ha : Allocated net) (i : Nat) (hi : i < net.size) :
    ((outEdges net i).length : Int) =
      ((buildFirstpos net).getD (i + 1) 0 : Int) - ((buildFirstpos net).getD i 0 : Int) := by
  have hmono := buildFirstpos_mono hs hr ha i hi
  have hle := (buildFirstpos_ok hs hr ha (i + 1) (by omega)).1
  have hc := countP_range_window (fun k => decide (net.from_.getD k 0 = i))
    ((buildFirstpos net).getD i 0) ((buildFirstpos net).getD (i + 1) 0) net.link_len hmono
    (fun k hk => by
      rw [decide_eq_true_iff]
      exact (buildFirstpos_group hs hr ha i k hi hk).symm)
    net.link_len (le_refl _)
  rw [List.countP_eq_length_filter] at hc
  simp only [outEdges]
  rw [hc]
  omega

/-! ## Loops that accumulate a sum or scatter into a vector -/

theorem list_eq_map_range_getD {α : Type} (l : List α) (d : α) :
    l = (List.range l.length).map (fun i => l.getD i d) := by
  apply List.ext_getElem
  · simp
  · intro n h1 h2
    rw [List.getElem_map, List.getElem_range, List.getD_eq_getElem l d h1]

/-- A loop over the positions of a vector that only reads the cell at the
position is a fold over the vector. -/
theorem foldl_range_getD {α β : Type} (f : β → α → β) (l : List α) (d : α) (s0 : β) :
    (List.range l.length).foldl (fun s i => f s (l.getD i d)) s0 = l.foldl f s0 := by
  conv_rhs => rw [list_eq_map_range_getD l d]
  rw [List.foldl_map]

theorem foldl_add_eq_sum {β : Type} (g : β → ℚ) (l : List β) (s0 : ℚ) :
    l.foldl (fun s x => s + g x) s0 = s0 + (l.map g).sum := by
  induction l generalizing s0 with
  | nil => simp
  | cons x l ih =>
    rw [List.foldl_cons, ih, List.map_cons, List.sum_cons]
    ring

theorem sum_map_range (g : Nat → ℚ) (n : Nat) :
    ((List.range n).map g).sum = ∑ i ∈ Finset.range n, g i := by
  induction n with
  | zero => simp
  | succ n ih =>
    rw [List.range_succ, List.map_append, List.sum_append, ih, Finset.sum_range_succ]
    simp

theorem sum_map_range_from (g : Nat → ℚ) (a n : Nat) :
    ((List.range' a n).map g).sum = ∑ i ∈ Finset.Ico a (a + n), g i := by
  induction n with
  | zero => simp
  | succ n ih =>
    rw [List.range'_concat, List.map_append, List.sum_append, ih, ← Nat.add_assoc,
      Finset.sum_Ico_succ_top (by omega)]
    simp

/-- The sum of a vector, written over its positions. -/
theorem sum_eq_sum_range (l : Vec) : l.sum = ∑ i ∈ Finset.range l.length, l.getD i 0 := by
  conv_lhs => rw [list_eq_map_range_getD l 0]
  exact sum_map_range _ _

/-- The loop `sum = 0; for (i = 0; i < n; i++) sum += v[i]` over a vector of
`n` entries. -/
theorem foldl_range_sum (l : Vec) (n : Nat) (h : l.length = n) :
    (List.range n).foldl (fun sum i => sum + l.getD i 0) 0 = l.sum := by
  subst h
  rw [foldl_range_getD (fun s x => s + x) l 0 0, foldl_add_eq_sum (fun x => x)]
  simp

/-- A loop `o[t(k)] += v(k)` over a list of items `k`: slot `j` grows by the
values of the items that point to `j`. -/
theorem foldl_scatter_getD {β : Type} (t : β → Nat) (v : β → ℚ) (ks : List β) (o : Vec)
    (j : Nat) (hj : j < o.length) :
    (ks.foldl (fun o k => o.set (t k) (o.getD (t k) 0 + v k)) o).getD j 0 =
      o.getD j 0 + (ks.map (fun k => if t k = j then v k else 0)).sum := by
  induction ks generalizing o with
  | nil => simp
  | cons k ks ih =>
    rw [List.foldl_cons, ih _ (by rw [List.length_set]; exact hj), getD_set, List.map_cons,
      List.sum_cons]
    by_cases h : t k = j
    · rw [if_pos ⟨h, by rw [h]; exact hj⟩, if_pos h, h]
      ring
    · rw [if_neg (fun hc => h hc.1), if_neg h]
      ring

theorem foldl_scatter_length {β : Type} (t : β → Nat) (v : β → ℚ) (ks : List β) (o : Vec) :
    (ks.foldl (fun o k => o.set (t k) (o.getD (t k) 0 + v k)) o).length = o.length :=
  foldl_set_length (fun _ k => t k) (fun o k => o.getD (t k) 0 + v k) ks o

theorem foldl_pair {α β γ : Type} (f : α → γ → α) (g : β → γ → β) (l : List γ) (a : α)
    (b : β) :
    l.foldl (fun (st : α × β) i => (f st.1 i, g st.2 i)) (a, b) = (l.foldl f a, l.foldl g b) := by
  induction l generalizing a b with
  | nil => rfl
  | cons x l ih => rw [List.foldl_cons, ih, List.foldl_cons, List.foldl_cons]

theorem set_getD_self {α : Type} (l : List α) (j : Nat) (d : α) : l.set j (l.getD j d) = l := by
  induction l generalizing j with
  | nil => rfl
  | cons x l ih =>
    cases j with
    | zero => rfl
    | succ j => simp only [List.set_cons_succ, List.getD_cons_succ, ih]

theorem sum_map_ite_nodup (l : List Nat) (hn : l.Nodup) (j : Nat) (c : ℚ) :
    (l.map (fun d => if d = j then c else 0)).sum = if j ∈ l then c else 0 := by
  induction l with
  | nil => simp
  | cons x l ih =>
    rw [List.map_cons, List.sum_cons, ih (List.nodup_cons.mp hn).2]
    by_cases h : x = j
    · subst h
      have hx : x ∉ l := (List.nodup_cons.mp hn).1
      rw [if_pos rfl, if_neg hx, if_pos (List.mem_cons_self _ _)]
      ring
    · rw [if_neg h]
      by_cases h2 : j ∈ l
      · rw [if_pos h2, if_pos (List.mem_cons_of_mem _ h2)]
        ring
      · rw [if_neg h2, if_neg (by
          intro hc
          rcases List.mem_cons.mp hc with h3 | h3
          · exact h h3.symm
          · exact h2 h3)]
        ring

theorem sum_map_filter_range (p : Nat → Bool) (f : Nat → ℚ) (n : Nat) :
    (((List.range n).filter p).map f).sum =
      ∑ j ∈ Finset.range n, if p j = true then f j else 0 := by
  induction n with
  | zero => simp
  | succ n ih =>
    rw [List.range_succ, List.filter_append, List.map_append, List.sum_append, ih,
      Finset.sum_range_succ]
    by_cases h : p n = true
    · rw [List.filter_cons_of_pos h, if_pos h]
      simp
    · rw [List.filter_cons_of_neg h, if_neg h]
      simp

/-! ## The operators, slot by slot, on an arbitrary network -/

theorem damping_length (net : Network) (α : ℚ) (out inp : Vec) (flag : Nat) :
    (damping net α out inp flag).length = out.length := by
  unfold damping
  split_ifs
  · rfl
  · simp only [foldl_range_set_length (fun _ x => x * (1 - α)) 0,
      foldl_range_set_length (fun _ x => x + 1 * (α / (net.size : ℚ))) 0]
  · simp only [foldl_range_set_length (fun _ x => x * (1 - α)) 0,
      foldl_range_set_length (fun _ x => x +
        (List.range net.size).foldl (fun sum i => sum + inp.getD i 0) 0 *
          (α / (net.size : ℚ))) 0]

theorem damping_getD (net : Network) (α : ℚ) (out inp : Vec) (flag : Nat)
    (hin : inp.length = net.size) (j : Nat) (hj : j < net.size) (hjo : j < out.length) :
    (damping net α out inp flag).getD j 0 =
      (1 - α) * out.getD j 0 + (α / (net.size : ℚ)) * normSum flag inp := by
  unfold damping normSum
  by_cases h0 : α = 0
  · rw [if_pos h0, h0]
    ring
  · rw [if_neg h0]
    simp only []
    rw [foldl_range_set_getD (fun _ x => x + _) 0, foldl_range_set_length (fun _ x => x * _) 0,
      if_pos ⟨hj, hjo⟩, foldl_range_set_getD (fun _ x => x * _) 0, if_pos ⟨hj, hjo⟩,
      foldl_range_sum inp net.size hin]
    ring

theorem GGmult_dangling_eq (net : Network) (inp : Vec) :
    GGmult_dangling net inp = danglingMass net inp / (net.size : ℚ) := by
  unfold GGmult_dangling danglingMass
  split_ifs with h
  · rw [foldl_range_getD (fun s d => s + inp.getD d 0) net.dangling 0 0, foldl_add_eq_sum]
    simp
  · have : net.dangling = [] := List.length_eq_zero.mp (by omega)
    rw [this]
    simp

theorem GGmult_node_length (net : Network) (inp o : Vec) (jj : Nat) :
    (GGmult_node net inp o jj).length = o.length := by
  unfold GGmult_node
  simp only []
  split_ifs
  · rfl
  · exact foldl_scatter_length _ (fun _ => _) _ _

theorem GGmult_node_getD (net : Network) (inp o : Vec) (jj j : Nat) (hj : j < o.length) :
    (GGmult_node net inp o jj).getD j 0 =
      o.getD j 0 +
        ∑ i ∈ Finset.Ico (net.firstpos.getD jj 0) (net.firstpos.getD (jj + 1) 0),
          if net.to_.getD i 0 = j then
            inp.getD jj 0 / ((net.link_num.getD jj 0 : Int) : ℚ) else 0 := by
  unfold GGmult_node
  simp only []
  split_ifs with h
  · rw [Finset.Ico_eq_empty_of_le h]
    simp
  · rw [foldl_scatter_getD (fun i => net.to_.getD i 0) (fun _ => _) _ _ _ hj,
      sum_map_range_from]
    have e : net.firstpos.getD jj 0 +
        (net.firstpos.getD (jj + 1) 0 - net.firstpos.getD jj 0) =
          net.firstpos.getD (jj + 1) 0 := by omega
    rw [e]

theorem GGmult_links_length (net : Network) (o inp : Vec) :
    (GGmult_links net o inp).length = o.length := by
  unfold GGmult_links
  generalize net.size = n
  induction n with
  | zero => rfl
  | succ n ih =>
    rw [List.range_succ, List.foldl_append, List.foldl_cons, List.foldl_nil,
      GGmult_node_length, ih]

theorem GGmult_links_getD (net : Network) (o inp : Vec) (j : Nat) (hj : j < o.length) :
    (GGmult_links net o inp).getD j 0 =
      o.getD j 0 +
        ∑ jj ∈ Finset.range net.size,
          ∑ i ∈ Finset.Ico (net.firstpos.getD jj 0) (net.firstpos.getD (jj + 1) 0),
            if net.to_.getD i 0 = j then
              inp.getD jj 0 / ((net.link_num.getD jj 0 : Int) : ℚ) else 0 := by
  have hl : ∀ n, ((List.range n).foldl (GGmult_node net inp) o).length = o.length := by
    intro n
    induction n with
    | zero => rfl
    | succ n ih =>
      rw [List.range_succ, List.foldl_append, List.foldl_cons, List.foldl_nil,
        GGmult_node_length, ih]
  unfold GGmult_links
  generalize net.size = n
  induction n with
  | zero => simp
  | succ n ih =>
    rw [List.range_succ, List.foldl_append, List.foldl_cons, List.foldl_nil,
      GGmult_node_getD _ _ _ _ _ (by rw [hl]; exact hj), ih, Finset.sum_range_succ]
    ring

theorem GGmult_length (net : Network) (α : ℚ) (out inp : Vec) (flag : Nat) :
    (GGmult net α out inp flag).length = out.length := by
  unfold GGmult
  simp only []
  rw [damping_length, GGmult_links_length, foldl_range_set_length (fun _ _ => _) 0]

/-- Slot `j` of `GGmult` on an arbitrary network, with the link contribution
still written node by node. -/
theorem GGmult_getD (net : Network) (α : ℚ) (out inp : Vec) (flag : Nat)
    (hout : out.length = net.size) (hin : inp.length = net.size) (j : Nat)
    (hj : j < net.size) :
    (GGmult net α out inp flag).getD j 0 =
      (1 - α) * (danglingMass net inp / (net.size : ℚ) +
        ∑ jj ∈ Finset.range net.size,
          ∑ i ∈ Finset.Ico (net.firstpos.getD jj 0) (net.firstpos.getD (jj + 1) 0),
            if net.to_.getD i 0 = j then
              inp.getD jj 0 / ((net.link_num.getD jj 0 : Int) : ℚ) else 0) +
        (α / (net.size : ℚ)) * normSum flag inp := by
  have h1 : ((List.range net.size).foldl
      (fun o i => o.set i (GGmult_dangling net inp)) out).length = net.size := by
    rw [foldl_range_set_length (fun _ _ => _) 0, hout]
  unfold GGmult
  simp only []
  rw [damping_getD _ _ _ _ _ hin j hj (by rw [GGmult_links_length, h1]; exact hj),
    GGmult_links_getD _ _ _ _ (by rw [h1]; exact hj),
    foldl_range_set_getD (fun _ _ => _) 0, if_pos ⟨hj, by rw [hout]; exact hj⟩,
    GGmult_dangling_eq]

theorem GTmult_dangling_length (net : Network) (out inp : Vec) :
    (GTmult_dangling net out inp).length = out.length := by
  unfold GTmult_dangling
  split_ifs
  · simp only []
    rw [foldl_set_length (fun _ i => net.dangling.getD i 0),
      foldl_pair (fun (o : Vec) (i : Nat) => o.set i (0 : ℚ))
        (fun (s : ℚ) (i : Nat) => s + inp.getD i 0),
      foldl_range_set_length (fun _ _ => (0 : ℚ)) 0]
  · exact foldl_range_set_length (fun _ _ => (0 : ℚ)) 0 _ _

theorem GTmult_dangling_getD (net : Network) (out inp : Vec) (hin : inp.length = net.size)
    (j : Nat) (hj : j < net.size) (hjo : j < out.length) :
    (GTmult_dangling net out inp).getD j 0 =
      (net.dangling.map (fun d => if d = j then inp.sum / (net.size : ℚ) else 0)).sum := by
  unfold GTmult_dangling
  split_ifs with h
  · simp only []
    rw [foldl_pair (fun (o : Vec) (i : Nat) => o.set i (0 : ℚ))
        (fun (s : ℚ) (i : Nat) => s + inp.getD i 0)]
    simp only []
    rw [foldl_range_getD (fun (o : Vec) d => o.set d (o.getD d 0 + _)) net.dangling 0,
      foldl_scatter_getD (fun d => d) (fun _ => _) _ _ _
        (by rw [foldl_range_set_length (fun _ _ => (0 : ℚ)) 0]; exact hjo),
      foldl_range_set_getD (fun _ _ => (0 : ℚ)) 0, if_pos ⟨hj, hjo⟩, foldl_range_sum inp _ hin]
    ring
  · have : net.dangling = [] := List.length_eq_zero.mp (by omega)
    rw [this, foldl_range_set_getD (fun _ _ => (0 : ℚ)) 0, if_pos ⟨hj, hjo⟩]
    simp

/-- The new value that the loop `out = S^T * in` gives slot `jj`. -/
theorem GTmult_node_eq (net : Network) (inp o : Vec) (jj : Nat) :
    GTmult_node net inp o jj = o.set jj (o.getD jj 0 + GTmult_gain net inp jj) := by
  unfold GTmult_node GTmult_gain
  simp only []
  split_ifs with h
  · rw [Finset.Ico_eq_empty_of_le h]
    simp only [Finset.sum_empty, zero_div, add_zero]
    exact (set_getD_self o jj 0).symm
  · rw [foldl_add_eq_sum, sum_map_range_from]
    have e : net.firstpos.getD jj 0 +
        (net.firstpos.getD (jj + 1) 0 - net.firstpos.getD jj 0) =
          net.firstpos.getD (jj + 1) 0 := by omega
    rw [e, zero_add]

theorem GTmult_links_eq (net : Network) (o inp : Vec) :
    GTmult_links net o inp =
      (List.range net.size).foldl
        (fun o jj => o.set jj ((fun jj x => x + GTmult_gain net inp jj) jj (o.getD jj 0))) o := by
  unfold GTmult_links
  congr 1
  funext o jj
  exact GTmult_node_eq net inp o jj

theorem GTmult_length (net : Network) (α : ℚ) (out inp : Vec) (flag : Nat) :
    (GTmult net α out inp flag).length = out.length := by
  unfold GTmult
  simp only []
  rw [damping_length, GTmult_links_eq,
    foldl_range_set_length (fun jj x => x + GTmult_gain net inp jj) 0, GTmult_dangling_length]

/-- Slot `j` of `GTmult` on an arbitrary network. -/
theorem GTmult_getD (net : Network) (α : ℚ) (out inp : Vec) (flag : Nat)
    (hout : out.length = net.size) (hin : inp.length = net.size) (j : Nat)
    (hj : j < net.size) :
    (GTmult net α out inp flag).getD j 0 =
      (1 - α) * ((net.dangling.map
          (fun d => if d = j then inp.sum / (net.size : ℚ) else 0)).sum +
        GTmult_gain net inp j) +
        (α / (net.size : ℚ)) * normSum flag inp := by
  have hjo : j < out.length := by rw [hout]; exact hj
  have hl : (GTmult_links net (GTmult_dangling net out inp) inp).length = out.length := by
    rw [GTmult_links_eq, foldl_range_set_length (fun jj x => x + GTmult_gain net inp jj) 0,
      GTmult_dangling_length]
  unfold GTmult
  simp only []
  rw [damping_getD _ _ _ _ _ hin j hj (by rw [hl]; exact hjo),
    GTmult_links_eq, foldl_range_set_getD (fun jj x => x + GTmult_gain net inp jj) 0,
    if_pos ⟨hj, by rw [GTmult_dangling_length]; exact hjo⟩,
    GTmult_dangling_getD _ _ _ hin j hj hjo]

/-! ## The operators on a graph built by `complete` -/

theorem complete_link_num {net : Network} (ha : Allocated net) (j : Nat) (hj : j < net.size) :
    (complete net).link_num.getD j 0 =
      ((buildFirstpos net).getD (j + 1) 0 : Int) - ((buildFirstpos net).getD j 0 : Int) :=
  fillLinkNum_getD _ _ _ j hj (by rw [ha.2.2.1]; exact hj)

theorem complete_link_num_cast {net : Network} (hs : SourcesSorted net)
    (hr : SourcesInRange net) (ha : Allocated net) (j : Nat) (hj : j < net.size) :
    (((complete net).link_num.getD j 0 : Int) : ℚ) =
      (((buildFirstpos net).getD (j + 1) 0 - (buildFirstpos net).getD j 0 : Nat) : ℚ) := by
  rw [complete_link_num ha j hj, Nat.cast_sub (buildFirstpos_mono hs hr ha j hj)]
  push_cast
  ring

/-- The divisor `link_num[j]` of a node that the operators do not skip is
positive. -/
theorem complete_link_num_pos {net : Network} (ha : Allocated net) (j : Nat)
    (hj : j < net.size)
    (h : (buildFirstpos net).getD j 0 < (buildFirstpos net).getD (j + 1) 0) :
    0 < (complete net).link_num.getD j 0 := by
  rw [complete_link_num ha j hj]
  omega

/-- A sum over the nodes of sums over their edge windows is a sum over all
edges. -/
theorem sum_windows {net : Network} (hs : SourcesSorted net) (hr : SourcesInRange net)
    (ha : Allocated net) (F : Nat → Nat → ℚ) :
    ∑ jj ∈ Finset.range net.size,
        ∑ i ∈ Finset.Ico ((buildFirstpos net).getD jj 0) ((buildFirstpos net).getD (jj + 1) 0),
          F jj i =
      ∑ k ∈ Finset.range net.link_len, F (net.from_.getD k 0) k := by
  have key : ∀ n, n ≤ net.size →
      ∑ jj ∈ Finset.range n,
        ∑ i ∈ Finset.Ico ((buildFirstpos net).getD jj 0) ((buildFirstpos net).getD (jj + 1) 0),
          F jj i =
      ∑ k ∈ Finset.range ((buildFirstpos net).getD n 0), F (net.from_.getD k 0) k := by
    intro n hn
    induction n with
    | zero => rw [buildFirstpos_zero hs hr ha]; simp
    | succ n ih =>
      rw [Finset.sum_range_succ, ih (by omega),
        ← Finset.sum_range_add_sum_Ico _ (buildFirstpos_mono hs hr ha n (by omega))]
      congr 1
      apply Finset.sum_congr rfl
      intro i hi
      rw [Finset.mem_Ico] at hi
      have hle := (buildFirstpos_ok hs hr ha (n + 1) (by omega)).1
      rw [(buildFirstpos_group hs hr ha n i (by omega) (by omega)).1 hi]
  rw [key net.size (le_refl _), buildFirstpos_last hs hr ha]

/-- The dangling mass, written as a sum over all nodes. -/
theorem danglingMass_complete (net : Network) (x : Vec) :
    danglingMass (complete net) x =
      ∑ j ∈ Finset.range net.size,
        if (buildFirstpos net).getD j 0 = (buildFirstpos net).getD (j + 1) 0 then x.getD j 0
        else 0 := by
  unfold danglingMass
  rw [complete_dangling, emptyNodes, sum_map_filter_range]
  apply Finset.sum_congr rfl
  intro j _
  simp only [decide_eq_true_iff]

/-- The mass that leaves the non-dangling nodes along their edges is their
whole mass. -/
theorem link_mass {net : Network} (hs : SourcesSorted net) (hr : SourcesInRange net)
    (ha : Allocated net) (x : Vec) :
    ∑ k ∈ Finset.range net.link_len,
        x.getD (net.from_.getD k 0) 0 /
          (((complete net).link_num.getD (net.from_.getD k 0) 0 : Int) : ℚ) =
      ∑ j ∈ Finset.range net.size,
        if (buildFirstpos net).getD j 0 = (buildFirstpos net).getD (j + 1) 0 then 0
        else x.getD j 0 := by
  rw [← sum_windows hs hr ha
    (fun jj _ => x.getD jj 0 / (((complete net).link_num.getD jj 0 : Int) : ℚ))]
  apply Finset.sum_congr rfl
  intro j hj
  rw [Finset.mem_range] at hj
  have hm := buildFirstpos_mono hs hr ha j hj
  rw [Finset.sum_const, Nat.card_Ico, complete_link_num_cast hs hr ha j hj, nsmul_eq_mul]
  split_ifs with h
  · rw [h]; simp
  · have hpos : (((buildFirstpos net).getD (j + 1) 0 - (buildFirstpos net).getD j 0 : Nat) : ℚ)
        ≠ 0 := by
      have : (buildFirstpos net).getD (j + 1) 0 - (buildFirstpos net).getD j 0 ≠ 0 := by omega
      exact_mod_cast this
    exact mul_div_cancel₀ _ hpos

/-- The link contribution of `GGmult`, node by node, is the sum over the edges
that arrive at `j`. -/
theorem linkInflow_complete {net : Network} (hs : SourcesSorted net) (hr : SourcesInRange net)
    (ha : Allocated net) (x : Vec) (j : Nat) :
    ∑ jj ∈ Finset.range (complete net).size,
        ∑ i ∈ Finset.Ico ((complete net).firstpos.getD jj 0)
            ((complete net).firstpos.getD (jj + 1) 0),
          (if (complete net).to_.getD i 0 = j then
            x.getD jj 0 / (((complete net).link_num.getD jj 0 : Int) : ℚ) else 0) =
      linkInflow (complete net) x j := by
  unfold linkInflow
  rw [Finset.sum_filter]
  exact sum_windows hs hr ha
    (fun jj i => if net.to_.getD i 0 = j then
      x.getD jj 0 / (((complete net).link_num.getD jj 0 : Int) : ℚ) else 0)

/-- Slot `j` of `GGmult` on a graph built by `complete` is the reference
value. -/
theorem GGmult_getD_complete {net : Network} (hs : SourcesSorted net)
    (hr : SourcesInRange net) (ha : Allocated net) (α : ℚ) (out inp : Vec) (flag : Nat)
    (hout : out.length = net.size) (hin : inp.length = net.size) (j : Nat)
    (hj : j < net.size) :
    (GGmult (complete net) α out inp flag).getD j 0 = GGmult_ref (complete net) α inp flag j := by
  rw [GGmult_getD (complete net) α out inp flag hout hin j hj, linkInflow_complete hs hr ha]
  rfl

/-- Slot `j` of `GTmult` on a graph built by `complete` is the reference
value. -/
theorem GTmult_getD_complete {net : Network} (α : ℚ) (out inp : Vec) (flag : Nat)
    (hout : out.length = net.size) (hin : inp.length = net.size) (j : Nat)
    (hj : j < net.size) :
    (GTmult (complete net) α out inp flag).getD j 0 = GTmult_ref (complete net) α inp flag j := by
  rw [GTmult_getD (complete net) α out inp flag hout hin j hj]
  have hnd : (complete net).dangling.Nodup := by
    rw [complete_dangling]
    exact (List.nodup_range _).filter _
  rw [sum_map_ite_nodup _ hnd]
  unfold GTmult_ref ST_ref
  split_ifs with h
  · have he : (buildFirstpos net).getD j 0 = (buildFirstpos net).getD (j + 1) 0 := by
      rw [complete_dangling] at h
      simpa [emptyNodes] using (List.mem_filter.mp h).2
    have hg : GTmult_gain (complete net) inp j = 0 := by
      unfold GTmult_gain
      have : (complete net).firstpos = buildFirstpos net := rfl
      rw [this, he]
      simp
    rw [hg, add_zero]
  · rw [zero_add]
    rfl

theorem ext_getD (l1 l2 : Vec) (n : Nat) (h1 : l1.length = n) (h2 : l2.length = n)
    (h : ∀ j, j < n → l1.getD j 0 = l2.getD j 0) : l1 = l2 := by
  apply List.ext_getElem (by rw [h1, h2])
  intro j hj1 hj2
  have := h j (by rw [← h1]; exact hj1)
  rwa [List.getD_eq_getElem l1 0 hj1, List.getD_eq_getElem l2 0 hj2] at this

theorem getD_map_range (f : Nat → ℚ) (n j : Nat) (hj : j < n) :
    ((List.range n).map f).getD j 0 = f j := by
  rw [List.getD_eq_getElem _ _ (by simpa using hj), List.getElem_map, List.getElem_range]

theorem GGmult_eq_ref {net : Network} (hs : SourcesSorted net) (hr : SourcesInRange net)
    (ha : Allocated net) (α : ℚ) (out inp : Vec) (flag : Nat)
    (hout : out.length = net.size) (hin : inp.length = net.size) :
    GGmult (complete net) α out inp flag =
      (List.range net.size).map (GGmult_ref (complete net) α inp flag) := by
  apply ext_getD _ _ net.size (by rw [GGmult_length, hout]) (by simp)
  intro j hj
  rw [GGmult_getD_complete hs hr ha α out inp flag hout hin j hj, getD_map_range _ _ _ hj]

theorem GTmult_eq_ref (net : Network) (α : ℚ) (out inp : Vec) (flag : Nat)
    (hout : out.length = net.size) (hin : inp.length = net.size) :
    GTmult (complete net) α out inp flag =
      (List.range net.size).map (GTmult_ref (complete net) α inp flag) := by
  apply ext_getD _ _ net.size (by rw [GTmult_length, hout]) (by simp)
  intro j hj
  rw [GTmult_getD_complete α out inp flag hout hin j hj, getD_map_range _ _ _ hj]

theorem scalar_product_ok (a b : Vec) (h : a.length = b.length) :
    scalar_product a b = Except.ok (∑ i ∈ Finset.range a.length, a.getD i 0 * b.getD i 0) := by
  unfold scalar_product
  rw [if_neg (by simpa using h), foldl_add_eq_sum, sum_map_range, zero_add]

/-- Pairing a weight `y` with the link inflow: each edge carries its share to
the weight of its target. -/
theorem linkInflow_pairing {net : Network} (ht : TargetsInRange net) (y : Nat → ℚ) (x : Vec) :
    ∑ i ∈ Finset.range net.size, y i * linkInflow (complete net) x i =
      ∑ k ∈ Finset.range net.link_len,
        y (net.to_.getD k 0) *
          (x.getD (net.from_.getD k 0) 0 /
            (((complete net).link_num.getD (net.from_.getD k 0) 0 : Int) : ℚ)) := by
  unfold linkInflow
  simp only [Finset.sum_filter, Finset.mul_sum]
  rw [Finset.sum_comm]
  apply Finset.sum_congr rfl
  intro k hk
  rw [Finset.mem_range] at hk
  have e : ∀ i, y i * (if (complete net).to_.getD k 0 = i then
      x.getD ((complete net).from_.getD k 0) 0 /
        (((complete net).link_num.getD ((complete net).from_.getD k 0) 0 : Int) : ℚ) else 0) =
      if net.to_.getD k 0 = i then y i *
        (x.getD (net.from_.getD k 0) 0 /
          (((complete net).link_num.getD (net.from_.getD k 0) 0 : Int) : ℚ)) else 0 := by
    intro i
    show y i * (if net.to_.getD k 0 = i then _ else 0) = _
    split_ifs
    · rfl
    · ring
  simp only [e]
  rw [Finset.sum_ite_eq, if_pos (Finset.mem_range.mpr (ht k hk))]

/-- Pairing a weight `x` with the gains of the transpose loop. -/
theorem gain_pairing {net : Network} (hs : SourcesSorted net) (hr : SourcesInRange net)
    (ha : Allocated net) (x : Nat → ℚ) (y : Vec) :
    ∑ j ∈ Finset.range net.size, x j * GTmult_gain (complete net) y j =
      ∑ k ∈ Finset.range net.link_len,
        y.getD (net.to_.getD k 0) 0 *
          (x (net.from_.getD k 0) /
            (((complete net).link_num.getD (net.from_.getD k 0) 0 : Int) : ℚ)) := by
  rw [← sum_windows hs hr ha (fun jj i => y.getD (net.to_.getD i 0) 0 *
    (x jj / (((complete net).link_num.getD jj 0 : Int) : ℚ)))]
  apply Finset.sum_congr rfl
  intro j _
  unfold GTmult_gain
  show x j * ((∑ i ∈ Finset.Ico ((buildFirstpos net).getD j 0)
    ((buildFirstpos net).getD (j + 1) 0), y.getD (net.to_.getD i 0) 0) / _) = _
  rw [Finset.sum_div, Finset.mul_sum]
  apply Finset.sum_congr rfl
  intro i _
  ring

/-- The dangling indicator of the transpose operator, paired with a weight. -/
theorem dangling_pairing (net : Network) (x : Vec) (c : ℚ) :
    ∑ j ∈ Finset.range net.size,
        x.getD j 0 * ((complete net).dangling.map (fun d => if d = j then c else 0)).sum =
      danglingMass (complete net) x * c := by
  have hnd : (complete net).dangling.Nodup := by
    rw [complete_dangling]
    exact (List.nodup_range _).filter _
  rw [danglingMass_complete, Finset.sum_mul]
  apply Finset.sum_congr rfl
  intro j hj
  rw [Finset.mem_range] at hj
  rw [sum_map_ite_nodup _ hnd, complete_dangling]
  by_cases h : (buildFirstpos net).getD j 0 = (buildFirstpos net).getD (j + 1) 0
  · have hm : j ∈ emptyNodes (buildFirstpos net) net.size := by
      simp only [emptyNodes, List.mem_filter, List.mem_range, decide_eq_true_iff]
      exact ⟨hj, h⟩
    rw [if_pos hm, if_pos h]
  · have hm : j ∉ emptyNodes (buildFirstpos net) net.size := by
      simp only [emptyNodes, List.mem_filter, List.mem_range, decide_eq_true_iff]
      exact fun hc => h hc.2
    rw [if_neg hm, if_neg h]
    ring

/-- The pairing of a weight `y` with the output of `GGmult` on a graph built by
`complete`. -/
theorem GGmult_pairing {net : Network} (hs : SourcesSorted net) (hr : SourcesInRange net)
    (ha : Allocated net) (ht : TargetsInRange net) (α : ℚ) (out x : Vec) (flag : Nat)
    (hout : out.length = net.size) (hx : x.length = net.size) (y : Nat → ℚ) :
    ∑ i ∈ Finset.range net.size, y i * (GGmult (complete net) α out x flag).getD i 0 =
      (1 - α) * ((∑ i ∈ Finset.range net.size, y i) *
          (danglingMass (complete net) x / (net.size : ℚ)) +
        ∑ k ∈ Finset.range net.link_len,
          y (net.to_.getD k 0) *
            (x.getD (net.from_.getD k 0) 0 /
              (((complete net).link_num.getD (net.from_.getD k 0) 0 : Int) : ℚ))) +
        (α / (net.size : ℚ)) * normSum flag x * ∑ i ∈ Finset.range net.size, y i := by
  rw [← linkInflow_pairing ht y x]
  have e : ∀ i ∈ Finset.range net.size,
      y i * (GGmult (complete net) α out x flag).getD i 0 =
        (1 - α) * (y i * (danglingMass (complete net) x / (net.size : ℚ)) +
          y i * linkInflow (complete net) x i) +
          (α / (net.size : ℚ)) * normSum flag x * y i := by
    intro i hi
    rw [GGmult_getD_complete hs hr ha α out x flag hout hx i (Finset.mem_range.mp hi)]
    unfold GGmult_ref S_ref
    show y i * ((1 - α) * (danglingMass (complete net) x / (net.size : ℚ) +
      linkInflow (complete net) x i) + α / (net.size : ℚ) * normSum flag x) = _
    ring
  rw [Finset.sum_congr rfl e, Finset.sum_add_distrib, ← Finset.mul_sum, Finset.sum_add_distrib,
    ← Finset.sum_mul, ← Finset.mul_sum]

/-- The pairing of a weight `x` with the output of `GTmult` on a graph built by
`complete`. -/
theorem GTmult_pairing {net : Network} (hs : SourcesSorted net) (hr : SourcesInRange net)
    (ha : Allocated net) (α : ℚ) (out y : Vec) (flag : Nat)
    (hout : out.length = net.size) (hy : y.length = net.size) (x : Vec) :
    ∑ j ∈ Finset.range net.size, x.getD j 0 * (GTmult (complete net) α out y flag).getD j 0 =
      (1 - α) * (danglingMass (complete net) x * (y.sum / (net.size : ℚ)) +
        ∑ k ∈ Finset.range net.link_len,
          y.getD (net.to_.getD k 0) 0 *
            (x.getD (net.from_.getD k 0) 0 /
              (((complete net).link_num.getD (net.from_.getD k 0) 0 : Int) : ℚ))) +
        (α / (net.size : ℚ)) * normSum flag y * ∑ j ∈ Finset.range net.size, x.getD j 0 := by
  rw [← gain_pairing hs hr ha (fun j => x.getD j 0) y, ← dangling_pairing net x]
  have e : ∀ j ∈ Finset.range net.size,
      x.getD j 0 * (GTmult (complete net) α out y flag).getD j 0 =
        (1 - α) * (x.getD j 0 * ((complete net).dangling.map
            (fun d => if d = j then y.sum / (net.size : ℚ) else 0)).sum +
          x.getD j 0 * GTmult_gain (complete net) y j) +
          (α / (net.size : ℚ)) * normSum flag y * x.getD j 0 := by
    intro j hj
    rw [GTmult_getD (complete net) α out y flag hout hy j (Finset.mem_range.mp hj)]
    show x.getD j 0 * ((1 - α) * (((complete net).dangling.map
      (fun d => if d = j then y.sum / (net.size : ℚ) else 0)).sum +
        GTmult_gain (complete net) y j) + α / (net.size : ℚ) * normSum flag y) = _
    ring
  rw [Finset.sum_congr rfl e, Finset.sum_add_distrib, ← Finset.mul_sum, Finset.sum_add_distrib,
    ← Finset.mul_sum]

/-! ## Rescaling the left eigenvector -/

theorem mul_eq_getD (v : Vec) (c : ℚ) (i : Nat) : (mul_eq v c).getD i 0 = v.getD i 0 * c := by
  unfold mul_eq
  simp only [List.getD_eq_getElem?_getD, List.getElem?_map]
  cases v[i]? <;> simp

theorem scalar_product_length (a b : Vec) (v : ℚ) (h : scalar_product a b = Except.ok v) :
    a.length = b.length := by
  unfold scalar_product at h
  by_contra hc
  rw [if_pos hc] at h
  cases h

theorem rescale_scalar_product (left right : Vec) (sp0 : ℚ) (h0 : sp0 ≠ 0)
    (h : scalar_product left right = Except.ok sp0) :
    scalar_product (mul_eq left (1 / sp0)) right = Except.ok 1 := by
  have hl := scalar_product_length _ _ _ h
  rw [scalar_product_ok _ _ hl] at h
  have hv : ∑ i ∈ Finset.range left.length, left.getD i 0 * right.getD i 0 = sp0 := by
    injection h
  have hl2 : (mul_eq left (1 / sp0)).length = right.length := by
    rw [← hl]; simp [mul_eq]
  rw [scalar_product_ok _ _ hl2]
  congr 1
  have hlen : (mul_eq left (1 / sp0)).length = left.length := by simp [mul_eq]
  rw [hlen]
  simp only [mul_eq_getD]
  have e : ∀ i ∈ Finset.range left.length,
      left.getD i 0 * (1 / sp0) * right.getD i 0 =
        (1 / sp0) * (left.getD i 0 * right.getD i 0) := by
    intro i _; ring
  rw [Finset.sum_congr rfl e, ← Finset.mul_sum, hv]
  field_simp

/-! ## Results of fallible steps -/

theorem bind_ok {ε α β : Type} {x : Except ε α} {f : α → Except ε β} {b : β}
    (h : (x >>= f) = Except.ok b) : ∃ a, x = Except.ok a ∧ f a = Except.ok b := by
  cases x with
  | error e => cases h
  | ok a => exact ⟨a, rfl, h⟩

/-! ## Reading and writing matrix cells -/

theorem entry_put (M : Matrix) (j i j' i' : Nat) (v : ℚ) :
    (M.put j i v).entry j' i' =
      if j = j' ∧ i = i' ∧ j < M.mat.length ∧ i < (M.mat.getD j []).length then v
      else M.entry j' i' := by
  unfold Matrix.entry Matrix.put
  simp only []
  rw [getD_set]
  by_cases h1 : j = j' ∧ j < M.mat.length
  · rw [if_pos h1, getD_set]
    obtain ⟨h1a, h1b⟩ := h1
    subst h1a
    by_cases h2 : i = i' ∧ i < (M.mat.getD j []).length
    · rw [if_pos h2, if_pos ⟨rfl, h2.1, h1b, h2.2⟩]
    · rw [if_neg h2, if_neg (fun hc => h2 ⟨hc.2.1, hc.2.2.2⟩)]
  · rw [if_neg h1, if_neg (fun hc => h1 ⟨hc.1, hc.2.2.1⟩)]

theorem shaped_put (M : Matrix) (nr j i : Nat) (v : ℚ) (h : M.Shaped nr) :
    (M.put j i v).Shaped nr := by
  obtain ⟨h1, h2⟩ := h
  unfold Matrix.Shaped Matrix.put
  simp only []
  refine ⟨by rw [List.length_set]; exact h1, fun k hk => ?_⟩
  rw [getD_set]
  split_ifs with hc
  · rw [List.length_set]
    exact h2 j (by rw [← h1]; exact hc.2)
  · exact h2 k hk

theorem entry_put_shaped (M : Matrix) (nr j i j' i' : Nat) (v : ℚ) (h : M.Shaped nr)
    (hj : j < nr) (hi : i < nr) :
    (M.put j i v).entry j' i' = if j = j' ∧ i = i' then v else M.entry j' i' := by
  rw [entry_put]
  by_cases hc : j = j' ∧ i = i'
  · rw [if_pos hc, if_pos ⟨hc.1, hc.2, by rw [h.1]; exact hj, by rw [h.2 j hj]; exact hi⟩]
  · rw [if_neg hc, if_neg (fun hh => hc ⟨hh.1, hh.2.1⟩)]

theorem writeColumn_succ (n i : Nat) (g : Nat → ℚ → ℚ) (G : Matrix) :
    writeColumn (n + 1) i g G =
      (writeColumn n i g G).put n i (g n ((writeColumn n i g G).entry n i)) := by
  unfold writeColumn
  rw [List.range_succ, List.foldl_append, List.foldl_cons, List.foldl_nil]

theorem writeColumn_shaped (n i nr : Nat) (g : Nat → ℚ → ℚ) (G : Matrix) (h : G.Shaped nr) :
    (writeColumn n i g G).Shaped nr := by
  induction n with
  | zero => exact h
  | succ n ih =>
    rw [writeColumn_succ]
    exact shaped_put _ _ _ _ _ ih

/-- A loop over the rows of column `i` rewrites each of the first `n` cells of
that column from its own old value and leaves every other cell alone. -/
theorem writeColumn_entry (n i nr : Nat) (g : Nat → ℚ → ℚ) (G : Matrix) (h : G.Shaped nr)
    (hn : n ≤ nr) (hi : i < nr) (j' i' : Nat) :
    (writeColumn n i g G).entry j' i' =
      if i' = i ∧ j' < n then g j' (G.entry j' i) else G.entry j' i' := by
  induction n generalizing j' i' with
  | zero =>
    rw [if_neg (by omega)]
    rfl
  | succ n ih =>
    rw [writeColumn_succ,
      entry_put_shaped _ nr _ _ _ _ _ (writeColumn_shaped n i nr g G h) (by omega) hi,
      ih (by omega), ih (by omega), if_neg (fun hc : i = i ∧ n < n => by omega)]
    by_cases h1 : n = j' ∧ i = i'
    · obtain ⟨h1a, h1b⟩ := h1
      subst h1a
      subst h1b
      rw [if_pos ⟨rfl, rfl⟩, if_pos ⟨rfl, by omega⟩]
    · rw [if_neg h1]
      by_cases h2 : i' = i ∧ j' < n
      · rw [if_pos h2, if_pos ⟨h2.1, by omega⟩]
      · rw [if_neg h2, if_neg (fun hc => by
          apply h1
          refine ⟨?_, hc.1.symm⟩
          have : ¬ j' < n := fun hh => h2 ⟨hc.1, hh⟩
          omega)]

theorem zeroPrefix_succ (node : List Nat) (m : Nat) (o : Vec) :
    zeroPrefix node (m + 1) o = (zeroPrefix node m o).set (node.getD m 0) 0 := by
  unfold zeroPrefix
  rw [List.range_succ, List.foldl_append, List.foldl_cons, List.foldl_nil]

theorem zeroPrefix_length (node : List Nat) (m : Nat) (o : Vec) :
    (zeroPrefix node m o).length = o.length := by
  induction m with
  | zero => rfl
  | succ m ih => rw [zeroPrefix_succ, List.length_set, ih]

/-- Zeroing the first `m` nodes of the subset clears exactly their slots. -/
theorem zeroPrefix_getD (node : List Nat) (m : Nat) (o : Vec) (k : Nat) :
    (zeroPrefix node m o).getD k 0 =
      if ∃ l, l < m ∧ node.getD l 0 = k then 0 else o.getD k 0 := by
  induction m with
  | zero =>
    rw [if_neg (by rintro ⟨l, hl, _⟩; omega)]
    rfl
  | succ m ih =>
    rw [zeroPrefix_succ, getD_set, ih]
    by_cases h1 : node.getD m 0 = k
    · subst h1
      by_cases h2 : node.getD m 0 < (zeroPrefix node m o).length
      · rw [if_pos ⟨rfl, h2⟩, if_pos ⟨m, by omega, rfl⟩]
      · rw [if_neg (fun hc => h2 hc.2),
          if_pos (show ∃ l, l < m + 1 ∧ node.getD l 0 = node.getD m 0 from ⟨m, by omega, rfl⟩)]
        split_ifs
        · rfl
        · rw [zeroPrefix_length] at h2
          exact getD_of_le_length _ _ _ (Nat.le_of_not_lt h2)
    · rw [if_neg (fun hc => h1 hc.1)]
      by_cases h3 : ∃ l, l < m ∧ node.getD l 0 = k
      · obtain ⟨l, hl, he⟩ := h3
        rw [if_pos ⟨l, hl, he⟩, if_pos ⟨l, by omega, he⟩]
      · rw [if_neg h3, if_neg (by
          rintro ⟨l, hl, he⟩
          by_cases hlm : l = m
          · subst hlm; exact h1 he
          · exact h3 ⟨l, by omega, he⟩)]

/-- The loop of App.js 260-264, with the two matrices and the vector taken
apart: both columns receive the value that `output` holds at `node[j]` after
the earlier nodes of the subset have been cleared. -/
theorem storeImpulse_eq (node : List Nat) (i : Nat) (A B : Matrix) (o : Vec) :
    storeImpulse node i A B o =
      (writeColumn node.length i
          (fun j _ => (zeroPrefix node j o).getD (node.getD j 0) 0) A,
        writeColumn node.length i
          (fun j _ => (zeroPrefix node j o).getD (node.getD j 0) 0) B,
        zeroPrefix node node.length o) := by
  unfold storeImpulse
  generalize node.length = n
  induction n with
  | zero => rfl
  | succ n ih =>
    rw [List.range_succ, List.foldl_append, ih, List.foldl_cons, List.foldl_nil,
      writeColumn_succ, writeColumn_succ, zeroPrefix_succ]

theorem storeTotal_eq (node : List Nat) (i : Nat) (G_I G_R : Matrix) (f : Vec) :
    storeTotal node i G_I G_R f =
      (writeColumn node.length i (fun j _ => f.getD (node.getD j 0) 0) G_I,
        writeColumn node.length i (fun j x => x + f.getD (node.getD j 0) 0) G_R) := by
  unfold storeTotal writeColumn
  exact foldl_pair (fun (G : Matrix) j => G.put j i (f.getD (node.getD j 0) 0))
    (fun (G : Matrix) j => G.put j i (G.entry j i + f.getD (node.getD j 0) 0)) _ _ _

theorem storeColumn_eq (node : List Nat) (i : Nat) (G : Matrix) (f : Vec) :
    storeColumn node i G f =
      writeColumn node.length i (fun j _ => f.getD (node.getD j 0) 0) G := rfl

/-! ## Sizes of the scratch vectors -/

theorem vec_eq_length (dst src : Vec) : (vec_eq dst src).length = dst.length :=
  foldl_set_length (fun _ i => i) (fun _ i => src.getD i 0) _ dst

theorem vec_eq_of_length (dst src : Vec) (h : dst.length = src.length) :
    vec_eq dst src = src := by
  apply ext_getD _ _ src.length (by rw [vec_eq_length, h]) rfl
  intro j hj
  unfold vec_eq
  rw [foldl_range_set_getD (fun i (_ : ℚ) => src.getD i 0) 0, if_pos ⟨hj, by rw [h]; exact hj⟩]

theorem add_eq_length (a b : Vec) : (add_eq a b).length = a.length :=
  foldl_set_length (fun _ i => i) (fun (o : Vec) i => o.getD i 0 + b.getD i 0) _ a

theorem put_value_length (v : Vec) (x : ℚ) : (put_value v x).length = v.length := by
  unfold put_value
  exact List.length_replicate _ _

theorem lam_diff_length (t a r : Vec) (sp : ℚ) (h : lam_diff t sp a = Except.ok r) :
    r.length = t.length := by
  unfold lam_diff at h
  split_ifs at h
  injection h with h
  rw [← h]
  exact foldl_set_length (fun _ i => i) (fun (o : Vec) i => o.getD i 0 - sp * a.getD i 0) _ t

theorem projectQ_length (right left v r : Vec) (h : projectQ right left v = Except.ok r) :
    r.length = v.length := by
  unfold projectQ at h
  obtain ⟨sp, _, h2⟩ := bind_ok h
  exact lam_diff_length _ _ _ _ h2

theorem projectP_length (right left v r : Vec) (f : ℚ)
    (h : projectP right left v f = Except.ok r) : r.length = v.length := by
  unfold projectP at h
  obtain ⟨sp, _, h2⟩ := bind_ok h
  simp only [] at h2
  split_ifs at h2
  injection h2 with h2
  rw [← h2]
  exact foldl_set_length (fun _ i => i) (fun _ i => sp / f * right.getD i 0) _ v

/-- `GGmult` overwrites every slot of `output`: its result does not depend on
the content that an `output` of `size` entries held before. -/
theorem GGmult_out_irrel (net : Network) (α : ℚ) (out out' inp : Vec) (flag : Nat)
    (h : out.length = net.size) (h' : out'.length = net.size) :
    GGmult net α out inp flag = GGmult net α out' inp flag := by
  have e : (List.range net.size).foldl (fun o i => o.set i (GGmult_dangling net inp)) out =
      (List.range net.size).foldl (fun o i => o.set i (GGmult_dangling net inp)) out' := by
    apply ext_getD _ _ net.size
      (by rw [foldl_range_set_length (fun _ _ => GGmult_dangling net inp) 0, h])
      (by rw [foldl_range_set_length (fun _ _ => GGmult_dangling net inp) 0, h'])
    intro j hj
    rw [foldl_range_set_getD (fun _ _ => GGmult_dangling net inp) 0,
      foldl_range_set_getD (fun _ _ => GGmult_dangling net inp) 0,
      if_pos ⟨hj, by rw [h]; exact hj⟩, if_pos ⟨hj, by rw [h']; exact hj⟩]
  unfold GGmult
  simp only []
  rw [e]

/-! ## The column loop of `compute_GR` -/

theorem head_input (st : GRState) (n k : Nat) (h : st.input.length = n) :
    (put_value st.input 0).set k 1 = impulse n k := by
  unfold put_value impulse
  rw [h]

theorem impulse_length (n k : Nat) : (impulse n k).length = n := by
  unfold impulse
  rw [List.length_set, List.length_replicate]

theorem newVector_length (n : Nat) : (newVector n : Vec).length = n :=
  List.length_replicate _ _

theorem impulseOut_length (net : Network) (α : ℚ) (node : List Nat) (i : Nat) :
    (impulseOut net α node i).length = net.size := by
  unfold impulseOut
  rw [GGmult_length, newVector_length]

theorem columnHead_ok_iff (net : Network) (α : ℚ) (node : List Nat) (psiR psiL : Vec)
    (dlambda : ℚ) (i : Nat) (st r : GRState) (hs : st.Sized net.size) :
    columnHead net α node psiR psiL dlambda i st = Except.ok r ↔
      ∃ ov sv,
        projectP psiR psiL (zeroPrefix node node.length (impulseOut net α node i)) dlambda =
          Except.ok ov ∧
        projectQ psiR psiL (zeroPrefix node node.length (impulseOut net α node i)) =
          Except.ok sv ∧
        r = { st with
              G_R := writeColumn node.length i
                (fun j _ => (zeroPrefix node j (impulseOut net α node i)).getD (node.getD j 0) 0)
                st.G_R
              G_rr := writeColumn node.length i
                (fun j _ => (zeroPrefix node j (impulseOut net α node i)).getD (node.getD j 0) 0)
                st.G_rr
              input := (impulse net.size (node.getD i 0)).set (node.getD i 0) 0
              output := ov, s := sv, f := sv } := by
  obtain ⟨h1, h2, h3, h4, h5, h6⟩ := hs
  have e0 : GGmult net α st.output ((put_value st.input 0).set (node.getD i 0) 1) 1 =
      impulseOut net α node i := by
    rw [head_input st _ _ h1]
    exact GGmult_out_irrel net α _ _ _ _ h2 (newVector_length _)
  have e1 : vec_eq st.s (zeroPrefix node node.length (impulseOut net α node i)) =
      zeroPrefix node node.length (impulseOut net α node i) :=
    vec_eq_of_length _ _ (by rw [zeroPrefix_length, impulseOut_length, h3])
  unfold columnHead
  simp only [bind, Except.bind, pure, Except.pure]
  rw [e0, storeImpulse_eq]
  simp only []
  rw [e1, head_input st _ _ h1]
  cases hP : projectP psiR psiL (zeroPrefix node node.length (impulseOut net α node i)) dlambda with
  | error e =>
    constructor
    · intro h; cases h
    · rintro ⟨ov, sv, h, _⟩; cases h
  | ok ov =>
    cases hQ : projectQ psiR psiL (zeroPrefix node node.length (impulseOut net α node i)) with
    | error e =>
      constructor
      · intro h; cases h
      · rintro ⟨ov, sv, _, h, _⟩; cases h
    | ok sv =>
      have e2 : vec_eq st.f sv = sv :=
        vec_eq_of_length _ _ (by
          rw [projectQ_length _ _ _ _ hQ, zeroPrefix_length, impulseOut_length, h5])
      simp only [e2]
      constructor
      · intro h
        injection h with h
        exact ⟨ov, sv, rfl, rfl, h.symm⟩
      · rintro ⟨ov', sv', h1', h2', h3'⟩
        injection h1' with h1'
        injection h2' with h2'
        subst h1'
        subst h2'
        rw [h3']
theorem zero_fold_eq (node : List Nat) (f : Vec) :
    (List.range node.length).foldl (fun f j => f.set (node.getD j 0) 0) f =
      zeroPrefix node node.length f := rfl

/-- One pass of the inner loop reads `t` and `f2` only as buffers: two states
that agree on `s` and `f` and have buffers of the right sizes give the same
pass. -/
theorem resolventStep_indep (net : Network) (α : ℚ) (node : List Nat) (psiR psiL : Vec)
    (rs rs' : ResState) (hs : rs'.s = rs.s) (hf : rs'.f = rs.f)
    (ht : rs.t.length = rs.s.length) (ht' : rs'.t.length = rs.s.length)
    (h2 : rs.f2.length = net.size) (h2' : rs'.f2.length = net.size) :
    resolventStep net α node psiR psiL rs' = resolventStep net α node psiR psiL rs := by
  unfold resolventStep
  rw [hs, hf, vec_eq_of_length _ _ ht, vec_eq_of_length _ _ ht',
    GGmult_out_irrel net α rs'.f2 rs.f2 rs.f 0 h2' h2]

theorem resolventStep_sized (net : Network) (α : ℚ) (node : List Nat) (psiR psiL : Vec)
    (rs : ResState) (r : ResState × Bool) (hz : rs.Sized net.size)
    (h : resolventStep net α node psiR psiL rs = Except.ok r) : r.1.Sized net.size := by
  obtain ⟨h1, h2, h3, h4⟩ := hz
  unfold resolventStep at h
  simp only [] at h
  obtain ⟨fv, hfv, h⟩ := bind_ok h
  obtain ⟨q, _, h⟩ := bind_ok h
  injection h with h
  rw [← h]
  have hl := projectQ_length _ _ _ _ hfv
  rw [zero_fold_eq, zeroPrefix_length, GGmult_length] at hl
  refine ⟨?_, ?_, ?_, ?_⟩
  · show (add_eq rs.s fv).length = net.size
    rw [add_eq_length, h1]
  · show (vec_eq rs.t rs.s).length = net.size
    rw [vec_eq_length, h2]
  · show fv.length = net.size
    rw [hl, h4]
  · exact h3

theorem resolventLoop_sized (net : Network) (α : ℚ) (node : List Nat) (psiR psiL : Vec)
    (m : Nat) (rs r : ResState) (hz : rs.Sized net.size)
    (h : resolventLoop net α node psiR psiL m rs = Except.ok r) : r.Sized net.size := by
  induction m generalizing rs with
  | zero =>
    injection h with h
    rw [← h]
    exact hz
  | succ m ih =>
    unfold resolventLoop at h
    obtain ⟨p, hp, h⟩ := bind_ok h
    have hz' := resolventStep_sized net α node psiR psiL rs p hz hp
    split_ifs at h
    · injection h with h
      rw [← h]
      exact hz'
    · exact ih p.1 hz' h

/-- The inner loop reads `t` and `f2` only as buffers: started from two states
that agree on `s` and `f`, it ends with the same `s` and `f`. -/
theorem resolventLoop_indep (net : Network) (α : ℚ) (node : List Nat) (psiR psiL : Vec)
    (m : Nat) (rs rs' r : ResState) (hs : rs'.s = rs.s) (hf : rs'.f = rs.f)
    (hz : rs.Sized net.size) (hz' : rs'.Sized net.size)
    (h : resolventLoop net α node psiR psiL m rs = Except.ok r) :
    ∃ r', resolventLoop net α node psiR psiL m rs' = Except.ok r' ∧ r'.s = r.s ∧ r'.f = r.f := by
  cases m with
  | zero =>
    injection h with h
    exact ⟨rs', rfl, by rw [hs, ← h], by rw [hf, ← h]⟩
  | succ m =>
    refine ⟨r, ?_, rfl, rfl⟩
    unfold resolventLoop
    unfold resolventLoop at h
    rw [resolventStep_indep net α node psiR psiL rs rs' hs hf (by rw [hz.2.1, hz.1])
      (by rw [hz'.2.1, hz.1]) hz.2.2.2 hz'.2.2.2]
    exact h
/-- The tail of the column body with its three outputs of `GGmult` written on
fresh buffers. -/
theorem columnTail_eq (net : Network) (α : ℚ) (node : List Nat) (i : Nat) (u : GRState)
    (hf : u.f.length = net.size) :
    columnTail net α node i u =
      { u with
        G_R := writeColumn node.length i
          (fun j x => x + (GGmult net α (newVector net.size) (add_eq u.output u.s) 0).getD
            (node.getD j 0) 0) u.G_R
        G_pr := writeColumn node.length i
          (fun j _ => (GGmult net α (newVector net.size) u.output 0).getD (node.getD j 0) 0)
          u.G_pr
        G_qr := writeColumn node.length i
          (fun j _ => (GGmult net α (newVector net.size) u.s 0).getD (node.getD j 0) 0) u.G_qr
        G_I := writeColumn node.length i
          (fun j _ => (GGmult net α (newVector net.size) (add_eq u.output u.s) 0).getD
            (node.getD j 0) 0) u.G_I
        output := add_eq u.output u.s
        f := GGmult net α (newVector net.size) (add_eq u.output u.s) 0 } := by
  have e1 : GGmult net α u.f u.output 0 = GGmult net α (newVector net.size) u.output 0 :=
    GGmult_out_irrel net α _ _ _ _ hf (newVector_length _)
  have e2 : GGmult net α (GGmult net α (newVector net.size) u.output 0) u.s 0 =
      GGmult net α (newVector net.size) u.s 0 :=
    GGmult_out_irrel net α _ _ _ _ (by rw [GGmult_length, newVector_length]) (newVector_length _)
  have e3 : GGmult net α (GGmult net α (newVector net.size) u.s 0) (add_eq u.output u.s) 0 =
      GGmult net α (newVector net.size) (add_eq u.output u.s) 0 :=
    GGmult_out_irrel net α _ _ _ _ (by rw [GGmult_length, newVector_length]) (newVector_length _)
  unfold columnTail
  simp only []
  rw [e1, e2, e3, storeTotal_eq, storeColumn_eq, storeColumn_eq]

/-- The column body on scratch vectors of the right sizes, step by step. -/
theorem columnBody_ok_iff (max_iter : Int) (net : Network) (α : ℚ) (node : List Nat)
    (psiR psiL : Vec) (dlambda : ℚ) (i : Nat) (st r : GRState) (hs : st.Sized net.size) :
    columnBody max_iter net α node psiR psiL dlambda i st = Except.ok r ↔
      ∃ ov sv rs,
        projectP psiR psiL (zeroPrefix node node.length (impulseOut net α node i)) dlambda =
          Except.ok ov ∧
        projectQ psiR psiL (zeroPrefix node node.length (impulseOut net α node i)) =
          Except.ok sv ∧
        resolventLoop net α node psiR psiL max_iter.toNat
          { s := sv, t := st.t, f := sv, f2 := st.f2 } = Except.ok rs ∧
        r = columnTail net α node i
          { st with
            G_R := writeColumn node.length i
              (fun j _ => (zeroPrefix node j (impulseOut net α node i)).getD (node.getD j 0) 0)
              st.G_R
            G_rr := writeColumn node.length i
              (fun j _ => (zeroPrefix node j (impulseOut net α node i)).getD (node.getD j 0) 0)
              st.G_rr
            input := (impulse net.size (node.getD i 0)).set (node.getD i 0) 0
            output := ov, s := rs.s, t := rs.t, f := rs.f, f2 := rs.f2 } := by
  unfold columnBody
  constructor
  · intro h
    obtain ⟨st1, h1, h⟩ := bind_ok h
    obtain ⟨rs, h2, h⟩ := bind_ok h
    obtain ⟨ov, sv, hP, hQ, e⟩ := (columnHead_ok_iff net α node psiR psiL dlambda i st st1 hs).1 h1
    injection h with h
    subst e
    exact ⟨ov, sv, rs, hP, hQ, h2, h.symm⟩
  · rintro ⟨ov, sv, rs, hP, hQ, hL, e⟩
    have h1 := (columnHead_ok_iff net α node psiR psiL dlambda i st _ hs).2 ⟨ov, sv, hP, hQ, rfl⟩
    rw [h1]
    simp only [bind, Except.bind, pure, Except.pure]
    rw [hL, e]
/-- What one pass of the column loop does: it keeps the sizes, leaves the
other columns alone, and fills column `i` from the vectors of its own run. -/
theorem column_step (max_iter : Int) (net : Network) (α : ℚ) (node : List Nat)
    (psiR psiL : Vec) (dlambda : ℚ) (i : Nat) (st r : GRState) (hs : st.Sized net.size)
    (hm : st.Shaped node.length) (hi : i < node.length)
    (h : columnBody max_iter net α node psiR psiL dlambda i st = Except.ok r) :
    r.Sized net.size ∧ r.Shaped node.length ∧
      (∃ ov sfin, ColumnRun max_iter net α node psiR psiL dlambda i ov sfin ∧
        IsColumn net α node i r ov sfin) ∧
      ∀ i', i' ≠ i → SameColumn i' r st := by
  obtain ⟨ov, sv, rs, hP, hQ, hL, e⟩ :=
    (columnBody_ok_iff max_iter net α node psiR psiL dlambda i st r hs).1 h
  obtain ⟨h1, h2, h3, h4, h5, h6⟩ := hs
  obtain ⟨m1, m2, m3, m4, m5⟩ := hm
  have hsv : sv.length = net.size := by
    rw [projectQ_length _ _ _ _ hQ, zeroPrefix_length, impulseOut_length]
  have hov : ov.length = net.size := by
    rw [projectP_length _ _ _ _ _ hP, zeroPrefix_length, impulseOut_length]
  have hz : ResState.Sized { s := sv, t := st.t, f := sv, f2 := st.f2 } net.size :=
    ⟨hsv, h4, hsv, h6⟩
  have hz' : ResState.Sized
      { s := sv, t := newVector net.size, f := sv, f2 := newVector net.size } net.size :=
    ⟨hsv, newVector_length _, hsv, newVector_length _⟩
  have hrs := resolventLoop_sized net α node psiR psiL _ _ _ hz hL
  obtain ⟨rs', hL', hs', _⟩ := resolventLoop_indep net α node psiR psiL _
    { s := sv, t := st.t, f := sv, f2 := st.f2 }
    { s := sv, t := newVector net.size, f := sv, f2 := newVector net.size } rs rfl rfl hz hz' hL
  rw [columnTail_eq net α node i _ hrs.2.2.1] at e
  subst e
  refine ⟨⟨?_, ?_, hrs.1, hrs.2.1, ?_, hrs.2.2.2⟩, ⟨?_, ?_, ?_, ?_, ?_⟩,
    ⟨ov, rs.s, ⟨hP, sv, rs', hQ, hL', hs'⟩, ?_⟩, ?_⟩
  · show ((impulse net.size (node.getD i 0)).set (node.getD i 0) 0).length = net.size
    rw [List.length_set, impulse_length]
  · show (add_eq ov rs.s).length = net.size
    rw [add_eq_length, hov]
  · show (GGmult net α (newVector net.size) (add_eq ov rs.s) 0).length = net.size
    rw [GGmult_length, newVector_length]
  · exact writeColumn_shaped _ _ _ _ _ (writeColumn_shaped _ _ _ _ _ m1)
  · exact writeColumn_shaped _ _ _ _ _ m2
  · exact writeColumn_shaped _ _ _ _ _ m3
  · exact writeColumn_shaped _ _ _ _ _ m4
  · exact writeColumn_shaped _ _ _ _ _ m5
  · intro j hj
    simp only []
    rw [writeColumn_entry _ _ _ _ _ (writeColumn_shaped _ _ _ _ _ m1) (le_refl _) hi,
      if_pos ⟨rfl, hj⟩, writeColumn_entry _ _ _ _ _ m1 (le_refl _) hi, if_pos ⟨rfl, hj⟩,
      writeColumn_entry _ _ _ _ _ m2 (le_refl _) hi, if_pos ⟨rfl, hj⟩,
      writeColumn_entry _ _ _ _ _ m3 (le_refl _) hi, if_pos ⟨rfl, hj⟩,
      writeColumn_entry _ _ _ _ _ m4 (le_refl _) hi, if_pos ⟨rfl, hj⟩,
      writeColumn_entry _ _ _ _ _ m5 (le_refl _) hi, if_pos ⟨rfl, hj⟩]
    exact ⟨rfl, rfl, rfl, rfl, rfl⟩
  · intro i' hi' j
    simp only []
    rw [writeColumn_entry _ _ _ _ _ (writeColumn_shaped _ _ _ _ _ m1) (le_refl _) hi,
      if_neg (fun hc => hi' hc.1), writeColumn_entry _ _ _ _ _ m1 (le_refl _) hi,
      if_neg (fun hc => hi' hc.1),
      writeColumn_entry _ _ _ _ _ m2 (le_refl _) hi, if_neg (fun hc => hi' hc.1),
      writeColumn_entry _ _ _ _ _ m3 (le_refl _) hi, if_neg (fun hc => hi' hc.1),
      writeColumn_entry _ _ _ _ _ m4 (le_refl _) hi, if_neg (fun hc => hi' hc.1),
      writeColumn_entry _ _ _ _ _ m5 (le_refl _) hi, if_neg (fun hc => hi' hc.1)]
    exact ⟨rfl, rfl, rfl, rfl, rfl⟩
theorem sameColumn_refl (i : Nat) (st : GRState) : SameColumn i st st :=
  fun _ => ⟨rfl, rfl, rfl, rfl, rfl⟩

theorem sameColumn_trans (i : Nat) (a b c : GRState) (h1 : SameColumn i a b)
    (h2 : SameColumn i b c) : SameColumn i a c := fun j =>
  ⟨(h1 j).1.trans (h2 j).1, (h1 j).2.1.trans (h2 j).2.1, (h1 j).2.2.1.trans (h2 j).2.2.1,
    (h1 j).2.2.2.1.trans (h2 j).2.2.2.1, (h1 j).2.2.2.2.trans (h2 j).2.2.2.2⟩

theorem isColumn_of_same (net : Network) (α : ℚ) (node : List Nat) (i : Nat)
    (a b : GRState) (ov sfin : Vec) (h : SameColumn i a b) (hb : IsColumn net α node i b ov sfin) :
    IsColumn net α node i a ov sfin := by
  intro j hj
  obtain ⟨e1, e2, e3, e4, e5⟩ := h j
  obtain ⟨c1, c2, c3, c4, c5⟩ := hb j hj
  exact ⟨e2.trans c1, e3.trans c2, e4.trans c3, e5.trans c4, e1.trans c5⟩

/-- The column loop over any list of columns: every processed column holds the
values of its own run on fresh buffers, every other column is untouched. -/
theorem columns_fold (max_iter : Int) (net : Network) (α : ℚ) (node : List Nat)
    (psiR psiL : Vec) (dlambda : ℚ) (cols : List Nat) (st st' : GRState)
    (hs : st.Sized net.size) (hm : st.Shaped node.length)
    (hc : ∀ i, i ∈ cols → i < node.length)
    (h : cols.foldlM (fun st i => columnBody max_iter net α node psiR psiL dlambda i st) st =
      Except.ok st') :
    st'.Sized net.size ∧ st'.Shaped node.length ∧
      (∀ i, i ∈ cols → ∃ ov sfin, ColumnRun max_iter net α node psiR psiL dlambda i ov sfin ∧
        IsColumn net α node i st' ov sfin) ∧
      ∀ i, i ∉ cols → SameColumn i st' st := by
  induction cols generalizing st with
  | nil =>
    injection h with h
    subst h
    exact ⟨hs, hm, fun i hi => absurd hi (List.not_mem_nil i), fun i _ => sameColumn_refl i st⟩
  | cons c cs ih =>
    rw [List.foldlM_cons] at h
    obtain ⟨st1, h1, h2⟩ := bind_ok h
    obtain ⟨s1, m1, ⟨ov, sfin, hrun, hcol⟩, hsame⟩ :=
      column_step max_iter net α node psiR psiL dlambda c st st1 hs hm
        (hc c (List.mem_cons_self _ _)) h1
    obtain ⟨s2, m2, hin, hout⟩ := ih st1 s1 m1 (fun i hi => hc i (List.mem_cons_of_mem _ hi)) h2
    refine ⟨s2, m2, fun i hi => ?_, fun i hi => ?_⟩
    · by_cases hics : i ∈ cs
      · exact hin i hics
      · have hic : i = c := by
          rcases List.mem_cons.mp hi with h3 | h3
          · exact h3
          · exact absurd h3 hics
        subst hic
        exact ⟨ov, sfin, hrun, isColumn_of_same net α node i st' st1 ov sfin (hout i hics) hcol⟩
    · have hne : i ≠ c := fun he => hi (by rw [he]; exact List.mem_cons_self _ _)
      have hnc : i ∉ cs := fun he => hi (List.mem_cons_of_mem _ he)
      exact sameColumn_trans i st' st1 st (hout i hnc) (hsame i hne)

theorem checkSizes_ok (G_R G_rr G_pr G_qr G_I : Matrix) (nr : Nat)
    (h : checkSizes G_R G_rr G_pr G_qr G_I nr = Except.ok ()) :
    (G_R.x = nr ∧ G_R.y = nr) ∧ (G_rr.x = nr ∧ G_rr.y = nr) ∧ (G_pr.x = nr ∧ G_pr.y = nr) ∧
      (G_qr.x = nr ∧ G_qr.y = nr) ∧ (G_I.x = nr ∧ G_I.y = nr) := by
  unfold checkSizes at h
  split_ifs at h with c1 c2 c3 c4 c5
  exact ⟨⟨by omega, by omega⟩, ⟨by omega, by omega⟩, ⟨by omega, by omega⟩,
    ⟨by omega, by omega⟩, ⟨by omega, by omega⟩⟩

/-- The stages of a run of `compute_GR` that completes. -/
theorem compute_GR_ok (max_iter : Int) (G_R G_rr G_pr G_qr G_I : Matrix) (psiL psiR pg : Vec)
    (net : Network) (α : ℚ) (node : List Nat) (res : GRResult)
    (h : compute_GR max_iter G_R G_rr G_pr G_qr G_I psiL psiR pg net α node = Except.ok res) :
    checkSizes G_R G_rr G_pr G_qr G_I node.length = Except.ok () ∧
      ∃ p, compute_project max_iter psiR psiL pg net α node = Except.ok p ∧
        (List.range node.length).foldlM
          (fun st i => columnBody max_iter net α node p.1 p.2.1 p.2.2.2 i st)
          (entryState G_R G_rr G_pr G_qr G_I net.size) = Except.ok res.st ∧
        res.psiR = p.1 ∧ res.psiL = p.2.1 ∧ res.pg = p.2.2.1 ∧ res.dlambda = p.2.2.2 := by
  unfold compute_GR at h
  simp only [] at h
  obtain ⟨u, hu, h⟩ := bind_ok h
  obtain ⟨p, hp, h⟩ := bind_ok h
  obtain ⟨st, hst, h⟩ := bind_ok h
  injection h with h
  subst h
  exact ⟨hu, p, hp, hst, rfl, rfl, rfl, rfl⟩

theorem ok_of_isOk {ε α : Type} (x : Except ε α) (h : x.isOk = true) : ∃ a, x = Except.ok a := by
  cases x with
  | ok a => exact ⟨a, rfl⟩
  | error e => cases h

theorem entryState_sized (G_R G_rr G_pr G_qr G_I : Matrix) (n : Nat) :
    (entryState G_R G_rr G_pr G_qr G_I n).Sized n :=
  ⟨newVector_length n, newVector_length n, newVector_length n, newVector_length n,
    newVector_length n, newVector_length n⟩

theorem newMatrix_shaped (n : Nat) : (newMatrix n n).Shaped n := by
  refine ⟨List.length_replicate _ _, fun j hj => ?_⟩
  show ((List.replicate n (List.replicate n (0 : ℚ))).getD j []).length = n
  rw [List.getD_eq_getElem _ _ (by rw [List.length_replicate]; exact hj), List.getElem_replicate,
    List.length_replicate]

/-- The vectors of the run of a column are determined by the column. -/
theorem columnRun_unique (max_iter : Int) (net : Network) (α : ℚ) (node : List Nat)
    (psiR psiL : Vec) (dlambda : ℚ) (i : Nat) (ov sfin ov' sfin' : Vec)
    (h : ColumnRun max_iter net α node psiR psiL dlambda i ov sfin)
    (h' : ColumnRun max_iter net α node psiR psiL dlambda i ov' sfin') :
    ov = ov' ∧ sfin = sfin' := by
  obtain ⟨hP, sv, rs, hQ, hL, hs⟩ := h
  obtain ⟨hP', sv', rs', hQ', hL', hs'⟩ := h'
  rw [hP] at hP'
  rw [hQ] at hQ'
  injection hP' with hP'
  injection hQ' with hQ'
  subst hQ'
  rw [hL] at hL'
  injection hL' with hL'
  subst hL'
  exact ⟨hP', hs.symm.trans hs'⟩

/-- A column whose run on fresh buffers completes can be processed from any
state with scratch vectors of the right sizes. -/
theorem column_exists (max_iter : Int) (net : Network) (α : ℚ) (node : List Nat)
    (psiR psiL : Vec) (dlambda : ℚ) (i : Nat) (ov sfin : Vec) (st : GRState)
    (hs : st.Sized net.size)
    (h : ColumnRun max_iter net α node psiR psiL dlambda i ov sfin) :
    ∃ r, columnBody max_iter net α node psiR psiL dlambda i st = Except.ok r := by
  obtain ⟨hP, sv, rs, hQ, hL, _⟩ := h
  have hsv : sv.length = net.size := by
    rw [projectQ_length _ _ _ _ hQ, zeroPrefix_length, impulseOut_length]
  obtain ⟨rs', hL', _, _⟩ := resolventLoop_indep net α node psiR psiL _
    { s := sv, t := newVector net.size, f := sv, f2 := newVector net.size }
    { s := sv, t := st.t, f := sv, f2 := st.f2 } rs rfl rfl
    ⟨hsv, newVector_length _, hsv, newVector_length _⟩ ⟨hsv, hs.2.2.2.1, hsv, hs.2.2.2.2.2⟩ hL
  exact ⟨_, (columnBody_ok_iff max_iter net α node psiR psiL dlambda i st _ hs).2
    ⟨ov, sv, rs', hP, hQ, hL', rfl⟩⟩

/-- The column loop over a list of columns completes when the run of each of
its columns does. -/
theorem columns_fold_exists (max_iter : Int) (net : Network) (α : ℚ) (node : List Nat)
    (psiR psiL : Vec) (dlambda : ℚ) (cols : List Nat) (st : GRState)
    (hs : st.Sized net.size) (hm : st.Shaped node.length)
    (hc : ∀ i, i ∈ cols → i < node.length)
    (hrun : ∀ i, i ∈ cols → ∃ ov sfin, ColumnRun max_iter net α node psiR psiL dlambda i ov sfin) :
    ∃ st', cols.foldlM
      (fun st i => columnBody max_iter net α node psiR psiL dlambda i st) st = Except.ok st' := by
  induction cols generalizing st with
  | nil => exact ⟨st, rfl⟩
  | cons c cs ih =>
    obtain ⟨ov, sfin, hr⟩ := hrun c (List.mem_cons_self _ _)
    obtain ⟨st1, h1⟩ := column_exists max_iter net α node psiR psiL dlambda c ov sfin st hs hr
    obtain ⟨s1, m1, _, _⟩ := column_step max_iter net α node psiR psiL dlambda c st st1 hs hm
      (hc c (List.mem_cons_self _ _)) h1
    obtain ⟨st', h2⟩ := ih st1 s1 m1 (fun i hi => hc i (List.mem_cons_of_mem _ hi))
      (fun i hi => hrun i (List.mem_cons_of_mem _ hi))
    refine ⟨st', ?_⟩
    rw [List.foldlM_cons, h1]
    exact h2

/-- After a run of `compute_GR` that completes, every column holds the values
of its own run on fresh buffers. -/
theorem compute_GR_columns (max_iter : Int) (G_R G_rr G_pr G_qr G_I : Matrix)
    (psiL psiR pg : Vec) (net : Network) (α : ℚ) (node : List Nat) (res : GRResult)
    (hm : (entryState G_R G_rr G_pr G_qr G_I net.size).Shaped node.length)
    (h : compute_GR max_iter G_R G_rr G_pr G_qr G_I psiL psiR pg net α node = Except.ok res) :
    res.st.Sized net.size ∧ res.st.Shaped node.length ∧
      ∀ i, i < node.length →
        ∃ ov sfin, ColumnRun max_iter net α node res.psiR res.psiL res.dlambda i ov sfin ∧
          IsColumn net α node i res.st ov sfin := by
  obtain ⟨_, p, _, hf, e1, e2, _, e4⟩ := compute_GR_ok _ _ _ _ _ _ _ _ _ _ _ _ _ h
  rw [e1, e2, e4]
  obtain ⟨s1, m1, hcol, _⟩ := columns_fold max_iter net α node p.1 p.2.1 p.2.2.2
    (List.range node.length) _ _ (entryState_sized _ _ _ _ _ _) hm
    (fun i hi => List.mem_range.mp hi) hf
  exact ⟨s1, m1, fun i hi => hcol i (List.mem_range.mpr hi)⟩
theorem entry_beyond_rows (M : Matrix) (nr j i : Nat) (h : M.Shaped nr) (hj : nr ≤ j) :
    M.entry j i = 0 := by
  unfold Matrix.entry
  rw [getD_of_le_length M.mat j [] (by rw [h.1]; exact hj)]
  rfl

/-- Two states whose column `i` is described by the same vectors agree on
column `i`. -/
theorem sameColumn_of_isColumn (net : Network) (α : ℚ) (node : List Nat) (i : Nat)
    (a b : GRState) (ov sfin : Vec) (ha : a.Shaped node.length) (hb : b.Shaped node.length)
    (ca : IsColumn net α node i a ov sfin) (cb : IsColumn net α node i b ov sfin) :
    SameColumn i a b := by
  intro j
  by_cases hj : j < node.length
  · obtain ⟨a1, a2, a3, a4, a5⟩ := ca j hj
    obtain ⟨b1, b2, b3, b4, b5⟩ := cb j hj
    exact ⟨a5.trans b5.symm, a1.trans b1.symm, a2.trans b2.symm, a3.trans b3.symm,
      a4.trans b4.symm⟩
  · have hj' : node.length ≤ j := Nat.le_of_not_lt hj
    obtain ⟨a1, a2, a3, a4, a5⟩ := ha
    obtain ⟨b1, b2, b3, b4, b5⟩ := hb
    refine ⟨?_, ?_, ?_, ?_, ?_⟩
    · rw [entry_beyond_rows _ _ _ _ a1 hj', entry_beyond_rows _ _ _ _ b1 hj']
    · rw [entry_beyond_rows _ _ _ _ a2 hj', entry_beyond_rows _ _ _ _ b2 hj']
    · rw [entry_beyond_rows _ _ _ _ a3 hj', entry_beyond_rows _ _ _ _ b3 hj']
    · rw [entry_beyond_rows _ _ _ _ a4 hj', entry_beyond_rows _ _ _ _ b4 hj']
    · rw [entry_beyond_rows _ _ _ _ a5 hj', entry_beyond_rows _ _ _ _ b5 hj']

theorem zeroPrefix_getD_nodup (node : List Nat) (hnd : node.Nodup) (j : Nat)
    (hj : j < node.length) (o : Vec) :
    (zeroPrefix node j o).getD (node.getD j 0) 0 = o.getD (node.getD j 0) 0 := by
  rw [zeroPrefix_getD, if_neg]
  rintro ⟨l, hl, he⟩
  rw [List.getD_eq_getElem node 0 (by omega : l < node.length),
    List.getD_eq_getElem node 0 hj] at he
  have := (List.Nodup.getElem_inj_iff hnd).1 he
  omega

theorem checkSizes_error (G_R G_rr G_pr G_qr G_I : Matrix) (nr : Nat)
    (h : ¬ ((G_R.x = nr ∧ G_R.y = nr) ∧ (G_rr.x = nr ∧ G_rr.y = nr) ∧
      (G_pr.x = nr ∧ G_pr.y = nr) ∧ (G_qr.x = nr ∧ G_qr.y = nr) ∧ (G_I.x = nr ∧ G_I.y = nr))) :
    ∃ msg, checkSizes G_R G_rr G_pr G_qr G_I nr = Except.error (Fault.thrown msg) := by
  unfold checkSizes
  split_ifs with c1 c2 c3 c4 c5
  · exact ⟨_, rfl⟩
  · exact ⟨_, rfl⟩
  · exact ⟨_, rfl⟩
  · exact ⟨_, rfl⟩
  · exact ⟨_, rfl⟩
  · exact absurd ⟨⟨by omega, by omega⟩, ⟨by omega, by omega⟩, ⟨by omega, by omega⟩,
      ⟨by omega, by omega⟩, ⟨by omega, by omega⟩⟩ h

theorem grInput_shaped (G_R G_rr G_pr G_qr G_I : Matrix) (psiL psiR pg : Vec) (net : Network)
    (node : List Nat) (h : GRInput G_R G_rr G_pr G_qr G_I psiL psiR pg net node) (n : Nat) :
    (entryState G_R G_rr G_pr G_qr G_I n).Shaped node.length := h.1

theorem triangle_wellFormed : WellFormed triangle :=
  ⟨loaded 3 [0, 0, 1, 1, 2, 2] [1, 2, 0, 2, 0, 1], by decide, by decide, by decide, by decide,
    rfl⟩

theorem triangle_input :
    GRInput (newMatrix 2 2) (newMatrix 2 2) (newMatrix 2 2) (newMatrix 2 2) (newMatrix 2 2)
      [0, 0, 0] [0, 0, 0] [0, 0, 0] triangle [0, 1] :=
  ⟨⟨newMatrix_shaped 2, newMatrix_shaped 2, newMatrix_shaped 2, newMatrix_shaped 2,
    newMatrix_shaped 2⟩, by decide, by decide, by decide, by decide⟩

theorem triangle_completes :
    (compute_GR 118 (newMatrix 2 2) (newMatrix 2 2) (newMatrix 2 2) (newMatrix 2 2)
      (newMatrix 2 2) [0, 0, 0] [0, 0, 0] [0, 0, 0] triangle (1 / 2) [0, 1]).isOk = true := by
  decide!

/-- At index 0 the print interval plays no part: `0 % iprint = 0`. -/
theorem iterStep_zero (max_iter : Int) (net : Network) (α : ℚ) (iprint : Int)
    (node : List Nat) (trans_frag : Nat) (st : IterState) :
    iterStep max_iter net α iprint node trans_frag 0 st =
      iterStep max_iter net α 1 node trans_frag 0 st := by
  unfold iterStep
  simp only [Nat.cast_zero, Int.zero_emod, true_or, if_true]

/-- A loop whose first pass ends in `break` returns the state of that pass. -/
theorem iterLoop_break_first (max_iter : Int) (net : Network) (α : ℚ) (iprint : Int)
    (node : List Nat) (trans_frag : Nat) (n : Nat) (st r : IterState)
    (h : iterStep max_iter net α 1 node trans_frag 0 st = Except.ok (r, true)) :
    iterLoop max_iter net α iprint node trans_frag (n + 1) 0 st = Except.ok r := by
  unfold iterLoop
  rw [iterStep_zero, h]
  rfl

/-! ## The deflating power iteration -/

theorem deflate_fold (p : Vec) (node : List Nat) (m : Nat) :
    ((List.range m).foldl
      (fun (st : ℚ × Vec) l =>
        (st.1 + st.2.getD (node.getD l 0) 0, st.2.set (node.getD l 0) 0)) (0, p)).2 =
      zeroPrefix node m p := by
  induction m with
  | zero => rfl
  | succ m ih =>
    rw [zeroPrefix_succ, ← ih, List.range_succ, List.foldl_append, List.foldl_cons,
      List.foldl_nil]

/-- The vector left by the deflation loop is the input with the slots of the
subset cleared. -/
theorem deflate_snd (p : Vec) (node : List Nat) :
    (deflate p node).2 = zeroPrefix node node.length p :=
  deflate_fold p node node.length

theorem deflate_length (p : Vec) (node : List Nat) : (deflate p node).2.length = p.length := by
  rw [deflate_snd, zeroPrefix_length]

theorem deflate_zero (p : Vec) (node : List Nat) (l : Nat) (hl : l < node.length) :
    (deflate p node).2.getD (node.getD l 0) 0 = 0 := by
  rw [deflate_snd, zeroPrefix_getD,
    if_pos (show ∃ k, k < node.length ∧ node.getD k 0 = node.getD l 0 from ⟨l, hl, rfl⟩)]

theorem pagerank_normalize_not_thrown (a : Vec) (msg : String) :
    pagerank_normalize a ≠ Except.error (Fault.thrown msg) := by
  unfold pagerank_normalize
  simp only []
  split_ifs
  · intro h
    cases h
  · intro h
    cases h

/-- A normalisation that completes on a non-empty vector keeps the size and
the zero entries and leaves entries that sum to 1. -/
theorem pagerank_normalize_ok (a : Vec) (r : Vec × ℚ) (h : pagerank_normalize a = Except.ok r)
    (hne : 0 < a.length) :
    r.1.length = a.length ∧ r.1.sum = 1 ∧ ∀ i, a.getD i 0 = 0 → r.1.getD i 0 = 0 := by
  have hs : sum_vector a = a.sum := foldl_range_sum a a.length rfl
  unfold pagerank_normalize at h
  simp only [hs] at h
  split_ifs at h with hc
  have h0 : a.sum ≠ 0 := fun hz => hc ⟨hne, hz⟩
  injection h with h
  rw [← h]
  have e : ∀ i,
      ((List.range a.length).foldl (fun o i => o.set i (o.getD i 0 / a.sum)) a).getD i 0 =
        a.getD i 0 / a.sum := by
    intro i
    rw [foldl_range_set_getD (fun _ x => x / a.sum) 0]
    split_ifs with hi
    · rfl
    · have : a.length ≤ i := by omega
      rw [getD_of_le_length _ _ _ this, zero_div]
  refine ⟨foldl_range_set_length (fun _ x => x / a.sum) 0 _ _, ?_, ?_⟩
  · show ((List.range a.length).foldl (fun o i => o.set i (o.getD i 0 / a.sum)) a).sum = 1
    rw [sum_eq_sum_range, foldl_range_set_length (fun _ x => x / a.sum) 0,
      Finset.sum_congr rfl (fun i _ => e i), ← Finset.sum_div, ← sum_eq_sum_range]
    exact div_self h0
  · intro i hi
    show ((List.range a.length).foldl (fun o i => o.set i (o.getD i 0 / a.sum)) a).getD i 0 = 0
    rw [e i, hi, zero_div]
/-- The vector that a pass of the loop normalises: the operator applied to the
current iterate, with the subset zeroed. -/
theorem iterStep_ok (max_iter : Int) (net : Network) (α : ℚ) (iprint : Int) (node : List Nat)
    (trans_frag : Nat) (i : Nat) (st : IterState) (r : IterState × Bool)
    (h : iterStep max_iter net α iprint node trans_frag i st = Except.ok r) :
    ∃ n, pagerank_normalize
        (deflate (if trans_frag ≠ 0 then GTmult net α st.a st.pagerank 1
          else GGmult net α st.a st.pagerank 1) node).2 = Except.ok n ∧
      r.1.pagerank = n.1 ∧ r.1.a = st.pagerank := by
  unfold iterStep at h
  simp only [bind, Except.bind, pure, Except.pure] at h
  split at h
  · cases h
  · rename_i n hn
    refine ⟨n, hn, ?_⟩
    split_ifs at h <;> injection h with h <;> rw [← h] <;> exact ⟨rfl, rfl⟩

theorem iterStep_not_thrown (max_iter : Int) (net : Network) (α : ℚ) (iprint : Int)
    (node : List Nat) (trans_frag : Nat) (i : Nat) (st : IterState) (msg : String) :
    iterStep max_iter net α iprint node trans_frag i st ≠ Except.error (Fault.thrown msg) := by
  intro h
  unfold iterStep at h
  simp only [bind, Except.bind, pure, Except.pure] at h
  split at h
  · rename_i e he
    injection h with h
    rw [h] at he
    exact pagerank_normalize_not_thrown _ _ he
  · split_ifs at h

theorem iterLoop_not_thrown (max_iter : Int) (net : Network) (α : ℚ) (iprint : Int)
    (node : List Nat) (trans_frag : Nat) (n i : Nat) (st : IterState) (msg : String) :
    iterLoop max_iter net α iprint node trans_frag n i st ≠ Except.error (Fault.thrown msg) := by
  induction n generalizing i st with
  | zero =>
    intro h
    cases h
  | succ n ih =>
    intro h
    unfold iterLoop at h
    simp only [bind, Except.bind, pure, Except.pure] at h
    split at h
    · rename_i e he
      injection h with h
      rw [h] at he
      exact iterStep_not_thrown _ _ _ _ _ _ _ _ _ he
    · split_ifs at h
      exact ih _ _ h

/-- The eigensolver is its entry sequence, then the loop, then the return of
`pagerank` and `dlambda`. -/
theorem calc_pagerank_project_eq (max_iter : Int) (pagerank : Vec) (net : Network) (α : ℚ)
    (iprint : Int) (node : List Nat) (trans_frag : Nat) :
    calc_pagerank_project max_iter pagerank net α iprint node trans_frag =
      (calc_entry pagerank node trans_frag >>= fun st0 =>
        iterLoop max_iter net α (if iprint ≤ 0 then 1 else iprint) node trans_frag
          (max_iter + 1).toNat 0 st0 >>= fun st => pure (st.pagerank, st.dlambda)) := by
  unfold calc_pagerank_project calc_entry
  simp only [bind, Except.bind, pure, Except.pure]
  cases pagerank_normalize pagerank with
  | error e => rfl
  | ok n =>
    simp only []
    cases pagerank_normalize (deflate n.1 node).2 with
    | error e => rfl
    | ok m => rfl

theorem calc_entry_not_thrown (pagerank : Vec) (node : List Nat) (trans_frag : Nat)
    (msg : String) : calc_entry pagerank node trans_frag ≠ Except.error (Fault.thrown msg) := by
  intro h
  unfold calc_entry at h
  simp only [bind, Except.bind, pure, Except.pure] at h
  split at h
  · rename_i e he
    injection h with h
    rw [h] at he
    exact pagerank_normalize_not_thrown _ _ he
  · split at h
    · rename_i e he
      injection h with h
      rw [h] at he
      exact pagerank_normalize_not_thrown _ _ he
    · cases h

theorem calc_not_thrown (max_iter : Int) (pagerank : Vec) (net : Network) (α : ℚ)
    (iprint : Int) (node : List Nat) (trans_frag : Nat) (msg : String) :
    calc_pagerank_project max_iter pagerank net α iprint node trans_frag ≠
      Except.error (Fault.thrown msg) := by
  intro h
  rw [calc_pagerank_project_eq] at h
  cases h0 : calc_entry pagerank node trans_frag with
  | error e =>
    rw [h0] at h
    injection h with h
    rw [h] at h0
    exact calc_entry_not_thrown _ _ _ _ h0
  | ok st0 =>
    rw [h0] at h
    simp only [bind, Except.bind, pure, Except.pure] at h
    split at h
    · rename_i e he
      injection h with h
      rw [h] at he
      exact iterLoop_not_thrown _ _ _ _ _ _ _ _ _ _ he
    · cases h

/-- When none of the first `n` passes ends in `break`, the loop makes all of
them. -/
theorem iterLoop_of_run (max_iter : Int) (net : Network) (α : ℚ) (iprint : Int)
    (node : List Nat) (trans_frag : Nat) (n i : Nat) (st st2 : IterState)
    (h : iterRun max_iter net α iprint node trans_frag n i st = Except.ok (st2, false)) :
    iterLoop max_iter net α iprint node trans_frag n i st = Except.ok st2 := by
  induction n generalizing i st with
  | zero =>
    injection h with h
    injection h with h
    rw [← h]
    rfl
  | succ n ih =>
    unfold iterRun at h
    unfold iterLoop
    simp only [bind, Except.bind, pure, Except.pure] at h ⊢
    cases hs : iterStep max_iter net α iprint node trans_frag i st with
    | error e =>
      rw [hs] at h
      cases h
    | ok r =>
      rw [hs] at h
      simp only [] at h ⊢
      cases hr : iterRun max_iter net α iprint node trans_frag n (i + 1) r.1 with
      | error e =>
        rw [hr] at h
        cases h
      | ok r2 =>
        rw [hr] at h
        simp only [Except.ok.injEq, Prod.mk.injEq, Bool.or_eq_false_iff] at h
        obtain ⟨h1, h2, h3⟩ := h
        rw [h2]
        simp only [Bool.false_eq_true, if_false]
        apply ih
        rw [hr, ← h1, ← h3]

theorem passes_le (max_iter : Int) (net : Network) (α : ℚ) (iprint : Int)
    (node : List Nat) (trans_frag : Nat) (n i : Nat) (st : IterState) :
    passes max_iter net α iprint node trans_frag n i st ≤ n := by
  induction n generalizing i st with
  | zero => exact Nat.le_refl 0
  | succ n ih =>
    unfold passes
    split
    · omega
    · split_ifs
      · omega
      · have := ih (i + 1) (by assumption : IterState × Bool).1
        omega

/-- The loop returns the state reached by the passes that `passes` counts. -/
theorem iterLoop_eq_run (max_iter : Int) (net : Network) (α : ℚ) (iprint : Int)
    (node : List Nat) (trans_frag : Nat) (n i : Nat) (st : IterState) :
    iterLoop max_iter net α iprint node trans_frag n i st =
      (iterRun max_iter net α iprint node trans_frag
        (passes max_iter net α iprint node trans_frag n i st) i st).map Prod.fst := by
  induction n generalizing i st with
  | zero => rfl
  | succ n ih =>
    unfold iterLoop passes
    cases hs : iterStep max_iter net α iprint node trans_frag i st with
    | error e =>
      simp only [bind, Except.bind]
      unfold iterRun
      simp only [bind, Except.bind, hs]
      rfl
    | ok r =>
      simp only [bind, Except.bind]
      by_cases hb : r.2 = true
      · rw [if_pos hb, if_pos hb]
        unfold iterRun
        simp only [bind, Except.bind, hs]
        unfold iterRun
        rfl
      · rw [if_neg hb, if_neg hb, ih, Nat.add_comm 1]
        conv_rhs => unfold iterRun
        simp only [bind, Except.bind, hs]
        cases iterRun max_iter net α iprint node trans_frag
          (passes max_iter net α iprint node trans_frag n (i + 1) r.1) (i + 1) r.1 with
        | error e => rfl
        | ok r2 => rfl
theorem passes_of_run (max_iter : Int) (net : Network) (α : ℚ) (iprint : Int)
    (node : List Nat) (trans_frag : Nat) (n i : Nat) (st st2 : IterState)
    (h : iterRun max_iter net α iprint node trans_frag n i st = Except.ok (st2, false)) :
    passes max_iter net α iprint node trans_frag n i st = n := by
  induction n generalizing i st with
  | zero => rfl
  | succ n ih =>
    unfold iterRun at h
    unfold passes
    simp only [bind, Except.bind, pure, Except.pure] at h
    cases hs : iterStep max_iter net α iprint node trans_frag i st with
    | error e =>
      rw [hs] at h
      cases h
    | ok r =>
      rw [hs] at h
      simp only [] at h ⊢
      cases hr : iterRun max_iter net α iprint node trans_frag n (i + 1) r.1 with
      | error e =>
        rw [hr] at h
        cases h
      | ok r2 =>
        rw [hr] at h
        simp only [Except.ok.injEq, Prod.mk.injEq, Bool.or_eq_false_iff] at h
        obtain ⟨h1, h2, h3⟩ := h
        rw [h2]
        simp only [Bool.false_eq_true, if_false]
        rw [ih (i + 1) r.1 (by rw [hr, ← h1, ← h3]), Nat.add_comm]

theorem run_of_flag (x : Except Fault (IterState × Bool))
    (h : x.map Prod.snd = Except.ok false) : ∃ st, x = Except.ok (st, false) := by
  cases x with
  | error e => cases h
  | ok r =>
    obtain ⟨st, b⟩ := r
    injection h with h
    exact ⟨st, by rw [show b = false from h]⟩

/-- A pass of the loop that completes on non-empty vectors restores the
deflation invariant and keeps the sizes. -/
theorem iterStep_deflated (max_iter : Int) (net : Network) (α : ℚ) (iprint : Int)
    (node : List Nat) (trans_frag : Nat) (i : Nat) (st : IterState) (r : IterState × Bool)
    (n : Nat) (hn : 0 < n) (hst : st.Sized n)
    (h : iterStep max_iter net α iprint node trans_frag i st = Except.ok r) :
    r.1.Sized n ∧ Deflated node r.1.pagerank := by
  obtain ⟨m, hm, hp, ha⟩ := iterStep_ok _ _ _ _ _ _ _ _ _ h
  have hl : (deflate (if trans_frag ≠ 0 then GTmult net α st.a st.pagerank 1
      else GGmult net α st.a st.pagerank 1) node).2.length = n := by
    rw [deflate_length]
    split_ifs
    · rw [GTmult_length, hst.2]
    · rw [GGmult_length, hst.2]
  obtain ⟨h1, h2, h3⟩ := pagerank_normalize_ok _ _ hm (by omega)
  refine ⟨⟨by rw [hp, h1, hl], by rw [ha, hst.1]⟩, ?_, by rw [hp, h2]⟩
  intro l hl2
  rw [hp]
  exact h3 _ (deflate_zero _ _ l hl2)

theorem calc_entry_deflated (pagerank : Vec) (node : List Nat) (trans_frag : Nat)
    (st0 : IterState) (hn : 0 < pagerank.length)
    (h : calc_entry pagerank node trans_frag = Except.ok st0) :
    st0.Sized pagerank.length ∧ Deflated node st0.pagerank := by
  unfold calc_entry at h
  simp only [bind, Except.bind, pure, Except.pure] at h
  split at h
  · cases h
  · rename_i n hn1
    split at h
    · cases h
    · rename_i m hm
      injection h with h
      obtain ⟨a1, _, _⟩ := pagerank_normalize_ok _ _ hn1 hn
      obtain ⟨b1, b2, b3⟩ := pagerank_normalize_ok _ _ hm (by rw [deflate_length, a1]; exact hn)
      rw [← h]
      refine ⟨⟨by rw [b1, deflate_length, a1], a1⟩, ?_, b2⟩
      intro l hl
      exact b3 _ (deflate_zero _ _ l hl)

theorem iterRun_deflated (max_iter : Int) (net : Network) (α : ℚ) (iprint : Int)
    (node : List Nat) (trans_frag : Nat) (k i : Nat) (st : IterState) (r : IterState × Bool)
    (n : Nat) (hn : 0 < n) (hst : st.Sized n) (hd : Deflated node st.pagerank)
    (h : iterRun max_iter net α iprint node trans_frag k i st = Except.ok r) :
    r.1.Sized n ∧ Deflated node r.1.pagerank := by
  induction k generalizing i st r with
  | zero =>
    injection h with h
    rw [← h]
    exact ⟨hst, hd⟩
  | succ k ih =>
    unfold iterRun at h
    simp only [bind, Except.bind, pure, Except.pure] at h
    split at h
    · cases h
    · rename_i r1 hr1
      split at h
      · cases h
      · rename_i r2 hr2
        injection h with h
        obtain ⟨c1, c2⟩ := iterStep_deflated _ _ _ _ _ _ _ _ _ n hn hst hr1
        rw [← h]
        exact ih (i + 1) r1.1 r2 c1 c2 hr2

theorem calc_deflated (max_iter : Int) (pagerank : Vec) (net : Network) (α : ℚ)
    (iprint : Int) (node : List Nat) (trans_frag : Nat) (r : Vec × ℚ)
    (hn : 0 < pagerank.length)
    (h : calc_pagerank_project max_iter pagerank net α iprint node trans_frag = Except.ok r) :
    Deflated node r.1 := by
  rw [calc_pagerank_project_eq] at h
  obtain ⟨st0, h0, h⟩ := bind_ok h
  obtain ⟨st, h1, h⟩ := bind_ok h
  injection h with h
  obtain ⟨a1, a2⟩ := calc_entry_deflated _ _ _ _ hn h0
  rw [iterLoop_eq_run] at h1
  cases hr : iterRun max_iter net α (if iprint ≤ 0 then 1 else iprint) node trans_frag
      (passes max_iter net α (if iprint ≤ 0 then 1 else iprint) node trans_frag
        (max_iter + 1).toNat 0 st0) 0 st0 with
  | error e =>
    rw [hr] at h1
    cases h1
  | ok r2 =>
    rw [hr] at h1
    injection h1 with h1
    have := (iterRun_deflated _ _ _ _ _ _ _ _ _ _ _ hn a1 a2 hr).2
    rw [← h, ← h1]
    exact this

theorem slowGraph_wellFormed : WellFormed slowGraph :=
  ⟨loaded 12 [0, 0, 1, 2, 3, 4, 5, 6, 7, 8, 9, 10, 11] [1, 2, 0, 0, 0, 0, 0, 0, 0, 0, 0, 0, 0],
    by decide, by decide, by decide, by decide, rfl⟩

theorem slowEntry_eq : calc_entry (List.replicate 12 1) slowSubset 0 = Except.ok slowEntry := by
  decide!

theorem slowRun_flag :
    (iterRun 118 slowGraph (1 / 2) 10 slowSubset 0 119 0 slowEntry).map Prod.snd =
      Except.ok false := by
  decide!

/-! ## Limited loading -/

theorem readLine_limited (limit : Nat) (hl : limit ≠ 0) (body : List (Option (Nat × Nat)))
    (st : Network × List Nat × List Nat) (i : Nat) :
    readLine limit body st i =
      (fun (st : Network × List Nat × List Nat) (line : Option (Nat × Nat)) =>
        match line with
        | none => st
        | some e =>
          if e.1 ≤ limit ∧ e.2 ≤ limit then (st.1, st.2.1 ++ [e.1 - 1], st.2.2 ++ [e.2 - 1])
          else st) st (body.getD i none) := by
  unfold readLine
  cases body.getD i none with
  | none => rfl
  | some e =>
    obtain ⟨n1, n2⟩ := e
    simp only [if_pos hl]

theorem scan_limited (limit : Nat) (body : List (Option (Nat × Nat))) (net : Network)
    (F T : List Nat) :
    body.foldl
      (fun (st : Network × List Nat × List Nat) (line : Option (Nat × Nat)) =>
        match line with
        | none => st
        | some e =>
          if e.1 ≤ limit ∧ e.2 ≤ limit then (st.1, st.2.1 ++ [e.1 - 1], st.2.2 ++ [e.2 - 1])
          else st) (net, F, T) =
      (net, F ++ (retained limit body).map (fun e => e.1 - 1),
        T ++ (retained limit body).map (fun e => e.2 - 1)) := by
  induction body generalizing F T with
  | nil => simp [retained]
  | cons line body ih =>
    rw [List.foldl_cons]
    cases line with
    | none =>
      simp only []
      rw [ih]
      rfl
    | some e =>
      simp only []
      by_cases he : e.1 ≤ limit ∧ e.2 ≤ limit
      · rw [if_pos he, ih]
        have : retained limit (some e :: body) = e :: retained limit body := by
          unfold retained
          rw [List.filterMap_cons_some (by rfl), List.filter_cons_of_pos (by simpa using he)]
        rw [this]
        simp
      · rw [if_neg he, ih]
        have : retained limit (some e :: body) = retained limit body := by
          unfold retained
          rw [List.filterMap_cons_some (by rfl), List.filter_cons_of_neg (by simpa using he)]
        rw [this]

theorem copy_fold (F T : List Nat) (l : List Nat) (net : Network) :
    l.foldl
      (fun (net : Network) i =>
        { net with from_ := net.from_.set i (F.getD i 0), to_ := net.to_.set i (T.getD i 0) })
      net =
      { net with
        from_ := l.foldl (fun v i => v.set i (F.getD i 0)) net.from_
        to_ := l.foldl (fun v i => v.set i (T.getD i 0)) net.to_ } := by
  induction l generalizing net with
  | nil => rfl
  | cons x l ih => rw [List.foldl_cons, ih, List.foldl_cons, List.foldl_cons]

theorem copy_loop (F v : List Nat) (n : Nat) (hv : v.length = n) (hF : F.length = n) :
    (List.range n).foldl (fun v i => v.set i (F.getD i 0)) v = F := by
  have hlen : ((List.range n).foldl (fun v i => v.set i (F.getD i 0)) v).length = F.length := by
    rw [foldl_set_length (fun _ i => i) (fun (_ : List Nat) i => F.getD i 0), hv, hF]
  apply List.ext_getElem hlen
  intro j h1 h2
  have h := foldl_range_set_getD (fun i (_ : Nat) => F.getD i 0) 0 n v j
  rw [if_pos ⟨by omega, by omega⟩, List.getD_eq_getElem _ 0 h1, List.getD_eq_getElem _ 0 h2] at h
  exact h

/-- Limited loading hands to `complete` the retained edges, 0-indexed, on
`limit` nodes, whatever the header says. -/
theorem read_network_limited_eq (limit : Nat) (hl : limit ≠ 0) (file : NetFile) :
    read_network limit file =
      Except.ok (complete (loaded limit ((retained limit file.body).map (fun e => e.1 - 1))
        ((retained limit file.body).map (fun e => e.2 - 1)))) := by
  unfold read_network
  simp only [if_pos hl]
  have hscan : ∀ s0, (List.range file.body.length).foldl (readLine limit file.body) s0 =
      file.body.foldl
        (fun (st : Network × List Nat × List Nat) (line : Option (Nat × Nat)) =>
          match line with
          | none => st
          | some e =>
            if e.1 ≤ limit ∧ e.2 ≤ limit then (st.1, st.2.1 ++ [e.1 - 1], st.2.2 ++ [e.2 - 1])
            else st) s0 := by
    intro s0
    rw [← foldl_range_getD _ file.body none s0]
    congr 1
    funext st i
    exact readLine_limited limit hl file.body st i
  rw [hscan, scan_limited]
  simp only [List.nil_append, List.length_map, ne_eq, not_true_eq_false, if_false]
  rw [copy_fold]
  simp only []
  rw [copy_loop ((retained limit file.body).map (fun e => e.1 - 1))
      (newVector (retained limit file.body).length) (retained limit file.body).length
      (List.length_replicate _ _) (List.length_map _ _),
    copy_loop ((retained limit file.body).map (fun e => e.2 - 1))
      (newVector (retained limit file.body).length) (retained limit file.body).length
      (List.length_replicate _ _) (List.length_map _ _)]
  unfold loaded fresh
  simp only [List.length_map]

/-! ## Linearity and total mass of the forward operator -/

/-- The sum of the output of `GGmult` on a graph built by `complete`. -/
theorem GGmult_sum {net : Network} (hs : SourcesSorted net) (hr : SourcesInRange net)
    (ha : Allocated net) (ht : TargetsInRange net) (hN : 0 < net.size) (α : ℚ) (out v : Vec)
    (flag : Nat) (hout : out.length = net.size) (hv : v.length = net.size) :
    (GGmult (complete net) α out v flag).sum = (1 - α) * v.sum + α * normSum flag v := by
  have hN0 : (net.size : ℚ) ≠ 0 := by exact_mod_cast (Nat.pos_iff_ne_zero.mp hN)
  have hp := GGmult_pairing hs hr ha ht α out v flag hout hv (fun _ => 1)
  simp only [one_mul, Finset.sum_const, Finset.card_range, nsmul_eq_mul, mul_one] at hp
  rw [link_mass hs hr ha, danglingMass_complete] at hp
  have hsum : (GGmult (complete net) α out v flag).sum =
      ∑ i ∈ Finset.range net.size, (GGmult (complete net) α out v flag).getD i 0 := by
    rw [sum_eq_sum_range, GGmult_length, hout]
  have hvs : v.sum = ∑ i ∈ Finset.range net.size, v.getD i 0 := by
    rw [sum_eq_sum_range, hv]
  have hsplit : (∑ j ∈ Finset.range net.size,
        if (buildFirstpos net).getD j 0 = (buildFirstpos net).getD (j + 1) 0 then v.getD j 0
        else 0) +
      (∑ j ∈ Finset.range net.size,
        if (buildFirstpos net).getD j 0 = (buildFirstpos net).getD (j + 1) 0 then 0
        else v.getD j 0) = v.sum := by
    rw [hvs, ← Finset.sum_add_distrib]
    apply Finset.sum_congr rfl
    intro j _
    split_ifs <;> ring
  rw [hsum, hp, ← hsplit]
  field_simp

theorem danglingMass_linear (net : Network) (a b : ℚ) (x y z : Vec)
    (hz : ∀ i, z.getD i 0 = a * x.getD i 0 + b * y.getD i 0) :
    danglingMass net z = a * danglingMass net x + b * danglingMass net y := by
  unfold danglingMass
  induction net.dangling with
  | nil => simp
  | cons d ds ih =>
    simp only [List.map_cons, List.sum_cons, ih, hz d]
    ring

theorem linkInflow_linear (net : Network) (a b : ℚ) (x y z : Vec)
    (hz : ∀ i, z.getD i 0 = a * x.getD i 0 + b * y.getD i 0) (j : Nat) :
    linkInflow net z j = a * linkInflow net x j + b * linkInflow net y j := by
  unfold linkInflow
  rw [Finset.mul_sum, Finset.mul_sum, ← Finset.sum_add_distrib]
  apply Finset.sum_congr rfl
  intro k _
  rw [hz]
  ring

theorem sum_linear (a b : ℚ) (x y z : Vec) (n : Nat) (hx : x.length = n) (hy : y.length = n)
    (hl : z.length = n) (hz : ∀ i, z.getD i 0 = a * x.getD i 0 + b * y.getD i 0) :
    z.sum = a * x.sum + b * y.sum := by
  rw [sum_eq_sum_range z, sum_eq_sum_range x, sum_eq_sum_range y, hx, hy, hl, Finset.mul_sum,
    Finset.mul_sum, ← Finset.sum_add_distrib]
  exact Finset.sum_congr rfl (fun i _ => hz i)

/-- The reference value of the un-normalised forward operator is linear in the
input. -/
theorem GGmult_ref_linear (net : Network) (α a b : ℚ) (x y z : Vec) (n : Nat)
    (hx : x.length = n) (hy : y.length = n) (hl : z.length = n)
    (hz : ∀ i, z.getD i 0 = a * x.getD i 0 + b * y.getD i 0) (j : Nat) :
    GGmult_ref net α z 0 j = a * GGmult_ref net α x 0 j + b * GGmult_ref net α y 0 j := by
  unfold GGmult_ref S_ref
  have hn : ∀ v : Vec, normSum 0 v = v.sum := fun v => by simp [normSum]
  rw [hn, hn, hn, danglingMass_linear net a b x y z hz, linkInflow_linear net a b x y z hz,
    sum_linear a b x y z n hx hy hl hz]
  ring

/-- Entries beyond the end of both operands of a linear combination vanish. -/
theorem getD_linear_of_lt (a b : ℚ) (x y z : Vec) (n : Nat) (hx : x.length = n)
    (hy : y.length = n) (hl : z.length = n)
    (hz : ∀ i, i < n → z.getD i 0 = a * x.getD i 0 + b * y.getD i 0) (i : Nat) :
    z.getD i 0 = a * x.getD i 0 + b * y.getD i 0 := by
  by_cases hi : i < n
  · exact hz i hi
  · rw [getD_of_le_length z i 0 (by omega), getD_of_le_length x i 0 (by omega),
      getD_of_le_length y i 0 (by omega)]
    ring

/-- The un-normalised forward operator on a graph built by `complete` is
linear, entry by entry. -/
theorem GGmult_linear {net : Network} (hs : SourcesSorted net) (hr : SourcesInRange net)
    (ha : Allocated net) (α a b : ℚ) (o1 o2 o3 x y z : Vec) (ho1 : o1.length = net.size)
    (ho2 : o2.length = net.size) (ho3 : o3.length = net.size) (hx : x.length = net.size)
    (hy : y.length = net.size) (hl : z.length = net.size)
    (hz : ∀ i, i < net.size → z.getD i 0 = a * x.getD i 0 + b * y.getD i 0) (j : Nat) :
    (GGmult (complete net) α o3 z 0).getD j 0 =
      a * (GGmult (complete net) α o1 x 0).getD j 0 +
        b * (GGmult (complete net) α o2 y 0).getD j 0 := by
  by_cases hj : j < net.size
  · rw [GGmult_getD_complete hs hr ha α o3 z 0 ho3 hl j hj,
      GGmult_getD_complete hs hr ha α o1 x 0 ho1 hx j hj,
      GGmult_getD_complete hs hr ha α o2 y 0 ho2 hy j hj]
    exact GGmult_ref_linear _ α a b x y z net.size hx hy hl
      (getD_linear_of_lt a b x y z net.size hx hy hl hz) j
  · rw [getD_of_le_length _ j 0 (by rw [GGmult_length]; omega),
      getD_of_le_length _ j 0 (by rw [GGmult_length]; omega),
      getD_of_le_length _ j 0 (by rw [GGmult_length]; omega)]
    ring
theorem newVector_getD (n i : Nat) : (newVector n : Vec).getD i 0 = 0 := by
  unfold newVector
  by_cases hi : i < n
  · rw [List.getD_eq_getElem _ _ (by rw [List.length_replicate]; exact hi),
      List.getElem_replicate]
  · exact getD_of_le_length _ i 0 (by rw [List.length_replicate]; omega)

theorem add_eq_getD (a b : Vec) (h : a.length = b.length) (i : Nat) :
    (add_eq a b).getD i 0 = a.getD i 0 + b.getD i 0 := by
  unfold add_eq
  rw [foldl_range_set_getD (fun i (x : ℚ) => x + b.getD i 0) 0]
  split_ifs with hi
  · rfl
  · rw [getD_of_le_length a i 0 (by omega), getD_of_le_length b i 0 (by omega), add_zero]

/-- The reference value of the forward operator on a non-negative input with
a damping between 0 and 1 is non-negative. -/
theorem GGmult_ref_nonneg {net : Network} (hs : SourcesSorted net) (hr : SourcesInRange net)
    (ha : Allocated net) (α : ℚ) (h0 : 0 ≤ α) (h1 : α ≤ 1) (v : Vec)
    (hv : ∀ i, 0 ≤ v.getD i 0) (j : Nat) : 0 ≤ GGmult_ref (complete net) α v 1 j := by
  unfold GGmult_ref S_ref
  have hd : 0 ≤ danglingMass (complete net) v := by
    unfold danglingMass
    apply List.sum_nonneg
    intro x hx
    obtain ⟨d, _, rfl⟩ := List.mem_map.mp hx
    exact hv d
  have hl : 0 ≤ linkInflow (complete net) v j := by
    unfold linkInflow
    apply Finset.sum_nonneg
    intro k hk
    have hk2 : k < net.link_len := Finset.mem_range.mp (Finset.mem_filter.mp hk).1
    have hf : (complete net).from_.getD k 0 = net.from_.getD k 0 := rfl
    rw [hf, complete_link_num_cast hs hr ha _ (hr k hk2)]
    exact div_nonneg (hv _) (Nat.cast_nonneg _)
  have hn : normSum 1 v = 1 := by simp [normSum]
  rw [hn]
  have hN : (0 : ℚ) ≤ (complete net).size := Nat.cast_nonneg _
  have : 0 ≤ 1 - α := by linarith
  positivity

/-! ## The projector Q -/

theorem lam_diff_ok (t a : Vec) (sp : ℚ) (h : t.length = a.length) :
    ∃ r, lam_diff t sp a = Except.ok r ∧ r.length = t.length ∧
      ∀ j, r.getD j 0 = t.getD j 0 - sp * a.getD j 0 := by
  refine ⟨(List.range t.length).foldl (fun t i => t.set i (t.getD i 0 - sp * a.getD i 0)) t,
    ?_, ?_, ?_⟩
  · unfold lam_diff
    rw [if_neg (by rw [h]; exact fun hc => hc rfl)]
  · exact foldl_range_set_length (fun i (x : ℚ) => x - sp * a.getD i 0) 0 _ _
  · intro j
    rw [foldl_range_set_getD (fun i (x : ℚ) => x - sp * a.getD i 0) 0]
    split_ifs with hj
    · rfl
    · rw [getD_of_le_length t j 0 (by omega), getD_of_le_length a j 0 (by omega)]
      ring

/-- The projector Q subtracts from `v` its component along `right`, measured
by `left`. -/
theorem projectQ_ok (right left v : Vec) (n : Nat) (hr : right.length = n)
    (hl : left.length = n) (hv : v.length = n) :
    ∃ r, projectQ right left v = Except.ok r ∧ r.length = n ∧
      ∀ j, r.getD j 0 =
        v.getD j 0 - (∑ i ∈ Finset.range n, left.getD i 0 * v.getD i 0) * right.getD j 0 := by
  obtain ⟨r, h1, h2, h3⟩ := lam_diff_ok v right
    (∑ i ∈ Finset.range n, left.getD i 0 * v.getD i 0) (by rw [hv, hr])
  refine ⟨r, ?_, by rw [h2, hv], h3⟩
  unfold projectQ
  rw [scalar_product_ok left v (by rw [hl, hv]), hl]
  exact h1

/-! ## The resolvent loop of `compute_GR` -/

theorem foldl_range_add (g : Nat → ℚ) (n : Nat) (s0 : ℚ) :
    (List.range n).foldl (fun s i => s + g i) s0 = s0 + ∑ i ∈ Finset.range n, g i := by
  induction n with
  | zero => simp
  | succ n ih =>
    rw [List.range_succ, List.foldl_append, List.foldl_cons, List.foldl_nil, ih,
      Finset.sum_range_succ]
    ring

theorem resolventMap_length (net : Network) (α : ℚ) (node : List Nat) (psiR psiL v : Vec) :
    (resolventMap net α node psiR psiL v).length = net.size := by
  unfold resolventMap
  simp

theorem norm1_nonneg (v : Vec) : 0 ≤ norm1 v :=
  Finset.sum_nonneg (fun _ _ => abs_nonneg _)

/-- The increment `s - t` of a pass is the new `f`, so the quality of the pass
is the 1-norm of `f`. -/
theorem diff_norm1_add (s f : Vec) (h : s.length = f.length) :
    diff_norm1 s (add_eq s f) = Except.ok (norm1 f) := by
  unfold diff_norm1
  rw [if_neg (by rw [add_eq_length]; exact fun hc => hc rfl)]
  congr 1
  rw [foldl_range_add (fun i => |s.getD i 0 - (add_eq s f).getD i 0|), zero_add, h]
  unfold norm1
  apply Finset.sum_congr rfl
  intro i _
  rw [add_eq_getD s f h i, sub_add_cancel_left, abs_neg]

/-- One pass of the inner loop on vectors of the right sizes: `t` takes the
old `s`, `f` becomes `T f`, `s` grows by the new `f`, and the pass ends in
`break` exactly when the new `f` has 1-norm zero. -/
theorem resolventStep_eq (net : Network) (α : ℚ) (node : List Nat) (psiR psiL : Vec)
    (hR : psiR.length = net.size) (hL : psiL.length = net.size) (rs : ResState)
    (hz : rs.Sized net.size) :
    resolventStep net α node psiR psiL rs =
      Except.ok
        ((⟨add_eq rs.s (resolventMap net α node psiR psiL rs.f), rs.s,
            resolventMap net α node psiR psiL rs.f, rs.f⟩ : ResState),
          decide (norm1 (resolventMap net α node psiR psiL rs.f) ≤ 0)) := by
  obtain ⟨h1, h2, h3, h4⟩ := hz
  have hg : (zeroPrefix node node.length (GGmult net α (newVector net.size) rs.f 0)).length =
      net.size := by
    rw [zeroPrefix_length, GGmult_length, newVector_length]
  obtain ⟨r, hr1, hr2, hr3⟩ := projectQ_ok psiR psiL
    (zeroPrefix node node.length (GGmult net α (newVector net.size) rs.f 0)) net.size hR hL hg
  have hr : r = resolventMap net α node psiR psiL rs.f := by
    apply ext_getD r _ net.size hr2 (resolventMap_length _ _ _ _ _ _)
    intro j hj
    rw [hr3 j]
    unfold resolventMap
    simp only []
    rw [getD_map_range _ _ _ hj]
  unfold resolventStep
  simp only []
  rw [vec_eq_of_length _ _ (by rw [h2, h1]),
    GGmult_out_irrel net α rs.f2 (newVector net.size) rs.f 0 h4 (newVector_length _),
    zero_fold_eq, hr1, hr]
  simp only [bind, Except.bind]
  rw [diff_norm1_add rs.s _ (by rw [h1, resolventMap_length])]
  rfl

/-- The inner loop in terms of a map `T` that describes one pass: the state
after `k` passes, none of the first `k - 1` of which ended in `break`. -/
theorem resolventLoop_run_of (net : Network) (α : ℚ) (node : List Nat) (psiR psiL : Vec)
    (T : Vec → Vec) (hT : ∀ v, (T v).length = net.size)
    (hstep : ∀ rs : ResState, rs.Sized net.size →
      resolventStep net α node psiR psiL rs =
        Except.ok ((⟨add_eq rs.s (T rs.f), rs.s, T rs.f, rs.f⟩ : ResState),
          decide (norm1 (T rs.f) ≤ 0)))
    (k : Nat) (rs : ResState) (hz : rs.Sized net.size)
    (hno : ∀ m, m + 1 < k → norm1 (T^[m + 1] rs.f) ≠ 0) :
    ∃ r, resolventLoop net α node psiR psiL k rs = Except.ok r ∧ r.f = T^[k] rs.f ∧
      (∀ j, r.s.getD j 0 = rs.s.getD j 0 + ∑ m ∈ Finset.range k, (T^[m + 1] rs.f).getD j 0) ∧
      (0 < k → diff_norm1 r.t r.s = Except.ok (norm1 r.f)) := by
  induction k generalizing rs with
  | zero =>
    refine ⟨rs, rfl, rfl, fun j => ?_, fun h => absurd h (Nat.lt_irrefl 0)⟩
    rw [Finset.sum_range_zero, add_zero]
  | succ k ih =>
    have hz1 : (⟨add_eq rs.s (T rs.f), rs.s, T rs.f, rs.f⟩ : ResState).Sized net.size :=
      ⟨by show (add_eq rs.s _).length = _; rw [add_eq_length]; exact hz.1, hz.1, hT _, hz.2.2.1⟩
    unfold resolventLoop
    rw [hstep rs hz]
    simp only [bind, Except.bind]
    rcases Nat.eq_zero_or_pos k with hk | hk
    · subst hk
      refine ⟨⟨add_eq rs.s (T rs.f), rs.s, T rs.f, rs.f⟩, ?_, rfl, ?_, ?_⟩
      · split_ifs
        · rfl
        · rfl
      · intro j
        show (add_eq rs.s _).getD j 0 = _
        rw [add_eq_getD _ _ (by rw [hz.1, hT]) j, Finset.sum_range_one]
        rfl
      · intro _
        exact diff_norm1_add rs.s _ (by rw [hz.1, hT])
    · have hne : norm1 (T rs.f) ≠ 0 := hno 0 (by omega)
      have hflag : decide (norm1 (T rs.f) ≤ 0) = false := by
        rw [decide_eq_false_iff_not]
        intro hc
        exact hne (le_antisymm hc (norm1_nonneg _))
      rw [hflag]
      simp only [Bool.false_eq_true, if_false]
      obtain ⟨r, e1, e2, e3, e4⟩ := ih _ hz1 (fun m hm => hno (m + 1) (by omega))
      refine ⟨r, e1, e2, ?_, fun _ => e4 hk⟩
      intro j
      rw [e3 j]
      show (add_eq rs.s _).getD j 0 + ∑ m ∈ Finset.range k, (T^[m + 1] (T rs.f)).getD j 0 = _
      rw [add_eq_getD _ _ (by rw [hz.1, hT]) j, Finset.sum_range_succ' _ k]
      show _ = rs.s.getD j 0 +
        (∑ m ∈ Finset.range k, (T^[m + 1] (T rs.f)).getD j 0 + (T rs.f).getD j 0)
      ring

/-- The inner loop in terms of a map `T` that describes one pass: the loop
stops at the first pass whose new `f` has 1-norm zero, whatever its bound. -/
theorem resolventLoop_stop_of (net : Network) (α : ℚ) (node : List Nat) (psiR psiL : Vec)
    (T : Vec → Vec) (hT : ∀ v, (T v).length = net.size)
    (hstep : ∀ rs : ResState, rs.Sized net.size →
      resolventStep net α node psiR psiL rs =
        Except.ok ((⟨add_eq rs.s (T rs.f), rs.s, T rs.f, rs.f⟩ : ResState),
          decide (norm1 (T rs.f) ≤ 0)))
    (k M : Nat) (rs : ResState) (hz : rs.Sized net.size) (hk : 0 < k) (hM : k ≤ M)
    (hno : ∀ m, m + 1 < k → norm1 (T^[m + 1] rs.f) ≠ 0) (hzero : norm1 (T^[k] rs.f) = 0) :
    resolventLoop net α node psiR psiL M rs = resolventLoop net α node psiR psiL k rs := by
  induction k generalizing rs M with
  | zero => exact absurd hk (Nat.lt_irrefl 0)
  | succ k ih =>
    obtain ⟨M, rfl⟩ : ∃ M2, M = M2 + 1 := ⟨M - 1, by omega⟩
    have hz1 : (⟨add_eq rs.s (T rs.f), rs.s, T rs.f, rs.f⟩ : ResState).Sized net.size :=
      ⟨by show (add_eq rs.s _).length = _; rw [add_eq_length]; exact hz.1, hz.1, hT _, hz.2.2.1⟩
    unfold resolventLoop
    rw [hstep rs hz]
    simp only [bind, Except.bind]
    rcases Nat.eq_zero_or_pos k with hk0 | hk0
    · subst hk0
      have hflag : decide (norm1 (T rs.f) ≤ 0) = true := by
        rw [decide_eq_true_iff]
        exact le_of_eq hzero
      rw [hflag]
      rfl
    · have hne : norm1 (T rs.f) ≠ 0 := hno 0 (by omega)
      have hflag : decide (norm1 (T rs.f) ≤ 0) = false := by
        rw [decide_eq_false_iff_not]
        intro hc
        exact hne (le_antisymm hc (norm1_nonneg _))
      rw [hflag]
      simp only [Bool.false_eq_true, if_false]
      exact ih M _ hz1 hk0 (by omega) (fun m hm => hno (m + 1) (by omega)) hzero
theorem fourCycle_wellFormed : WellFormed fourCycle :=
  ⟨loaded 4 [0, 1, 2, 3] [1, 2, 3, 0], by decide, by decide, by decide, by decide, rfl⟩

/-! ## The stop tests of the eigensolver -/

/-- What a pass of the loop does with the stop tests: it ends in `break`
exactly when the iteration is a tested one and the stop test holds, and it
replaces the stored measure exactly at the tested iterations. -/
theorem iterStep_flag (max_iter : Int) (net : Network) (α : ℚ) (iprint : Int)
    (node : List Nat) (trans_frag : Nat) (i : Nat) (st : IterState) (r : IterState × Bool)
    (h : iterStep max_iter net α iprint node trans_frag i st = Except.ok r) :
    (r.2 = true ↔ tested max_iter iprint i ∧
        stopTest α (diff_norm_rel r.1.pagerank r.1.a) st.quality_rel) ∧
      r.1.quality_rel =
        if tested max_iter iprint i then diff_norm_rel r.1.pagerank r.1.a
        else st.quality_rel := by
  unfold iterStep at h
  simp only [bind, Except.bind, pure, Except.pure] at h
  split at h
  · cases h
  · rename_i n hn
    unfold tested stopTest
    by_cases h1 : (i : Int) % iprint = 0 ∨ (i : Int) = max_iter
    · rw [if_pos h1] at h
      rw [if_pos h1]
      by_cases h2 : diff_norm_rel n.1 st.pagerank < eps_pagerank
      · rw [if_pos h2] at h
        injection h with h
        rw [← h]
        exact ⟨⟨fun _ => ⟨h1, Or.inl h2⟩, fun _ => rfl⟩, rfl⟩
      · rw [if_neg h2] at h
        by_cases h3 : diff_norm_rel n.1 st.pagerank < 1 / 10 ^ 3 ∧
            diff_norm_rel n.1 st.pagerank * (1 + α / 2) > st.quality_rel
        · rw [if_pos h3] at h
          injection h with h
          rw [← h]
          exact ⟨⟨fun _ => ⟨h1, Or.inr h3⟩, fun _ => rfl⟩, rfl⟩
        · rw [if_neg h3] at h
          injection h with h
          rw [← h]
          refine ⟨⟨fun hc => (by cases hc), fun hc => ?_⟩, rfl⟩
          rcases hc.2 with h5 | h5
          · exact absurd h5 h2
          · exact absurd h5 h3
    · rw [if_neg h1] at h
      rw [if_neg h1]
      injection h with h
      rw [← h]
      exact ⟨⟨fun hc => (by cases hc), fun hc => absurd hc.1 h1⟩, rfl⟩

theorem iterRun_succ_false (max_iter : Int) (net : Network) (α : ℚ) (iprint : Int)
    (node : List Nat) (trans_frag : Nat) (k i : Nat) (st prev : IterState)
    (r : IterState × Bool)
    (hs : iterStep max_iter net α iprint node trans_frag i st = Except.ok r) :
    iterRun max_iter net α iprint node trans_frag (k + 1) i st = Except.ok (prev, false) ↔
      r.2 = false ∧
        iterRun max_iter net α iprint node trans_frag k (i + 1) r.1 = Except.ok (prev, false) := by
  conv_lhs => unfold iterRun
  simp only [bind, Except.bind, pure, Except.pure, hs]
  cases hr : iterRun max_iter net α iprint node trans_frag k (i + 1) r.1 with
  | error e =>
    simp only []
    constructor
    · intro hc
      cases hc
    · intro hc
      cases hc.2
  | ok r2 =>
    obtain ⟨a, b⟩ := r2
    simp only [Except.ok.injEq, Prod.mk.injEq, Bool.or_eq_false_iff]
    constructor
    · rintro ⟨h1, h2, h3⟩
      exact ⟨h2, h1, h3⟩
    · rintro ⟨h2, h1, h3⟩
      exact ⟨h1, h2, h3⟩

/-- The loop makes fewer passes than its bound exactly when a pass before the
last one ends in `break`. -/
theorem passes_lt_iff (max_iter : Int) (net : Network) (α : ℚ) (iprint : Int)
    (node : List Nat) (trans_frag : Nat) (n i : Nat) (st res : IterState)
    (hl : iterLoop max_iter net α iprint node trans_frag n i st = Except.ok res) :
    passes max_iter net α iprint node trans_frag n i st < n ↔
      ∃ k prev next, k + 1 < n ∧
        iterRun max_iter net α iprint node trans_frag k i st = Except.ok (prev, false) ∧
        iterStep max_iter net α iprint node trans_frag (i + k) prev = Except.ok (next, true) := by
  induction n generalizing i st with
  | zero =>
    constructor
    · intro hc
      exact absurd hc (Nat.lt_irrefl _)
    · rintro ⟨k, _, _, hk, _⟩
      omega
  | succ n ih =>
    unfold iterLoop at hl
    obtain ⟨r, hs, hl⟩ := bind_ok hl
    unfold passes
    rw [hs]
    simp only []
    by_cases hb : r.2 = true
    · rw [if_pos hb]
      constructor
      · intro hn
        refine ⟨0, st, r.1, by omega, rfl, ?_⟩
        rw [Nat.add_zero, hs, ← hb]
      · rintro ⟨k, _, _, hk, _⟩
        omega
    · rw [if_neg hb] at hl ⊢
      have hb2 : r.2 = false := by simpa using hb
      have ih2 := ih (i + 1) r.1 hl
      constructor
      · intro hn
        obtain ⟨k, prev, next, hk, h1, h2⟩ := ih2.1 (by omega)
        refine ⟨k + 1, prev, next, by omega, ?_, ?_⟩
        · exact (iterRun_succ_false _ _ _ _ _ _ k i st prev r hs).2 ⟨hb2, h1⟩
        · rw [show i + (k + 1) = i + 1 + k by omega]
          exact h2
      · rintro ⟨k, prev, next, hk, h1, h2⟩
        cases k with
        | zero =>
          injection h1 with h1
          injection h1 with h1
          rw [← h1, Nat.add_zero, hs] at h2
          injection h2 with h2
          rw [h2] at hb2
          cases hb2
        | succ k =>
          obtain ⟨_, h3⟩ := (iterRun_succ_false _ _ _ _ _ _ k i st prev r hs).1 h1
          have := ih2.2 ⟨k, prev, next, by omega, h3, by
            rw [show i + 1 + k = i + (k + 1) by omega]
            exact h2⟩
          omega

/-! ## The leaked mass of the eigensolver -/

theorem sum_set_zero (l : Vec) (k : Nat) : (l.set k 0).sum = l.sum - l.getD k 0 := by
  induction l generalizing k with
  | nil => simp
  | cons a t ih =>
    cases k with
    | zero => simp
    | succ k =>
      rw [List.set_cons_succ, List.sum_cons, ih k, List.sum_cons]
      show _ = a + t.sum - t.getD k 0
      ring

theorem deflate_mass_fold (p : Vec) (node : List Nat) (m : Nat) :
    ((List.range m).foldl
        (fun (st : ℚ × Vec) l =>
          (st.1 + st.2.getD (node.getD l 0) 0, st.2.set (node.getD l 0) 0)) (0, p)).1 +
      ((List.range m).foldl
        (fun (st : ℚ × Vec) l =>
          (st.1 + st.2.getD (node.getD l 0) 0, st.2.set (node.getD l 0) 0)) (0, p)).2.sum =
      p.sum := by
  induction m with
  | zero => simp
  | succ m ih =>
    rw [List.range_succ, List.foldl_append, List.foldl_cons, List.foldl_nil]
    simp only []
    rw [sum_set_zero, ← ih]
    ring

/-- The deflation loop moves mass from the vector to `dlambda`: what it
returns and what it leaves add up to the sum of its input. -/
theorem deflate_mass (p : Vec) (node : List Nat) :
    (deflate p node).1 + (deflate p node).2.sum = p.sum :=
  deflate_mass_fold p node node.length

theorem mem_iff_getD (node : List Nat) (i : Nat) :
    (∃ l, l < node.length ∧ node.getD l 0 = i) ↔ i ∈ node := by
  constructor
  · rintro ⟨l, hl, rfl⟩
    rw [List.getD_eq_getElem _ _ hl]
    exact List.getElem_mem hl
  · intro h
    obtain ⟨l, hl, e⟩ := List.mem_iff_getElem.mp h
    exact ⟨l, hl, by rw [List.getD_eq_getElem _ _ hl]; exact e⟩

/-- The value that the deflation loop returns is the mass of the input on the
nodes of the subset. -/
theorem deflate_fst (p : Vec) (node : List Nat) :
    (deflate p node).1 =
      ∑ i ∈ Finset.range p.length, if i ∈ node then p.getD i 0 else 0 := by
  have h := deflate_mass p node
  have h2 : (deflate p node).2.sum =
      ∑ i ∈ Finset.range p.length, if i ∈ node then 0 else p.getD i 0 := by
    rw [sum_eq_sum_range, deflate_length]
    apply Finset.sum_congr rfl
    intro i _
    rw [deflate_snd, zeroPrefix_getD]
    by_cases hi : i ∈ node
    · rw [if_pos ((mem_iff_getD node i).2 hi), if_pos hi]
    · rw [if_neg (fun hc => hi ((mem_iff_getD node i).1 hc)), if_neg hi]
  have h3 : p.sum = (∑ i ∈ Finset.range p.length, if i ∈ node then p.getD i 0 else 0) +
      ∑ i ∈ Finset.range p.length, if i ∈ node then 0 else p.getD i 0 := by
    rw [sum_eq_sum_range, ← Finset.sum_add_distrib]
    apply Finset.sum_congr rfl
    intro i _
    split_ifs <;> ring
  linarith

/-- A pass of the loop in forward mode: the vector that is normalised, the
value returned by the normalisation and the new `dlambda`. -/
theorem iterStep_forward (max_iter : Int) (net : Network) (α : ℚ) (iprint : Int)
    (node : List Nat) (i : Nat) (st : IterState) (r : IterState × Bool)
    (h : iterStep max_iter net α iprint node 0 i st = Except.ok r) :
    pagerank_normalize (deflate (GGmult net α st.a st.pagerank 1) node).2 =
        Except.ok (r.1.pagerank, sum_vector (deflate (GGmult net α st.a st.pagerank 1) node).2) ∧
      r.1.dlambda = (deflate (GGmult net α st.a st.pagerank 1) node).1 := by
  unfold iterStep at h
  simp only [bind, Except.bind, pure, Except.pure, ne_eq, not_true_eq_false, if_false] at h
  split at h
  · cases h
  · rename_i n hn
    have hn2 : n.2 = sum_vector (deflate (GGmult net α st.a st.pagerank 1) node).2 := by
      unfold pagerank_normalize at hn
      simp only [] at hn
      split_ifs at hn
      injection hn with hn
      rw [← hn]
    have hn3 : pagerank_normalize (deflate (GGmult net α st.a st.pagerank 1) node).2 =
        Except.ok (n.1, sum_vector (deflate (GGmult net α st.a st.pagerank 1) node).2) := by
      rw [hn, ← hn2]
    split_ifs at h <;> injection h with h <;> rw [← h] <;> exact ⟨hn3, rfl⟩

theorem passes_pos (max_iter : Int) (net : Network) (α : ℚ) (iprint : Int)
    (node : List Nat) (trans_frag : Nat) (n i : Nat) (st : IterState) (hn : 0 < n) :
    0 < passes max_iter net α iprint node trans_frag n i st := by
  cases n with
  | zero => exact absurd hn (Nat.lt_irrefl 0)
  | succ n =>
    unfold passes
    split
    · exact Nat.one_pos
    · split_ifs
      · exact Nat.one_pos
      · omega

/-- A run of `q + 1` passes is a run of `q` passes followed by one pass. -/
theorem iterRun_last (max_iter : Int) (net : Network) (α : ℚ) (iprint : Int)
    (node : List Nat) (trans_frag : Nat) (q i : Nat) (st : IterState) (r : IterState × Bool)
    (h : iterRun max_iter net α iprint node trans_frag (q + 1) i st = Except.ok r) :
    ∃ prev b1 b2,
      iterRun max_iter net α iprint node trans_frag q i st = Except.ok (prev, b1) ∧
      iterStep max_iter net α iprint node trans_frag (i + q) prev = Except.ok (r.1, b2) := by
  induction q generalizing i st r with
  | zero =>
    unfold iterRun at h
    obtain ⟨r1, h1, h⟩ := bind_ok h
    unfold iterRun at h
    injection h with h
    refine ⟨st, false, r1.2, rfl, ?_⟩
    rw [Nat.add_zero, h1, ← h]
  | succ q ih =>
    unfold iterRun at h
    obtain ⟨r1, h1, h⟩ := bind_ok h
    obtain ⟨r2, h2, h⟩ := bind_ok h
    injection h with h
    obtain ⟨prev, b1, b2, e1, e2⟩ := ih (i + 1) r1.1 r2 h2
    refine ⟨prev, r1.2 || b1, b2, ?_, ?_⟩
    · unfold iterRun
      simp only [bind, Except.bind, pure, Except.pure, h1, e1]
    · rw [show i + (q + 1) = i + 1 + q by omega, ← h]
      exact e2

/-! # The claims -/

/-- C1. Mass conservation of the forward operator: on a graph built by
`complete` from an edge list sorted by source with all endpoints in `[0, size)`
and `size > 0`, for every damping value and every input vector `v` of `size`
entries, the entries of the output of `GGmult` with `norm_flag = 0` sum to the
sum of the entries of `v`. -/
theorem GGmult_mass_conservation (net : Network) (ha : Allocated net)
    (hs : SourcesSorted net) (hr : SourcesInRange net) (ht : TargetsInRange net)
    (hN : 0 < net.size) (α : ℚ) (out v : Vec) (hout : out.length = net.size)
    (hv : v.length = net.size) :
    (GGmult (complete net) α out v 0).sum = v.sum := by
  have hN0 : (net.size : ℚ) ≠ 0 := by exact_mod_cast (Nat.pos_iff_ne_zero.mp hN)
  have hp := GGmult_pairing hs hr ha ht α out v 0 hout hv (fun _ => 1)
  simp only [one_mul, Finset.sum_const, Finset.card_range, nsmul_eq_mul, mul_one] at hp
  rw [link_mass hs hr ha, danglingMass_complete] at hp
  have hsum : (GGmult (complete net) α out v 0).sum =
      ∑ i ∈ Finset.range net.size, (GGmult (complete net) α out v 0).getD i 0 := by
    rw [sum_eq_sum_range, GGmult_length, hout]
  have hvs : v.sum = ∑ i ∈ Finset.range net.size, v.getD i 0 := by
    rw [sum_eq_sum_range, hv]
  have hsplit : (∑ j ∈ Finset.range net.size,
        if (buildFirstpos net).getD j 0 = (buildFirstpos net).getD (j + 1) 0 then v.getD j 0
        else 0) +
      (∑ j ∈ Finset.range net.size,
        if (buildFirstpos net).getD j 0 = (buildFirstpos net).getD (j + 1) 0 then 0
        else v.getD j 0) = v.sum := by
    rw [hvs, ← Finset.sum_add_distrib]
    apply Finset.sum_congr rfl
    intro j _
    split_ifs <;> ring
  have hnorm : normSum 0 v = v.sum := by simp [normSum]
  rw [hsum, hp, hnorm, ← hsplit]
  field_simp
  ring

/-- Witness of C1: the five-node graph with edges 1→0, 1→2, 3→4, damping 1/5
and the input `[1, 2, 3, 4, 5]`. -/
theorem GGmult_mass_conservation_witness :
    (GGmult (complete (loaded 5 [1, 1, 3] [0, 2, 4])) (1 / 5) [9, 9, 9, 9, 9]
      [1, 2, 3, 4, 5] 0).sum = ([1, 2, 3, 4, 5] : Vec).sum :=
  GGmult_mass_conservation (loaded 5 [1, 1, 3] [0, 2, 4]) (by decide) (by decide) (by decide)
    (by decide) (by decide) (1 / 5) [9, 9, 9, 9, 9] [1, 2, 3, 4, 5] (by decide) (by decide)



/-- C2. Reference definition of the forward operator: on a graph built by
`complete` from a sorted edge list with all endpoints in range, for every
damping value and every input vector, `GGmult` leaves in
slot `i` the value
`(1 - alpha) * (danglingMass / N + sum over edges k with to[k] = i of
in[from[k]] / link_num[from[k]]) + (alpha / N) * normSum`; the previous content
of `out` does not influence the result. -/
theorem GGmult_reference (net : Network) (ha : Allocated net) (hs : SourcesSorted net)
    (hr : SourcesInRange net) (_ht : TargetsInRange net) (α : ℚ) (out inp : Vec) (flag : Nat)
    (hout : out.length = net.size) (hin : inp.length = net.size) :
    GGmult (complete net) α out inp flag =
        (List.range net.size).map (GGmult_ref (complete net) α inp flag) ∧
      ∀ out' : Vec, out'.length = net.size →
        GGmult (complete net) α out' inp flag = GGmult (complete net) α out inp flag := by
  refine ⟨GGmult_eq_ref hs hr ha α out inp flag hout hin, fun out' hout' => ?_⟩
  rw [GGmult_eq_ref hs hr ha α out inp flag hout hin,
    GGmult_eq_ref hs hr ha α out' inp flag hout' hin]

/-- Witness of C2: the five-node graph with edges 1→0, 1→2, 3→4. -/
theorem GGmult_reference_witness :
    GGmult (complete (loaded 5 [1, 1, 3] [0, 2, 4])) (1 / 5) [9, 9, 9, 9, 9]
        [1, 2, 3, 4, 5] 1 =
      (List.range 5).map
        (GGmult_ref (complete (loaded 5 [1, 1, 3] [0, 2, 4])) (1 / 5) [1, 2, 3, 4, 5] 1) :=
  (GGmult_reference (loaded 5 [1, 1, 3] [0, 2, 4]) (by decide) (by decide) (by decide)
    (by decide) (1 / 5) [9, 9, 9, 9, 9] [1, 2, 3, 4, 5] 1 (by decide) (by decide)).1

/-- C3. Reference definition of the transpose operator: on a graph built by
`complete` from a sorted edge list with all endpoints in range, for every
damping value and every input vector, `GTmult` leaves in
slot `j` the value `(1 - alpha) * base[j] + (alpha / N) * normSum`, where
`base[j] = sum(in) / N` at a dangling node and the sum of `in[to[k]]` over the
edge window of `j`, divided by `link_num[j]`, otherwise. -/
theorem GTmult_reference (net : Network) (_ha : Allocated net) (_hs : SourcesSorted net)
    (_hr : SourcesInRange net) (_ht : TargetsInRange net) (α : ℚ) (out inp : Vec) (flag : Nat)
    (hout : out.length = net.size) (hin : inp.length = net.size) :
    GTmult (complete net) α out inp flag =
      (List.range net.size).map (GTmult_ref (complete net) α inp flag) :=
  GTmult_eq_ref net α out inp flag hout hin

/-- Witness of C3: the five-node graph with edges 1→0, 1→2, 3→4. -/
theorem GTmult_reference_witness :
    GTmult (complete (loaded 5 [1, 1, 3] [0, 2, 4])) (1 / 5) [9, 9, 9, 9, 9]
        [1, 2, 3, 4, 5] 1 =
      (List.range 5).map
        (GTmult_ref (complete (loaded 5 [1, 1, 3] [0, 2, 4])) (1 / 5) [1, 2, 3, 4, 5] 1) :=
  GTmult_reference (loaded 5 [1, 1, 3] [0, 2, 4]) (by decide) (by decide) (by decide)
    (by decide) (1 / 5) [9, 9, 9, 9, 9] [1, 2, 3, 4, 5] 1 (by decide) (by decide)

/-- C4. `GTmult` is the adjoint of `GGmult`: on a graph built by `complete` with
all endpoints in range, for every damping value and all vectors `x`, `y` of
`size` entries, the scalar product of `y` with the output of `GGmult` on `x`
equals the scalar product of `x` with the output of `GTmult` on `y`
(`norm_flag = 0` in both). -/
theorem GTmult_adjoint (net : Network) (ha : Allocated net) (hs : SourcesSorted net)
    (hr : SourcesInRange net) (ht : TargetsInRange net) (α : ℚ) (out1 out2 x y : Vec)
    (hout1 : out1.length = net.size) (hout2 : out2.length = net.size)
    (hx : x.length = net.size) (hy : y.length = net.size) :
    ∃ v : ℚ, scalar_product y (GGmult (complete net) α out1 x 0) = Except.ok v ∧
      scalar_product x (GTmult (complete net) α out2 y 0) = Except.ok v := by
  refine ⟨_, scalar_product_ok _ _ (by rw [GGmult_length, hy, hout1]), ?_⟩
  rw [scalar_product_ok _ _ (by rw [GTmult_length, hx, hout2]), hx, hy,
    GGmult_pairing hs hr ha ht α out1 x 0 hout1 hx (fun i => y.getD i 0),
    GTmult_pairing hs hr ha α out2 y 0 hout2 hy x]
  have hxs : x.sum = ∑ i ∈ Finset.range net.size, x.getD i 0 := by
    rw [sum_eq_sum_range, hx]
  have hys : y.sum = ∑ i ∈ Finset.range net.size, y.getD i 0 := by
    rw [sum_eq_sum_range, hy]
  have hnx : normSum 0 x = x.sum := by simp [normSum]
  have hny : normSum 0 y = y.sum := by simp [normSum]
  rw [hnx, hny, ← hxs, ← hys]
  congr 1
  ring

/-- Witness of C4: the five-node graph with edges 1→0, 1→2, 3→4. -/
theorem GTmult_adjoint_witness :
    ∃ v : ℚ,
      scalar_product [5, 4, 3, 2, 1]
          (GGmult (complete (loaded 5 [1, 1, 3] [0, 2, 4])) (1 / 5) [9, 9, 9, 9, 9]
            [1, 2, 3, 4, 5] 0) = Except.ok v ∧
        scalar_product [1, 2, 3, 4, 5]
          (GTmult (complete (loaded 5 [1, 1, 3] [0, 2, 4])) (1 / 5) [7, 7, 7, 7, 7]
            [5, 4, 3, 2, 1] 0) = Except.ok v :=
  GTmult_adjoint (loaded 5 [1, 1, 3] [0, 2, 4]) (by decide) (by decide) (by decide) (by decide)
    (1 / 5) [9, 9, 9, 9, 9] [7, 7, 7, 7, 7] [1, 2, 3, 4, 5] [5, 4, 3, 2, 1]
    (by decide) (by decide) (by decide) (by decide)

/-- C5. With `alpha = 0` both operators are the pure propagation: on a graph
built by `complete` from a sorted edge list with all endpoints in range, for
every input `v`, `GGmult(0, out, v, flag)` is `S * v`
and `GTmult(0, out, v, flag)` is `S^T * v` for every `norm_flag`, so the outputs
for `norm_flag = 1` and `norm_flag = 0` coincide and no constant term is
added. -/
theorem operators_alpha_zero (net : Network) (ha : Allocated net) (hs : SourcesSorted net)
    (hr : SourcesInRange net) (_ht : TargetsInRange net) (out v : Vec) (hout : out.length = net.size)
    (hv : v.length = net.size) :
    (∀ flag, GGmult (complete net) 0 out v flag =
        (List.range net.size).map (S_ref (complete net) v)) ∧
      (∀ flag, GTmult (complete net) 0 out v flag =
        (List.range net.size).map (ST_ref (complete net) v)) ∧
      GGmult (complete net) 0 out v 1 = GGmult (complete net) 0 out v 0 ∧
      GTmult (complete net) 0 out v 1 = GTmult (complete net) 0 out v 0 := by
  have hG : ∀ flag, GGmult (complete net) 0 out v flag =
      (List.range net.size).map (S_ref (complete net) v) := by
    intro flag
    rw [GGmult_eq_ref hs hr ha 0 out v flag hout hv]
    apply List.map_congr_left
    intro i _
    simp [GGmult_ref]
  have hT : ∀ flag, GTmult (complete net) 0 out v flag =
      (List.range net.size).map (ST_ref (complete net) v) := by
    intro flag
    rw [GTmult_eq_ref net 0 out v flag hout hv]
    apply List.map_congr_left
    intro i _
    simp [GTmult_ref]
  exact ⟨hG, hT, by rw [hG 1, hG 0], by rw [hT 1, hT 0]⟩

/-- Witness of C5: the five-node graph with edges 1→0, 1→2, 3→4. -/
theorem operators_alpha_zero_witness :
    GGmult (complete (loaded 5 [1, 1, 3] [0, 2, 4])) 0 [9, 9, 9, 9, 9] [1, 2, 3, 4, 5] 1 =
      GGmult (complete (loaded 5 [1, 1, 3] [0, 2, 4])) 0 [9, 9, 9, 9, 9] [1, 2, 3, 4, 5] 0 :=
  (operators_alpha_zero (loaded 5 [1, 1, 3] [0, 2, 4]) (by decide) (by decide) (by decide)
    (by decide) [9, 9, 9, 9, 9] [1, 2, 3, 4, 5] (by decide) (by decide)).2.2.1

/-- C6. Offset-array invariant: on a source array that is non-decreasing with
all values in `[0, size)`, `complete` leaves an offset array of `size + 1`
cells with `firstpos[0] = 0`, `firstpos[size] = link_len` and
`firstpos[i] ≤ firstpos[i+1]` for every node `i`. -/
theorem complete_firstpos_invariant (net : Network) (ha : Allocated net)
    (hs : SourcesSorted net) (hr : SourcesInRange net) :
    (complete net).firstpos.length = net.size + 1 ∧
      (complete net).firstpos.getD 0 0 = 0 ∧
      (complete net).firstpos.getD net.size 0 = net.link_len ∧
      ∀ i, i < net.size →
        (complete net).firstpos.getD i 0 ≤ (complete net).firstpos.getD (i + 1) 0 :=
  ⟨buildFirstpos_length hs hr ha, buildFirstpos_zero hs hr ha, buildFirstpos_last hs hr ha,
    fun i hi => buildFirstpos_mono hs hr ha i hi⟩

/-- Witness of C6: the five-node graph with edges 1→0, 1→2, 3→4. -/
theorem complete_firstpos_invariant_witness :
    Allocated (loaded 5 [1, 1, 3] [0, 2, 4]) ∧ SourcesSorted (loaded 5 [1, 1, 3] [0, 2, 4]) ∧
      SourcesInRange (loaded 5 [1, 1, 3] [0, 2, 4]) ∧
      (complete (loaded 5 [1, 1, 3] [0, 2, 4])).firstpos.getD 5 0 = 3 :=
  ⟨by decide, by decide, by decide,
    (complete_firstpos_invariant (loaded 5 [1, 1, 3] [0, 2, 4])
      (by decide) (by decide) (by decide)).2.2.1⟩

/-- C7. CSR grouping: on an edge list sorted ascending by source with sources in
`[0, size)`, after `complete` an edge position `k` lies in
`[firstpos[i], firstpos[i+1])` if and only if `from[k] = i`; and
`link_num[i] = firstpos[i+1] - firstpos[i]` is the number of edges whose source
is `i`. -/
theorem complete_csr_grouping (net : Network) (ha : Allocated net)
    (hs : SourcesSorted net) (hr : SourcesInRange net) :
    (∀ i k, i < net.size → k < net.link_len →
        (((complete net).firstpos.getD i 0 ≤ k ∧ k < (complete net).firstpos.getD (i + 1) 0) ↔
          net.from_.getD k 0 = i)) ∧
      ∀ i, i < net.size →
        (complete net).link_num.getD i 0 =
            ((complete net).firstpos.getD (i + 1) 0 : Int) -
              ((complete net).firstpos.getD i 0 : Int) ∧
          (complete net).link_num.getD i 0 = ((outEdges net i).length : Int) := by
  refine ⟨fun i k hi hk => buildFirstpos_group hs hr ha i k hi hk, fun i hi => ?_⟩
  have h : (complete net).link_num.getD i 0 =
      ((buildFirstpos net).getD (i + 1) 0 : Int) - ((buildFirstpos net).getD i 0 : Int) :=
    fillLinkNum_getD _ _ _ i hi (by rw [ha.2.2.1]; exact hi)
  exact ⟨h, by rw [h, outEdges_length hs hr ha i hi]⟩

/-- Witness of C7: the five-node graph with edges 1→0, 1→2, 3→4. -/
theorem complete_csr_grouping_witness :
    Allocated (loaded 5 [1, 1, 3] [0, 2, 4]) ∧ SourcesSorted (loaded 5 [1, 1, 3] [0, 2, 4]) ∧
      SourcesInRange (loaded 5 [1, 1, 3] [0, 2, 4]) ∧
      (complete (loaded 5 [1, 1, 3] [0, 2, 4])).link_num.getD 1 0 =
        ((outEdges (loaded 5 [1, 1, 3] [0, 2, 4]) 1).length : Int) :=
  ⟨by decide, by decide, by decide,
    ((complete_csr_grouping (loaded 5 [1, 1, 3] [0, 2, 4])
      (by decide) (by decide) (by decide)).2 1 (by decide)).2⟩

/-- C8. Dangling-node detection: on a sorted edge list with sources in
`[0, size)`, the vector `dangling` left by `complete` is strictly ascending, has
no duplicates, and contains `i` if and only if `i` is a node (`i < size`) with
`link_num[i] = 0`; and `link_num[i] = 0` says that node `i` has no outgoing
edge. -/
theorem complete_dangling_detection (net : Network) (ha : Allocated net)
    (hs : SourcesSorted net) (hr : SourcesInRange net) :
    List.Sorted (fun a b => a < b) (complete net).dangling ∧
      (complete net).dangling.Nodup ∧
      (∀ i, i ∈ (complete net).dangling ↔
        (i < net.size ∧ (complete net).link_num.getD i 0 = 0)) ∧
      ∀ i, i < net.size → ((complete net).link_num.getD i 0 = 0 ↔ outEdges net i = []) := by
  have hln : ∀ i, i < net.size → (complete net).link_num.getD i 0 =
      ((buildFirstpos net).getD (i + 1) 0 : Int) - ((buildFirstpos net).getD i 0 : Int) :=
    fun i hi => fillLinkNum_getD _ _ _ i hi (by rw [ha.2.2.1]; exact hi)
  rw [complete_dangling]
  refine ⟨(List.sorted_lt_range _).filter _, (List.nodup_range _).filter _, fun i => ?_,
    fun i hi => ?_⟩
  · simp only [emptyNodes, List.mem_filter, List.mem_range, decide_eq_true_iff]
    constructor
    · rintro ⟨hi, he⟩
      exact ⟨hi, by rw [hln i hi, he]; omega⟩
    · rintro ⟨hi, he⟩
      rw [hln i hi] at he
      exact ⟨hi, by omega⟩
  · rw [hln i hi, ← outEdges_length hs hr ha i hi, ← List.length_eq_zero]
    exact Int.natCast_eq_zero

/-- Witness of C8: the five-node graph with edges 1→0, 1→2, 3→4. -/
theorem complete_dangling_detection_witness :
    Allocated (loaded 5 [1, 1, 3] [0, 2, 4]) ∧ SourcesSorted (loaded 5 [1, 1, 3] [0, 2, 4]) ∧
      SourcesInRange (loaded 5 [1, 1, 3] [0, 2, 4]) ∧
      (complete (loaded 5 [1, 1, 3] [0, 2, 4])).dangling.Nodup :=
  ⟨by decide, by decide, by decide,
    (complete_dangling_detection (loaded 5 [1, 1, 3] [0, 2, 4])
      (by decide) (by decide) (by decide)).2.1⟩

/-- C9, as the code has it. For any vector `v` whose entries sum to a non-zero
value, `pagerank_normalize(v)` returns that sum and leaves a vector of the same
size whose entries sum to 1. -/
theorem pagerank_normalize_sum (v : Vec) (h : v.sum ≠ 0) :
    ∃ a, pagerank_normalize v = Except.ok (a, v.sum) ∧ a.length = v.length ∧ a.sum = 1 := by
  have hs : sum_vector v = v.sum := foldl_range_sum v v.length rfl
  refine ⟨(List.range v.length).foldl (fun a i => a.set i (a.getD i 0 / v.sum)) v, ?_, ?_, ?_⟩
  · unfold pagerank_normalize
    simp only [hs]
    rw [if_neg (fun hc => h hc.2)]
  · exact foldl_range_set_length (fun _ x => x / v.sum) 0 _ _
  · rw [sum_eq_sum_range, foldl_range_set_length (fun _ x => x / v.sum) 0]
    have e : ∀ i ∈ Finset.range v.length,
        ((List.range v.length).foldl (fun a i => a.set i (a.getD i 0 / v.sum)) v).getD i 0 =
          v.getD i 0 / v.sum := by
      intro i hi
      rw [foldl_range_set_getD (fun _ x => x / v.sum) 0,
        if_pos ⟨Finset.mem_range.mp hi, Finset.mem_range.mp hi⟩]
    rw [Finset.sum_congr rfl e, ← Finset.sum_div, ← sum_eq_sum_range]
    exact div_self h

/-- Witness of C9: the vector `[1, 2, 3]`. -/
theorem pagerank_normalize_sum_witness :
    ∃ a, pagerank_normalize [1, 2, 3] = Except.ok (a, ([1, 2, 3] : Vec).sum) ∧
      a.length = ([1, 2, 3] : Vec).length ∧ a.sum = 1 :=
  pagerank_normalize_sum [1, 2, 3] (by norm_num)

/-- C9 as stated fails: the vector `[1, -1]` is non-zero, its entries sum to 0,
so every entry is divided by zero (the source leaves `[Infinity, -Infinity]`)
and the entries do not sum to 1. -/
theorem pagerank_normalize_counterexample :
    (∃ x ∈ ([1, -1] : Vec), x ≠ 0) ∧
      pagerank_normalize [1, -1] = Except.error Fault.divisionByZero ∧
      ¬ ∃ r : Vec × ℚ, pagerank_normalize [1, -1] = Except.ok r ∧ r.1.sum = 1 := by
  have h : pagerank_normalize [1, -1] = Except.error Fault.divisionByZero := by decide!
  refine ⟨⟨1, by simp, by norm_num⟩, h, ?_⟩
  rintro ⟨r, hr, _⟩
  rw [h] at hr
  cases hr

/-- C10, as the code has it. Whenever `compute_project` completes without a
division by zero (every normalisation sum of the three eigensolver runs and the
scalar product of the computed `left` and `right` are non-zero), the scalar
product of `left` and `right` equals 1 after it returns. -/
theorem compute_project_biorthogonal (max_iter : Int) (right left pg : Vec) (net : Network)
    (α : ℚ) (node : List Nat) (r : Vec × Vec × Vec × ℚ)
    (h : compute_project max_iter right left pg net α node = Except.ok r) :
    scalar_product r.2.1 r.1 = Except.ok 1 := by
  unfold compute_project at h
  simp only [bind, Except.bind, pure, Except.pure] at h
  split at h
  · cases h
  · rename_i p2 _
    split at h
    · cases h
    · rename_i p1 _
      split at h
      · cases h
      · rename_i p3 _
        split at h
        · cases h
        · rename_i sp0 hsp
          split_ifs at h with h0
          have hres := rescale_scalar_product _ _ _ h0 hsp
          rw [hres] at h
          simp only [Except.ok.injEq] at h
          rw [← h]
          exact hres

/-- Witness of C10: the complete graph on three nodes, damping 1/2 (for which
`max_iter` is 118) and the subset `{0}`. -/
theorem compute_project_biorthogonal_witness :
    compute_project 118 [0, 0, 0] [0, 0, 0] [0, 0, 0]
        (complete (loaded 3 [0, 0, 1, 1, 2, 2] [1, 2, 0, 2, 0, 1])) (1 / 2) [0] =
        Except.ok ([0, 1 / 2, 1 / 2], [0, 1, 1], [1 / 3, 1 / 3, 1 / 3], 5 / 12) ∧
      scalar_product [0, 1, 1] [0, 1 / 2, 1 / 2] = Except.ok 1 :=
  ⟨by decide!,
    compute_project_biorthogonal 118 [0, 0, 0] [0, 0, 0] [0, 0, 0]
      (complete (loaded 3 [0, 0, 1, 1, 2, 2] [1, 2, 0, 2, 0, 1])) (1 / 2) [0]
      ([0, 1 / 2, 1 / 2], [0, 1, 1], [1 / 3, 1 / 3, 1 / 3], 5 / 12) (by decide!)⟩

/-- C10 as stated fails: on the 2-cycle `0 → 1 → 0` (strongly connected) with
damping 1/2 (for which `max_iter` is 118) and the subset `{0, 1}` of all nodes,
the first eigensolver run zeroes every entry and then normalises by the sum 0
(the source leaves `NaN` in every entry), so `left` and `right` do not have
scalar product 1. -/
theorem compute_project_counterexample :
    compute_project 118 [0, 0] [0, 0] [0, 0] (complete (loaded 2 [0, 1] [1, 0])) (1 / 2) [0, 1] =
        Except.error Fault.divisionByZero ∧
      ¬ ∃ r : Vec × Vec × Vec × ℚ,
        compute_project 118 [0, 0] [0, 0] [0, 0] (complete (loaded 2 [0, 1] [1, 0])) (1 / 2)
          [0, 1] = Except.ok r ∧ scalar_product r.2.1 r.1 = Except.ok 1 := by
  have h : compute_project 118 [0, 0] [0, 0] [0, 0] (complete (loaded 2 [0, 1] [1, 0])) (1 / 2)
      [0, 1] = Except.error Fault.divisionByZero := by decide!
  refine ⟨h, ?_⟩
  rintro ⟨r, hr, _⟩
  rw [h] at hr
  cases hr

/-- C11. Total restricted matrix is the sum of its parts: on every input on
which `compute_GR` completes, `G_R[j][i] = G_rr[j][i] + G_I[j][i]` for all
`j`, `i` below the size of the subset. -/
theorem compute_GR_total_is_sum (max_iter : Int) (G_R G_rr G_pr G_qr G_I : Matrix)
    (psiL psiR pg : Vec) (net : Network) (α : ℚ) (node : List Nat) (res : GRResult)
    (_hw : WellFormed net) (hin : GRInput G_R G_rr G_pr G_qr G_I psiL psiR pg net node)
    (h : compute_GR max_iter G_R G_rr G_pr G_qr G_I psiL psiR pg net α node = Except.ok res) :
    ∀ j i, j < node.length → i < node.length →
      res.st.G_R.entry j i = res.st.G_rr.entry j i + res.st.G_I.entry j i := by
  intro j i hj hi
  obtain ⟨_, _, hcol⟩ := compute_GR_columns max_iter G_R G_rr G_pr G_qr G_I psiL psiR pg net α
    node res (grInput_shaped _ _ _ _ _ _ _ _ _ _ hin _) h
  obtain ⟨ov, sfin, _, hc⟩ := hcol i hi
  obtain ⟨c1, _, _, c4, c5⟩ := hc j hj
  rw [c5, c1, c4]

/-- Witness of C11: the complete graph on three nodes, damping 1/2 (for which
`max_iter` is 118) and the subset `{0, 1}`. -/
theorem compute_GR_total_is_sum_witness :
    ∃ res, compute_GR 118 (newMatrix 2 2) (newMatrix 2 2) (newMatrix 2 2) (newMatrix 2 2)
        (newMatrix 2 2) [0, 0, 0] [0, 0, 0] [0, 0, 0] triangle (1 / 2) [0, 1] = Except.ok res ∧
      res.st.G_R.entry 1 0 = res.st.G_rr.entry 1 0 + res.st.G_I.entry 1 0 := by
  obtain ⟨res, hres⟩ := ok_of_isOk _ triangle_completes
  exact ⟨res, hres, compute_GR_total_is_sum 118 _ _ _ _ _ _ _ _ triangle (1 / 2) [0, 1] res
    triangle_wellFormed triangle_input hres 1 0 (by decide) (by decide)⟩

/-- C12. `G_rr` is the one-step restricted transition: for a subset of pairwise
distinct nodes, after `compute_GR` the entry `G_rr[j][i]` is entry `node[j]` of
the output of `GGmult` applied once to the unit impulse at `node[i]`. -/
theorem compute_GR_one_step (max_iter : Int) (G_R G_rr G_pr G_qr G_I : Matrix)
    (psiL psiR pg : Vec) (net : Network) (α : ℚ) (node : List Nat) (res : GRResult)
    (_hw : WellFormed net) (hin : GRInput G_R G_rr G_pr G_qr G_I psiL psiR pg net node)
    (hnd : node.Nodup)
    (h : compute_GR max_iter G_R G_rr G_pr G_qr G_I psiL psiR pg net α node = Except.ok res) :
    ∀ j i, j < node.length → i < node.length →
      res.st.G_rr.entry j i =
        (GGmult net α (newVector net.size) (impulse net.size (node.getD i 0)) 1).getD
          (node.getD j 0) 0 := by
  intro j i hj hi
  obtain ⟨_, _, hcol⟩ := compute_GR_columns max_iter G_R G_rr G_pr G_qr G_I psiL psiR pg net α
    node res (grInput_shaped _ _ _ _ _ _ _ _ _ _ hin _) h
  obtain ⟨ov, sfin, _, hc⟩ := hcol i hi
  rw [(hc j hj).1, zeroPrefix_getD_nodup node hnd j hj]
  rfl

/-- Witness of C12: the complete graph on three nodes, damping 1/2 (for which
`max_iter` is 118) and the subset `{0, 1}`. -/
theorem compute_GR_one_step_witness :
    ∃ res, compute_GR 118 (newMatrix 2 2) (newMatrix 2 2) (newMatrix 2 2) (newMatrix 2 2)
        (newMatrix 2 2) [0, 0, 0] [0, 0, 0] [0, 0, 0] triangle (1 / 2) [0, 1] = Except.ok res ∧
      res.st.G_rr.entry 1 0 =
        (GGmult triangle (1 / 2) (newVector 3) (impulse 3 0) 1).getD 1 0 := by
  obtain ⟨res, hres⟩ := ok_of_isOk _ triangle_completes
  exact ⟨res, hres, compute_GR_one_step 118 _ _ _ _ _ _ _ _ triangle (1 / 2) [0, 1] res
    triangle_wellFormed triangle_input (by decide) hres 1 0 (by decide) (by decide)⟩

/-- C13. Column independence: after a run of `compute_GR` that completes,
column `i` of each of the five matrices is what the column body for `i` alone
leaves in that column when started from any state with scratch vectors of the
right sizes (freshly allocated ones in particular), whatever these vectors and
the matrices hold; and processing the columns in any other order completes as
well and gives the same five matrices. -/
theorem compute_GR_column_independent (max_iter : Int) (G_R G_rr G_pr G_qr G_I : Matrix)
    (psiL psiR pg : Vec) (net : Network) (α : ℚ) (node : List Nat) (res : GRResult)
    (_hw : WellFormed net) (hin : GRInput G_R G_rr G_pr G_qr G_I psiL psiR pg net node)
    (h : compute_GR max_iter G_R G_rr G_pr G_qr G_I psiL psiR pg net α node = Except.ok res) :
    (∀ i, i < node.length → ∀ st0 : GRState, st0.Sized net.size → st0.Shaped node.length →
        ∃ r, columnBody max_iter net α node res.psiR res.psiL res.dlambda i st0 = Except.ok r ∧
          SameColumn i res.st r) ∧
      ∀ cols : List Nat, cols.Perm (List.range node.length) →
        ∃ st', cols.foldlM
            (fun st i => columnBody max_iter net α node res.psiR res.psiL res.dlambda i st)
            (entryState G_R G_rr G_pr G_qr G_I net.size) = Except.ok st' ∧
          ∀ i, i < node.length → SameColumn i res.st st' := by
  obtain ⟨_, hsh, hcol⟩ := compute_GR_columns max_iter G_R G_rr G_pr G_qr G_I psiL psiR pg net α
    node res (grInput_shaped _ _ _ _ _ _ _ _ _ _ hin _) h
  constructor
  · intro i hi st0 hs0 hm0
    obtain ⟨ov, sfin, hrun, hc⟩ := hcol i hi
    obtain ⟨r, hr⟩ := column_exists max_iter net α node res.psiR res.psiL res.dlambda i ov sfin
      st0 hs0 hrun
    obtain ⟨_, hmr, ⟨ov', sfin', hrun', hc'⟩, _⟩ :=
      column_step max_iter net α node res.psiR res.psiL res.dlambda i st0 r hs0 hm0 hi hr
    obtain ⟨e1, e2⟩ := columnRun_unique _ _ _ _ _ _ _ _ _ _ _ _ hrun hrun'
    subst e1
    subst e2
    exact ⟨r, hr, sameColumn_of_isColumn net α node i res.st r ov sfin hsh hmr hc hc'⟩
  · intro cols hp
    have hmem : ∀ i, i ∈ cols → i < node.length := fun i hi =>
      List.mem_range.mp ((List.Perm.mem_iff hp).1 hi)
    obtain ⟨st', hst'⟩ := columns_fold_exists max_iter net α node res.psiR res.psiL res.dlambda
      cols (entryState G_R G_rr G_pr G_qr G_I net.size) (entryState_sized _ _ _ _ _ _)
      (grInput_shaped _ _ _ _ _ _ _ _ _ _ hin _) hmem
      (fun i hi => by
        obtain ⟨ov, sfin, hrun, _⟩ := hcol i (hmem i hi)
        exact ⟨ov, sfin, hrun⟩)
    obtain ⟨_, hm', hin', _⟩ := columns_fold max_iter net α node res.psiR res.psiL res.dlambda
      cols _ st' (entryState_sized _ _ _ _ _ _) (grInput_shaped _ _ _ _ _ _ _ _ _ _ hin _) hmem
      hst'
    refine ⟨st', hst', fun i hi => ?_⟩
    obtain ⟨ov, sfin, hrun, hc⟩ := hcol i hi
    obtain ⟨ov', sfin', hrun', hc'⟩ :=
      hin' i ((List.Perm.mem_iff hp).2 (List.mem_range.mpr hi))
    obtain ⟨e1, e2⟩ := columnRun_unique _ _ _ _ _ _ _ _ _ _ _ _ hrun hrun'
    subst e1
    subst e2
    exact sameColumn_of_isColumn net α node i res.st st' ov sfin hsh hm' hc hc'

/-- Witness of C13: the complete graph on three nodes, damping 1/2 (for which
`max_iter` is 118) and the subset `{0, 1}`, with the two columns processed in
the order 1, 0. -/
theorem compute_GR_column_independent_witness :
    ∃ res, compute_GR 118 (newMatrix 2 2) (newMatrix 2 2) (newMatrix 2 2) (newMatrix 2 2)
        (newMatrix 2 2) [0, 0, 0] [0, 0, 0] [0, 0, 0] triangle (1 / 2) [0, 1] = Except.ok res ∧
      ∃ st', [1, 0].foldlM
          (fun st i => columnBody 118 triangle (1 / 2) [0, 1] res.psiR res.psiL res.dlambda i st)
          (entryState (newMatrix 2 2) (newMatrix 2 2) (newMatrix 2 2) (newMatrix 2 2)
            (newMatrix 2 2) triangle.size) = Except.ok st' ∧
        ∀ i, i < 2 → SameColumn i res.st st' := by
  obtain ⟨res, hres⟩ := ok_of_isOk _ triangle_completes
  exact ⟨res, hres, (compute_GR_column_independent 118 _ _ _ _ _ _ _ _ triangle (1 / 2) [0, 1]
    res triangle_wellFormed triangle_input hres).2 [1, 0] (by decide)⟩

/-- C16. Dimension check of the restricted solver: if one of the five matrices
does not have both dimensions equal to the size of the subset, `compute_GR`
ends in the error thrown by its entry checks, whatever the other arguments are;
the eigensolver does not run and no new state is produced. -/
theorem compute_GR_dimension_check (max_iter : Int) (G_R G_rr G_pr G_qr G_I : Matrix)
    (psiL psiR pg : Vec) (net : Network) (α : ℚ) (node : List Nat)
    (h : ¬ ((G_R.x = node.length ∧ G_R.y = node.length) ∧
      (G_rr.x = node.length ∧ G_rr.y = node.length) ∧
      (G_pr.x = node.length ∧ G_pr.y = node.length) ∧
      (G_qr.x = node.length ∧ G_qr.y = node.length) ∧
      (G_I.x = node.length ∧ G_I.y = node.length))) :
    ∃ msg, checkSizes G_R G_rr G_pr G_qr G_I node.length = Except.error (Fault.thrown msg) ∧
      compute_GR max_iter G_R G_rr G_pr G_qr G_I psiL psiR pg net α node =
        Except.error (Fault.thrown msg) := by
  obtain ⟨msg, hmsg⟩ := checkSizes_error G_R G_rr G_pr G_qr G_I node.length h
  refine ⟨msg, hmsg, ?_⟩
  unfold compute_GR
  simp only []
  rw [hmsg]
  rfl

/-- Witness of C16: a `G_rr` of 1 by 2 for a subset of two nodes is rejected,
here on an input (the 2-cycle with every node in the subset) on which the
eigensolver would divide by zero. -/
theorem compute_GR_dimension_check_witness :
    ∃ msg, checkSizes (newMatrix 2 2) (newMatrix 1 2) (newMatrix 2 2) (newMatrix 2 2)
        (newMatrix 2 2) 2 = Except.error (Fault.thrown msg) ∧
      compute_GR 118 (newMatrix 2 2) (newMatrix 1 2) (newMatrix 2 2) (newMatrix 2 2)
        (newMatrix 2 2) [0, 0] [0, 0] [0, 0] (complete (loaded 2 [0, 1] [1, 0])) (1 / 2) [0, 1] =
        Except.error (Fault.thrown msg) :=
  compute_GR_dimension_check 118 (newMatrix 2 2) (newMatrix 1 2) (newMatrix 2 2) (newMatrix 2 2)
    (newMatrix 2 2) [0, 0] [0, 0] [0, 0] (complete (loaded 2 [0, 1] [1, 0])) (1 / 2) [0, 1]
    (by decide)

/-- C17. Dangling example: for the 3-node graph with edges 0→1, 1→2, `complete`
yields `dangling = [2]`, and `GGmult` applied to the unit impulse at node 2
gives `[1/3, 1/3, 1/3]` for every damping value and every `norm_flag`. -/
theorem dangling_example (α : ℚ) (flag : Nat) (out : Vec) (hout : out.length = 3) :
    (complete (loaded 3 [0, 1] [1, 2])).dangling = [2] ∧
      GGmult (complete (loaded 3 [0, 1] [1, 2])) α out [0, 0, 1] flag = [1 / 3, 1 / 3, 1 / 3] := by
  refine ⟨by decide, ?_⟩
  rw [GGmult_eq_ref (by decide) (by decide) (by decide) α out [0, 0, 1] flag hout rfl]
  have hd : danglingMass (complete (loaded 3 [0, 1] [1, 2])) [0, 0, 1] = 1 := by decide!
  have hl : ∀ i, i < 3 → linkInflow (complete (loaded 3 [0, 1] [1, 2])) [0, 0, 1] i = 0 := by
    decide!
  have hn : normSum flag [0, 0, 1] = 1 := by
    unfold normSum
    split_ifs
    · rfl
    · decide!
  have hsz : (((complete (loaded 3 [0, 1] [1, 2])).size : Nat) : ℚ) = 3 := by decide!
  have hv : ∀ i, i < 3 →
      GGmult_ref (complete (loaded 3 [0, 1] [1, 2])) α [0, 0, 1] flag i = 1 / 3 := by
    intro i hi
    unfold GGmult_ref S_ref
    rw [hd, hl i hi, hn, hsz]
    ring
  show [GGmult_ref _ α [0, 0, 1] flag 0, GGmult_ref _ α [0, 0, 1] flag 1,
    GGmult_ref _ α [0, 0, 1] flag 2] = _
  rw [hv 0 (by decide), hv 1 (by decide), hv 2 (by decide)]

/-- Witness of C17: damping 3/20, `norm_flag = 0` and an output buffer holding
`[9, 9, 9]`. -/
theorem dangling_example_witness :
    GGmult (complete (loaded 3 [0, 1] [1, 2])) (3 / 20) [9, 9, 9] [0, 0, 1] 0 =
      [1 / 3, 1 / 3, 1 / 3] :=
  (dangling_example (3 / 20) 0 [9, 9, 9] (by decide)).2

/-- C18. 4-cycle example: for the graph on 4 nodes with edges 0→1, 1→2, 2→3,
3→0, `complete` yields `firstpos = [0,1,2,3,4]`, `link_num = [1,1,1,1]` and no
dangling node; the uniform vector is a fixed point of `GGmult(0.15, ., ., 1)`;
and `calc_pagerank_project` started from the all-ones vector with an empty
subset in forward mode leaves the uniform vector in `pagerank` and returns 0
(`max_iter` is 398 for the damping 0.15). -/
theorem four_cycle_example (iprint : Int) (out : Vec) (hout : out.length = 4) :
    (complete (loaded 4 [0, 1, 2, 3] [1, 2, 3, 0])).firstpos = [0, 1, 2, 3, 4] ∧
      (complete (loaded 4 [0, 1, 2, 3] [1, 2, 3, 0])).link_num = [1, 1, 1, 1] ∧
      (complete (loaded 4 [0, 1, 2, 3] [1, 2, 3, 0])).dangling = [] ∧
      GGmult (complete (loaded 4 [0, 1, 2, 3] [1, 2, 3, 0])) (3 / 20) out
        [1 / 4, 1 / 4, 1 / 4, 1 / 4] 1 = [1 / 4, 1 / 4, 1 / 4, 1 / 4] ∧
      calc_pagerank_project 398 [1, 1, 1, 1] (complete (loaded 4 [0, 1, 2, 3] [1, 2, 3, 0]))
        (3 / 20) iprint [] 0 = Except.ok ([1 / 4, 1 / 4, 1 / 4, 1 / 4], 0) := by
  refine ⟨by decide, by decide, by decide, ?_, ?_⟩
  · rw [GGmult_out_irrel _ _ out (newVector 4) _ _ hout (by decide)]
    decide!
  · have h1 : pagerank_normalize [1, 1, 1, 1] =
        Except.ok ([1 / 4, 1 / 4, 1 / 4, 1 / 4], 4) := by decide!
    have h2 : deflate [1 / 4, 1 / 4, 1 / 4, 1 / 4] [] = (0, [1 / 4, 1 / 4, 1 / 4, 1 / 4]) := rfl
    have h3 : pagerank_normalize [1 / 4, 1 / 4, 1 / 4, 1 / 4] =
        Except.ok ([1 / 4, 1 / 4, 1 / 4, 1 / 4], 1) := by decide!
    have h4 : iterStep 398 (complete (loaded 4 [0, 1, 2, 3] [1, 2, 3, 0])) (3 / 20) 1 [] 0 0
        ⟨[1 / 4, 1 / 4, 1 / 4, 1 / 4], [1 / 4, 1 / 4, 1 / 4, 1 / 4], 10 ^ 40, 0⟩ =
        Except.ok (⟨[1 / 4, 1 / 4, 1 / 4, 1 / 4], [1 / 4, 1 / 4, 1 / 4, 1 / 4], 0, 0⟩, true) := by
      decide!
    have h5 : ((398 : Int) + 1).toNat = 398 + 1 := by decide
    unfold calc_pagerank_project
    simp only [bind, Except.bind, h1, h2, h3, h5,
      if_neg (show ¬ ((0 : Nat) ≠ 0) from fun h => h rfl)]
    rw [iterLoop_break_first 398 _ _ _ [] 0 398 _ _ h4]
    rfl

/-- Witness of C18: print interval 10 and an output buffer holding
`[9, 9, 9, 9]`. -/
theorem four_cycle_example_witness :
    GGmult (complete (loaded 4 [0, 1, 2, 3] [1, 2, 3, 0])) (3 / 20) [9, 9, 9, 9]
        [1 / 4, 1 / 4, 1 / 4, 1 / 4] 1 = [1 / 4, 1 / 4, 1 / 4, 1 / 4] ∧
      calc_pagerank_project 398 [1, 1, 1, 1] (complete (loaded 4 [0, 1, 2, 3] [1, 2, 3, 0]))
        (3 / 20) 10 [] 0 = Except.ok ([1 / 4, 1 / 4, 1 / 4, 1 / 4], 0) :=
  ⟨(four_cycle_example 10 [9, 9, 9, 9] (by decide)).2.2.2.1,
    (four_cycle_example 10 [9, 9, 9, 9] (by decide)).2.2.2.2⟩

/-- C14. Non-convergence is not an error: `calc_pagerank_project` never throws;
and on a well-formed graph, when the entry sequence completes and none of the
`max_iter + 1` passes of the loop fires a stop test (the relative difference
below `eps_pagerank`, or the stall test), the loop applies the operator in all
`max_iter + 1` passes and the call returns the `dlambda` of the last pass,
leaving the iterate of the last pass in `pagerank`. -/
theorem calc_pagerank_project_no_stop (max_iter : Int) (pagerank : Vec) (net : Network) (α : ℚ)
    (iprint : Int) (node : List Nat) (trans_frag : Nat) (_hw : WellFormed net)
    (_hlen : pagerank.length = net.size) (_hnode : ∀ k, k ∈ node → k < net.size) :
    (∀ msg, calc_pagerank_project max_iter pagerank net α iprint node trans_frag ≠
        Except.error (Fault.thrown msg)) ∧
      ∀ st0 st, calc_entry pagerank node trans_frag = Except.ok st0 →
        iterRun max_iter net α (if iprint ≤ 0 then 1 else iprint) node trans_frag
          (max_iter + 1).toNat 0 st0 = Except.ok (st, false) →
        applications max_iter pagerank net α iprint node trans_frag = (max_iter + 1).toNat ∧
          calc_pagerank_project max_iter pagerank net α iprint node trans_frag =
            Except.ok (st.pagerank, st.dlambda) := by
  refine ⟨fun msg => calc_not_thrown _ _ _ _ _ _ _ msg, ?_⟩
  intro st0 st h0 hrun
  constructor
  · unfold applications
    rw [h0]
    exact passes_of_run _ _ _ _ _ _ _ _ _ _ hrun
  · rw [calc_pagerank_project_eq, h0]
    show (iterLoop max_iter net α (if iprint ≤ 0 then 1 else iprint) node trans_frag
      (max_iter + 1).toNat 0 st0 >>= fun st => pure (st.pagerank, st.dlambda)) = _
    rw [iterLoop_of_run _ _ _ _ _ _ _ _ _ _ hrun]
    rfl

/-- Witness of C14: the 12-node graph `slowGraph` with damping 1/2 (for which
`max_iter` is 118), print interval 10, the subset of the nodes 2..11 and the
all-ones start vector in forward mode; none of the 119 passes fires a stop
test. -/
theorem calc_pagerank_project_no_stop_witness :
    ∃ st, iterRun 118 slowGraph (1 / 2) 10 slowSubset 0 119 0 slowEntry = Except.ok (st, false) ∧
      applications 118 (List.replicate 12 1) slowGraph (1 / 2) 10 slowSubset 0 = 119 ∧
      calc_pagerank_project 118 (List.replicate 12 1) slowGraph (1 / 2) 10 slowSubset 0 =
        Except.ok (st.pagerank, st.dlambda) := by
  obtain ⟨st, hst⟩ := run_of_flag _ slowRun_flag
  exact ⟨st, hst,
    (calc_pagerank_project_no_stop 118 (List.replicate 12 1) slowGraph (1 / 2) 10 slowSubset 0
      slowGraph_wellFormed (by decide) (by decide)).2 slowEntry st slowEntry_eq hst⟩

/-- C15, as the code has it. For every input, `calc_pagerank_project` applies
the operator (`GGmult` or `GTmult`) at most `max_iter + 1` times (the loop is
`for (i = 0; i <= max_iter; i++)`; with a negative bound it makes no pass), and
what it returns is the state after exactly that many passes. -/
theorem calc_pagerank_project_cap (max_iter : Int) (pagerank : Vec) (net : Network) (α : ℚ)
    (iprint : Int) (node : List Nat) (trans_frag : Nat) :
    applications max_iter pagerank net α iprint node trans_frag ≤ (max_iter + 1).toNat ∧
      ∀ st0, calc_entry pagerank node trans_frag = Except.ok st0 →
        calc_pagerank_project max_iter pagerank net α iprint node trans_frag =
          (iterRun max_iter net α (if iprint ≤ 0 then 1 else iprint) node trans_frag
            (applications max_iter pagerank net α iprint node trans_frag) 0 st0).map
            (fun r => (r.1.pagerank, r.1.dlambda)) := by
  constructor
  · unfold applications
    split
    · exact Nat.zero_le _
    · exact passes_le _ _ _ _ _ _ _ _ _
  · intro st0 h0
    unfold applications
    rw [calc_pagerank_project_eq, h0]
    show (iterLoop max_iter net α (if iprint ≤ 0 then 1 else iprint) node trans_frag
      (max_iter + 1).toNat 0 st0 >>= fun st => pure (st.pagerank, st.dlambda)) = _
    rw [iterLoop_eq_run]
    cases iterRun max_iter net α (if iprint ≤ 0 then 1 else iprint) node trans_frag
        (passes max_iter net α (if iprint ≤ 0 then 1 else iprint) node trans_frag
          (max_iter + 1).toNat 0 st0) 0 st0 with
    | error e => rfl
    | ok r => rfl

/-- Witness of C15: the 4-cycle with damping 3/20 (for which `max_iter` is 398)
and the all-ones start vector; the first pass ends the loop. -/
theorem calc_pagerank_project_cap_witness :
    calc_entry [1, 1, 1, 1] [] 0 =
        Except.ok ⟨[1 / 4, 1 / 4, 1 / 4, 1 / 4], [1 / 4, 1 / 4, 1 / 4, 1 / 4], 10 ^ 40, 0⟩ ∧
      calc_pagerank_project 398 [1, 1, 1, 1] (complete (loaded 4 [0, 1, 2, 3] [1, 2, 3, 0]))
          (3 / 20) 10 [] 0 =
        (iterRun 398 (complete (loaded 4 [0, 1, 2, 3] [1, 2, 3, 0])) (3 / 20)
          (if (10 : Int) ≤ 0 then 1 else 10) [] 0
          (applications 398 [1, 1, 1, 1] (complete (loaded 4 [0, 1, 2, 3] [1, 2, 3, 0]))
            (3 / 20) 10 [] 0) 0
          ⟨[1 / 4, 1 / 4, 1 / 4, 1 / 4], [1 / 4, 1 / 4, 1 / 4, 1 / 4], 10 ^ 40, 0⟩).map
          (fun r => (r.1.pagerank, r.1.dlambda)) :=
  ⟨by decide!,
    (calc_pagerank_project_cap 398 [1, 1, 1, 1] (complete (loaded 4 [0, 1, 2, 3] [1, 2, 3, 0]))
      (3 / 20) 10 [] 0).2 _ (by decide!)⟩

/-- C15 as stated fails: on the 12-node graph `slowGraph` with damping 1/2,
for which `max_iter = 2 * floor(-ln(1e-13) / 0.5000003) = 2 * 59 = 118`, the
print interval 10, the subset of the nodes 2..11 and the all-ones start vector
in forward mode, no stop test fires and the loop `for (i = 0; i <= 118; i++)`
applies `GGmult` 119 times, which is more than `max_iter`.  (Only the entries
of the nodes 0 and 1 survive the deflation; on them the iteration is that of the
matrix with rows `1/24, 13/24` and `7/24, 1/24`, whose eigenvalues are about
0.439 and -0.356, so the relative difference shrinks by a factor of about 0.81
per pass and is still above `1e-13` at the tests `i = 0, 10, .., 110, 118`.) -/
theorem calc_pagerank_project_cap_counterexample :
    applications 118 (List.replicate 12 1) slowGraph (1 / 2) 10 slowSubset 0 = 119 ∧
      ¬ ((applications 118 (List.replicate 12 1) slowGraph (1 / 2) 10 slowSubset 0 : Int) ≤
        118) := by
  obtain ⟨st, hst⟩ := run_of_flag _ slowRun_flag
  have h : applications 118 (List.replicate 12 1) slowGraph (1 / 2) 10 slowSubset 0 = 119 := by
    unfold applications
    rw [slowEntry_eq]
    exact passes_of_run 118 slowGraph (1 / 2) 10 slowSubset 0 119 0 slowEntry st hst
  rw [h]
  exact ⟨rfl, by decide⟩

/-- C20. Deflation invariant of the eigensolver: on a well-formed graph with at
least one node, for every damping, subset of nodes and mode, whenever
`calc_pagerank_project` returns without a division by zero (every normalisation
sum is non-zero), `pagerank` is zero at every node of the subset and its entries
sum to 1; the same holds for the iterate on entry to the loop and after every
pass of the loop. -/
theorem calc_pagerank_project_deflated (max_iter : Int) (pagerank : Vec) (net : Network)
    (α : ℚ) (iprint : Int) (node : List Nat) (trans_frag : Nat) (_hw : WellFormed net)
    (hlen : pagerank.length = net.size) (hpos : 0 < net.size)
    (_hnode : ∀ k, k ∈ node → k < net.size) :
    (∀ r, calc_pagerank_project max_iter pagerank net α iprint node trans_frag = Except.ok r →
        Deflated node r.1) ∧
      ∀ st0, calc_entry pagerank node trans_frag = Except.ok st0 →
        ∀ k st b,
          iterRun max_iter net α (if iprint ≤ 0 then 1 else iprint) node trans_frag k 0 st0 =
            Except.ok (st, b) →
          Deflated node st.pagerank := by
  have hn : 0 < pagerank.length := by omega
  refine ⟨fun r hr => calc_deflated _ _ _ _ _ _ _ r hn hr, ?_⟩
  intro st0 h0 k st b hk
  obtain ⟨a1, a2⟩ := calc_entry_deflated _ _ _ _ hn h0
  exact (iterRun_deflated _ _ _ _ _ _ _ _ _ _ _ hn a1 a2 hk).2

/-- Witness of C20: the complete graph on three nodes with damping 1/2 (for
which `max_iter` is 118), the subset `{0}` and the all-ones start vector in
forward mode. -/
theorem calc_pagerank_project_deflated_witness :
    calc_pagerank_project 118 [1, 1, 1] triangle (1 / 2) 10 [0] 0 =
        Except.ok ([0, 1 / 2, 1 / 2], 5 / 12) ∧
      Deflated [0] [0, 1 / 2, 1 / 2] :=
  ⟨by decide!,
    (calc_pagerank_project_deflated 118 [1, 1, 1] triangle (1 / 2) 10 [0] 0 triangle_wellFormed
      (by decide) (by decide) (by decide)).1 ([0, 1 / 2, 1 / 2], 5 / 12) (by decide!)⟩

/-- C19, as the code has it. In limited mode (a non-zero node-id ceiling
`limit`) `read_network` never fails on an edge count: it does not read the count
declared on line 2, keeps the edges whose two ids are at most `limit`, and
returns the graph that `complete` builds from them on `limit` nodes, with
`link_len` the number of retained edges. -/
theorem read_network_limited (limit : Nat) (file : NetFile) (hl : limit ≠ 0)
    (_hid : IdsPositive file) :
    ∃ net, read_network limit file = Except.ok net ∧
      net = complete (loaded limit ((retained limit file.body).map (fun e => e.1 - 1))
        ((retained limit file.body).map (fun e => e.2 - 1))) ∧
      net.size = limit ∧ net.link_len = (retained limit file.body).length := by
  refine ⟨_, read_network_limited_eq limit hl file, rfl, rfl, ?_⟩
  show ((retained limit file.body).map (fun e => e.1 - 1)).length = _
  rw [List.length_map]

/-- Witness of C19: the file with header `3`, `2` and the edge lines `1 2` and
`2 3`, loaded with the ceiling 3. -/
theorem read_network_limited_witness :
    ∃ net, read_network 3 ⟨3, 2, [some (1, 2), some (2, 3)]⟩ = Except.ok net ∧
      net = complete (loaded 3 [0, 1] [1, 2]) ∧ net.size = 3 ∧ net.link_len = 2 :=
  read_network_limited 3 ⟨3, 2, [some (1, 2), some (2, 3)]⟩ (by decide) (by decide)

/-- C19 as stated fails: the file with header `3`, `2` and the edge lines `1 2`
and `2 3`, loaded with the ceiling 2, retains the single edge `1 2`, which does
not match the declared count 2, and loading completes: the only test of the
limited branch compares the lengths of `from_t` and `to_t`, which grow
together. -/
theorem read_network_limited_counterexample :
    (retained 2 [some (1, 2), some (2, 3)]).length ≠
        (NetFile.mk 3 2 [some (1, 2), some (2, 3)]).link_len ∧
      read_network 2 ⟨3, 2, [some (1, 2), some (2, 3)]⟩ =
        Except.ok (complete (loaded 2 [0] [1])) ∧
      ¬ ∃ e, read_network 2 ⟨3, 2, [some (1, 2), some (2, 3)]⟩ = Except.error e := by
  have h : read_network 2 ⟨3, 2, [some (1, 2), some (2, 3)]⟩ =
      Except.ok (complete (loaded 2 [0] [1])) := by decide
  refine ⟨by decide, h, ?_⟩
  rintro ⟨e, he⟩
  rw [h] at he
  cases he

/-- C26. The forward operator maps probability vectors to probability vectors:
on a graph built by `complete`, for every damping `α` with `0 ≤ α ≤ 1` and every
input `v` with non-negative entries that sum to 1, the output of
`GGmult(α, out, v, 1)` has non-negative entries that sum to 1, and it is the
output of `GGmult(α, out, v, 0)`. -/
theorem GGmult_probability (net : Network) (ha : Allocated net) (hs : SourcesSorted net)
    (hr : SourcesInRange net) (ht : TargetsInRange net) (α : ℚ) (h0 : 0 ≤ α) (h1 : α ≤ 1)
    (out v : Vec) (hout : out.length = net.size) (hv : v.length = net.size)
    (hpos : ∀ i, i < net.size → 0 ≤ v.getD i 0) (hsum : v.sum = 1) :
    (∀ j, 0 ≤ (GGmult (complete net) α out v 1).getD j 0) ∧
      (GGmult (complete net) α out v 1).sum = 1 ∧
      GGmult (complete net) α out v 1 = GGmult (complete net) α out v 0 := by
  have hN : 0 < net.size := by
    rcases Nat.eq_zero_or_pos net.size with hz | hp
    · rw [hz] at hv
      rw [List.length_eq_zero.mp hv] at hsum
      simp at hsum
    · exact hp
  have hall : ∀ i, 0 ≤ v.getD i 0 := by
    intro i
    by_cases hi : i < net.size
    · exact hpos i hi
    · rw [getD_of_le_length v i 0 (by omega)]
  refine ⟨?_, ?_, ?_⟩
  · intro j
    by_cases hj : j < net.size
    · rw [GGmult_getD_complete hs hr ha α out v 1 hout hv j hj]
      exact GGmult_ref_nonneg hs hr ha α h0 h1 v hall j
    · rw [getD_of_le_length _ j 0 (by rw [GGmult_length]; omega)]
  · rw [GGmult_sum hs hr ha ht hN α out v 1 hout hv, hsum]
    simp [normSum]
  · rw [GGmult_eq_ref hs hr ha α out v 1 hout hv, GGmult_eq_ref hs hr ha α out v 0 hout hv]
    apply List.map_congr_left
    intro j _
    unfold GGmult_ref
    simp [normSum, hsum]

/-- Witness of C26: the five-node graph with edges 1→0, 1→2, 3→4, damping 1/5
and the input `[1/2, 1/4, 0, 1/4, 0]`. -/
theorem GGmult_probability_witness :
    (∀ j, 0 ≤ (GGmult (complete (loaded 5 [1, 1, 3] [0, 2, 4])) (1 / 5) [9, 9, 9, 9, 9]
        [1 / 2, 1 / 4, 0, 1 / 4, 0] 1).getD j 0) ∧
      (GGmult (complete (loaded 5 [1, 1, 3] [0, 2, 4])) (1 / 5) [9, 9, 9, 9, 9]
        [1 / 2, 1 / 4, 0, 1 / 4, 0] 1).sum = 1 ∧
      GGmult (complete (loaded 5 [1, 1, 3] [0, 2, 4])) (1 / 5) [9, 9, 9, 9, 9]
          [1 / 2, 1 / 4, 0, 1 / 4, 0] 1 =
        GGmult (complete (loaded 5 [1, 1, 3] [0, 2, 4])) (1 / 5) [9, 9, 9, 9, 9]
          [1 / 2, 1 / 4, 0, 1 / 4, 0] 0 :=
  GGmult_probability (loaded 5 [1, 1, 3] [0, 2, 4]) (by decide) (by decide) (by decide)
    (by decide) (1 / 5) (by norm_num) (by norm_num) [9, 9, 9, 9, 9] [1 / 2, 1 / 4, 0, 1 / 4, 0]
    (by decide) (by decide) (by decide!) (by norm_num)

/-- C27. Linearity of the un-normalised forward operator: on a graph built by
`complete`, for every damping `α`, all scalars `a`, `b` and all vectors `x`, `y`
of length `N`, the output of `GGmult(α, ., a*x + b*y, 0)` is, entry by entry,
`a * GGmult(α, ., x, 0) + b * GGmult(α, ., y, 0)`; with `norm_flag = 1` the
operator maps the zero vector to the constant `α / N`, so for `α ≠ 0` it is
affine and not linear. -/
theorem GGmult_linearity (net : Network) (ha : Allocated net) (hs : SourcesSorted net)
    (hr : SourcesInRange net) (α a b : ℚ) (out x y z : Vec) (hout : out.length = net.size)
    (hx : x.length = net.size) (hy : y.length = net.size) (hl : z.length = net.size)
    (hz : ∀ i, i < net.size → z.getD i 0 = a * x.getD i 0 + b * y.getD i 0) :
    (∀ j, (GGmult (complete net) α out z 0).getD j 0 =
        a * (GGmult (complete net) α out x 0).getD j 0 +
          b * (GGmult (complete net) α out y 0).getD j 0) ∧
      ∀ j, j < net.size →
        (GGmult (complete net) α out (newVector net.size) 1).getD j 0 = α / (net.size : ℚ) := by
  refine ⟨fun j => GGmult_linear hs hr ha α a b out out out x y z hout hout hout hx hy hl hz j,
    ?_⟩
  intro j hj
  rw [GGmult_getD_complete hs hr ha α out _ 1 hout (newVector_length _) j hj]
  unfold GGmult_ref S_ref
  have hd : danglingMass (complete net) (newVector net.size) = 0 := by
    unfold danglingMass
    apply List.sum_eq_zero
    intro q hq
    obtain ⟨d, _, rfl⟩ := List.mem_map.mp hq
    exact newVector_getD _ _
  have hli : linkInflow (complete net) (newVector net.size) j = 0 := by
    unfold linkInflow
    apply Finset.sum_eq_zero
    intro k _
    rw [newVector_getD, zero_div]
  have hn : normSum 1 (newVector net.size) = 1 := by simp [normSum]
  rw [hd, hli, hn]
  show (1 - α) * (0 / (net.size : ℚ) + 0) + α / (net.size : ℚ) * 1 = _
  ring

/-- Witness of C27: the five-node graph with edges 1→0, 1→2, 3→4, damping 1/5,
`x = [1, 2, 3, 4, 5]`, `y = [1, 0, 0, 0, 1]`, `a = 2` and `b = 3`. -/
theorem GGmult_linearity_witness :
    (∀ j, (GGmult (complete (loaded 5 [1, 1, 3] [0, 2, 4])) (1 / 5) [9, 9, 9, 9, 9]
        [5, 4, 6, 8, 13] 0).getD j 0 =
        2 * (GGmult (complete (loaded 5 [1, 1, 3] [0, 2, 4])) (1 / 5) [9, 9, 9, 9, 9]
          [1, 2, 3, 4, 5] 0).getD j 0 +
          3 * (GGmult (complete (loaded 5 [1, 1, 3] [0, 2, 4])) (1 / 5) [9, 9, 9, 9, 9]
            [1, 0, 0, 0, 1] 0).getD j 0) ∧
      ∀ j, j < 5 →
        (GGmult (complete (loaded 5 [1, 1, 3] [0, 2, 4])) (1 / 5) [9, 9, 9, 9, 9]
          (newVector 5) 1).getD j 0 = (1 / 5) / ((5 : Nat) : ℚ) :=
  GGmult_linearity (loaded 5 [1, 1, 3] [0, 2, 4]) (by decide) (by decide) (by decide) (1 / 5) 2 3
    [9, 9, 9, 9, 9] [1, 2, 3, 4, 5] [1, 0, 0, 0, 1] [5, 4, 6, 8, 13] (by decide) (by decide)
    (by decide) (by decide) (by decide!)

/-- C28. The combined matrix splits into its dominant and deflated parts: on
every input on which `compute_GR` completes,
`G_I[j][i] = G_pr[j][i] + G_qr[j][i]` for all `j`, `i` below the size of the
subset: column `i` of `G_I` is `GGmult` (with `norm_flag = 0`) applied to
`output + s`, and the columns of `G_pr` and `G_qr` are `GGmult` applied to
`output` and to `s`. -/
theorem compute_GR_split (max_iter : Int) (G_R G_rr G_pr G_qr G_I : Matrix)
    (psiL psiR pg : Vec) (net : Network) (α : ℚ) (node : List Nat) (res : GRResult)
    (hw : WellFormed net) (hin : GRInput G_R G_rr G_pr G_qr G_I psiL psiR pg net node)
    (h : compute_GR max_iter G_R G_rr G_pr G_qr G_I psiL psiR pg net α node = Except.ok res) :
    ∀ j i, j < node.length → i < node.length →
      res.st.G_I.entry j i = res.st.G_pr.entry j i + res.st.G_qr.entry j i := by
  intro j i hj hi
  obtain ⟨_, _, hcol⟩ := compute_GR_columns max_iter G_R G_rr G_pr G_qr G_I psiL psiR pg net α
    node res (grInput_shaped _ _ _ _ _ _ _ _ _ _ hin _) h
  obtain ⟨ov, sfin, hrun, hc⟩ := hcol i hi
  obtain ⟨_, c2, c3, c4, _⟩ := hc j hj
  obtain ⟨hP, sv, rs, hQ, hL, hrs⟩ := hrun
  have hov : ov.length = net.size := by
    rw [projectP_length _ _ _ _ _ hP, zeroPrefix_length, impulseOut_length]
  have hsv : sv.length = net.size := by
    rw [projectQ_length _ _ _ _ hQ, zeroPrefix_length, impulseOut_length]
  have hsf : sfin.length = net.size := by
    rw [← hrs]
    exact (resolventLoop_sized net α node res.psiR res.psiL _ _ rs
      ⟨hsv, newVector_length _, hsv, newVector_length _⟩ hL).1
  obtain ⟨net0, ha, hs, hr, _, rfl⟩ := hw
  rw [c2, c3, c4]
  have := GGmult_linear hs hr ha α 1 1 (newVector net0.size) (newVector net0.size)
    (newVector net0.size) ov sfin (add_eq ov sfin) (newVector_length _) (newVector_length _)
    (newVector_length _) hov hsf (by rw [add_eq_length]; exact hov)
    (fun k _ => by rw [add_eq_getD ov sfin (by rw [hov, hsf]) k]; ring) (node.getD j 0)
  rw [one_mul, one_mul] at this
  exact this

/-- Witness of C28: the complete graph on three nodes, damping 1/2 (for which
`max_iter` is 118) and the subset `{0, 1}`. -/
theorem compute_GR_split_witness :
    ∃ res, compute_GR 118 (newMatrix 2 2) (newMatrix 2 2) (newMatrix 2 2) (newMatrix 2 2)
        (newMatrix 2 2) [0, 0, 0] [0, 0, 0] [0, 0, 0] triangle (1 / 2) [0, 1] = Except.ok res ∧
      res.st.G_I.entry 0 1 = res.st.G_pr.entry 0 1 + res.st.G_qr.entry 0 1 := by
  obtain ⟨res, hres⟩ := ok_of_isOk _ triangle_completes
  exact ⟨res, hres, compute_GR_split 118 _ _ _ _ _ _ _ _ triangle (1 / 2) [0, 1] res
    triangle_wellFormed triangle_input hres 0 1 (by decide) (by decide)⟩

/-- C24. Projector Q removes the dominant component: for all vectors `right`,
`left`, `v` of equal length with `scalar_product(left, right) = 1`,
`projectQ(right, left, v)` completes, the scalar product of `left` with the new
`v` is 0, and a second `projectQ` leaves `v` unchanged. -/
theorem projectQ_idempotent (right left v : Vec) (n : Nat) (hr : right.length = n)
    (hl : left.length = n) (hv : v.length = n)
    (hlr : scalar_product left right = Except.ok 1) :
    ∃ v1, projectQ right left v = Except.ok v1 ∧ scalar_product left v1 = Except.ok 0 ∧
      projectQ right left v1 = Except.ok v1 := by
  obtain ⟨v1, h1, h2, h3⟩ := projectQ_ok right left v n hr hl hv
  have hone : ∑ i ∈ Finset.range n, left.getD i 0 * right.getD i 0 = 1 := by
    rw [scalar_product_ok left right (by rw [hl, hr]), hl] at hlr
    injection hlr
  have hzero : ∑ i ∈ Finset.range n, left.getD i 0 * v1.getD i 0 = 0 := by
    have e : ∀ i ∈ Finset.range n, left.getD i 0 * v1.getD i 0 =
        left.getD i 0 * v.getD i 0 -
          (∑ i ∈ Finset.range n, left.getD i 0 * v.getD i 0) *
            (left.getD i 0 * right.getD i 0) := by
      intro i _
      rw [h3 i]
      ring
    rw [Finset.sum_congr rfl e, Finset.sum_sub_distrib, ← Finset.mul_sum, hone]
    ring
  refine ⟨v1, h1, ?_, ?_⟩
  · rw [scalar_product_ok left v1 (by rw [hl, h2]), hl, hzero]
  · obtain ⟨v2, g1, g2, g3⟩ := projectQ_ok right left v1 n hr hl h2
    rw [g1]
    congr 1
    apply ext_getD v2 v1 n g2 h2
    intro j _
    rw [g3 j, hzero]
    ring

/-- Witness of C24: `right = [1, 1]`, `left = [1/2, 1/2]` and `v = [3, 5]`. -/
theorem projectQ_idempotent_witness :
    ∃ v1, projectQ [1, 1] [1 / 2, 1 / 2] [3, 5] = Except.ok v1 ∧
      scalar_product [1 / 2, 1 / 2] v1 = Except.ok 0 ∧
      projectQ [1, 1] [1 / 2, 1 / 2] v1 = Except.ok v1 :=
  projectQ_idempotent [1, 1] [1 / 2, 1 / 2] [3, 5] 2 (by decide) (by decide) (by decide)
    (by decide!)

/-- C25. Limited-load filtering: when `read_network` runs with a node-id
ceiling `L` on a file whose ids are at least 1, the arrays `from` and `to` hold
exactly the file's edges `(n1, n2)` with `n1 ≤ L` and `n2 ≤ L`, in file order
and 0-indexed (`n1 - 1`, `n2 - 1`); `link_len` is the number of retained
edges, whatever the header says, `size` is `L`, and every retained endpoint is
below `L`. -/
theorem read_network_filtering (limit : Nat) (file : NetFile) (hl : limit ≠ 0)
    (hid : IdsPositive file) :
    ∃ net, read_network limit file = Except.ok net ∧
      net.from_ =
        ((file.body.filterMap id).filter (fun e => e.1 ≤ limit ∧ e.2 ≤ limit)).map
          (fun e => e.1 - 1) ∧
      net.to_ =
        ((file.body.filterMap id).filter (fun e => e.1 ≤ limit ∧ e.2 ≤ limit)).map
          (fun e => e.2 - 1) ∧
      net.link_len =
        ((file.body.filterMap id).filter (fun e => e.1 ≤ limit ∧ e.2 ≤ limit)).length ∧
      net.size = limit ∧
      (∀ k, k ∈ net.from_ → k < limit) ∧ ∀ k, k ∈ net.to_ → k < limit := by
  have hmem : ∀ e, e ∈ (file.body.filterMap id).filter (fun e => e.1 ≤ limit ∧ e.2 ≤ limit) →
      e.1 - 1 < limit ∧ e.2 - 1 < limit := by
    intro e he
    obtain ⟨h1, h2⟩ := List.mem_filter.mp he
    have h3 := hid e h1
    have h4 : e.1 ≤ limit ∧ e.2 ≤ limit := by simpa using h2
    omega
  refine ⟨_, read_network_limited_eq limit hl file, rfl, rfl, ?_, rfl, ?_, ?_⟩
  · show ((retained limit file.body).map (fun e => e.1 - 1)).length = _
    rw [List.length_map]
    rfl
  · intro k hk
    obtain ⟨e, he, rfl⟩ := List.mem_map.mp hk
    exact (hmem e he).1
  · intro k hk
    obtain ⟨e, he, rfl⟩ := List.mem_map.mp hk
    exact (hmem e he).2

/-- Witness of C25: the file with header `4`, `3` and the edge lines `1 2`,
`2 4` and `3 1`, loaded with the ceiling 3. -/
theorem read_network_filtering_witness :
    ∃ net, read_network 3 ⟨4, 3, [some (1, 2), some (2, 4), some (3, 1)]⟩ = Except.ok net ∧
      net.from_ = [0, 2] ∧ net.to_ = [1, 0] ∧ net.link_len = 2 ∧ net.size = 3 ∧
      (∀ k, k ∈ net.from_ → k < 3) ∧ ∀ k, k ∈ net.to_ → k < 3 :=
  read_network_filtering 3 ⟨4, 3, [some (1, 2), some (2, 4), some (3, 1)]⟩ (by decide)
    (by decide)

/-- C22. Resolvent accumulation: in column `i` of `compute_GR`, let `s0` be the
value of `s` on entry to the inner loop (where `f = s`) and `T` the map
`v ↦ projectQ(zero-at-subset(GGmult(α, v, 0)))`.  After `k ≤ max_iter` passes of
the inner loop, none of the passes `1 .. k-1` having ended in `break`,
`f = T^k(s0)` and `s = s0 + T(s0) + ... + T^k(s0)`, the quality
`diff_norm1(t, s)` of pass `k` is the 1-norm of the increment `T^k(s0)`, and
when that 1-norm is zero the loop ends there. -/
theorem compute_GR_resolvent (max_iter : Int) (net : Network) (α : ℚ) (node : List Nat)
    (psiR psiL : Vec) (dlambda : ℚ) (i : Nat) (st st1 : GRState) (_hw : WellFormed net)
    (hR : psiR.length = net.size) (hL : psiL.length = net.size)
    (_hnode : ∀ k, k ∈ node → k < net.size) (hst : st.Sized net.size)
    (hhead : columnHead net α node psiR psiL dlambda i st = Except.ok st1) (k : Nat)
    (hkM : k ≤ max_iter.toNat)
    (hno : ∀ m, m + 1 < k → norm1 ((resolventMap net α node psiR psiL)^[m + 1] st1.s) ≠ 0) :
    st1.f = st1.s ∧
      ∃ r, resolventLoop net α node psiR psiL k ⟨st1.s, st1.t, st1.f, st1.f2⟩ = Except.ok r ∧
        r.f = (resolventMap net α node psiR psiL)^[k] st1.s ∧
        (∀ j, r.s.getD j 0 =
          ∑ m ∈ Finset.range (k + 1), ((resolventMap net α node psiR psiL)^[m] st1.s).getD j 0) ∧
        (0 < k → diff_norm1 r.t r.s =
          Except.ok (norm1 ((resolventMap net α node psiR psiL)^[k] st1.s))) ∧
        (0 < k → norm1 ((resolventMap net α node psiR psiL)^[k] st1.s) = 0 →
          resolventLoop net α node psiR psiL max_iter.toNat ⟨st1.s, st1.t, st1.f, st1.f2⟩ =
            Except.ok r) := by
  obtain ⟨ov, sv, _, hQ, e⟩ := (columnHead_ok_iff net α node psiR psiL dlambda i st st1 hst).1 hhead
  have hsv : sv.length = net.size := by
    rw [projectQ_length _ _ _ _ hQ, zeroPrefix_length, impulseOut_length]
  have e1 : st1.s = sv := by rw [e]
  have e2 : st1.f = sv := by rw [e]
  have e3 : st1.t = st.t := by rw [e]
  have e4 : st1.f2 = st.f2 := by rw [e]
  rw [e1, e2, e3, e4]
  have hz : (⟨sv, st.t, sv, st.f2⟩ : ResState).Sized net.size :=
    ⟨hsv, hst.2.2.2.1, hsv, hst.2.2.2.2.2⟩
  rw [e1] at hno
  obtain ⟨r, r1, r2, r3, r4⟩ := resolventLoop_run_of net α node psiR psiL
    (resolventMap net α node psiR psiL) (resolventMap_length net α node psiR psiL)
    (resolventStep_eq net α node psiR psiL hR hL) k _ hz hno
  refine ⟨rfl, r, r1, r2, ?_, ?_, ?_⟩
  · intro j
    rw [r3 j, Finset.sum_range_succ' _ k]
    show _ = _ + sv.getD j 0
    ring
  · intro hk
    rw [r4 hk, r2]
  · intro hk hzero
    rw [resolventLoop_stop_of net α node psiR psiL (resolventMap net α node psiR psiL)
      (resolventMap_length net α node psiR psiL) (resolventStep_eq net α node psiR psiL hR hL)
      k max_iter.toNat _ hz hk hkM hno hzero]
    exact r1

/-- Witness of C22: column 0 on the 4-cycle with damping 1/2 (for which
`max_iter` is 118), the subset `{0}` and `psiR = psiL = [0, 1, 0, 0]`, after
`k = 2` passes; the increment of pass 1 is `[0, 0, 1/32, 3/32]`. -/
theorem compute_GR_resolvent_witness :
    columnHead fourCycle (1 / 2) [0] [0, 1, 0, 0] [0, 1, 0, 0] (1 / 2) 0
        (entryState (newMatrix 1 1) (newMatrix 1 1) (newMatrix 1 1) (newMatrix 1 1)
          (newMatrix 1 1) 4) = Except.ok fourCycleHead ∧
      norm1 ((resolventMap fourCycle (1 / 2) [0] [0, 1, 0, 0] [0, 1, 0, 0])^[1]
        fourCycleHead.s) ≠ 0 ∧
      ∃ r, resolventLoop fourCycle (1 / 2) [0] [0, 1, 0, 0] [0, 1, 0, 0] 2
          ⟨fourCycleHead.s, fourCycleHead.t, fourCycleHead.f, fourCycleHead.f2⟩ = Except.ok r ∧
        r.f = (resolventMap fourCycle (1 / 2) [0] [0, 1, 0, 0] [0, 1, 0, 0])^[2]
          fourCycleHead.s := by
  have h1 : columnHead fourCycle (1 / 2) [0] [0, 1, 0, 0] [0, 1, 0, 0] (1 / 2) 0
      (entryState (newMatrix 1 1) (newMatrix 1 1) (newMatrix 1 1) (newMatrix 1 1)
        (newMatrix 1 1) 4) = Except.ok fourCycleHead := by decide!
  have h2 : norm1 ((resolventMap fourCycle (1 / 2) [0] [0, 1, 0, 0] [0, 1, 0, 0])^[1]
      fourCycleHead.s) ≠ 0 := by decide!
  obtain ⟨_, r, e1, e2, _⟩ := compute_GR_resolvent 118 fourCycle (1 / 2) [0] [0, 1, 0, 0]
    [0, 1, 0, 0] (1 / 2) 0 _ fourCycleHead fourCycle_wellFormed (by decide) (by decide)
    (by decide) (entryState_sized _ _ _ _ _ 4) h1 2 (by decide)
    (fun m hm => by
      have hm0 : m = 0 := by omega
      subst hm0
      exact h2)
  exact ⟨h1, h2, r, e1, e2⟩

/-- C23, as the code has it. A pass of the loop of `calc_pagerank_project` at
index `i` makes a stop test exactly when `i % iprint = 0` or `i = max_iter`:
there it measures `relDiff = diff_norm_rel(x, xPrev)`, stores it, and ends in
`break` exactly when `relDiff < 1e-13`, or `relDiff < 1e-3` and
`relDiff * (1 + alpha/2)` exceeds the previously stored measure (initially
`1e40`); at the other iterations it keeps the stored measure and does not
break.  Hence the loop makes fewer than `max_iter + 1` passes if and only if
the stop test holds at some index `k < max_iter` with `k % iprint = 0` that
the loop reaches. -/
theorem calc_pagerank_project_policy (max_iter : Int) (net : Network) (α : ℚ) (iprint : Int)
    (node : List Nat) (trans_frag : Nat) :
    (∀ i st r, iterStep max_iter net α iprint node trans_frag i st = Except.ok r →
        (r.2 = true ↔ tested max_iter iprint i ∧
          stopTest α (diff_norm_rel r.1.pagerank r.1.a) st.quality_rel) ∧
        r.1.quality_rel =
          if tested max_iter iprint i then diff_norm_rel r.1.pagerank r.1.a
          else st.quality_rel) ∧
      ∀ pagerank st0 res, calc_entry pagerank node trans_frag = Except.ok st0 →
        calc_pagerank_project max_iter pagerank net α iprint node trans_frag = Except.ok res →
        st0.quality_rel = 10 ^ 40 ∧
          (applications max_iter pagerank net α iprint node trans_frag < (max_iter + 1).toNat ↔
            ∃ (k : Nat) (prev next : IterState), (k : Int) < max_iter ∧
              (k : Int) % (if iprint ≤ 0 then 1 else iprint) = 0 ∧
              iterRun max_iter net α (if iprint ≤ 0 then 1 else iprint) node trans_frag k 0 st0 =
                Except.ok (prev, false) ∧
              iterStep max_iter net α (if iprint ≤ 0 then 1 else iprint) node trans_frag k prev =
                Except.ok (next, true) ∧
              stopTest α (diff_norm_rel next.pagerank next.a) prev.quality_rel) := by
  refine ⟨fun i st r h => iterStep_flag _ _ _ _ _ _ i st r h, ?_⟩
  intro pagerank st0 res h0 h
  constructor
  · unfold calc_entry at h0
    obtain ⟨n, _, h0⟩ := bind_ok h0
    obtain ⟨m, _, h0⟩ := bind_ok h0
    injection h0 with h0
    rw [← h0]
  · rw [calc_pagerank_project_eq] at h
    obtain ⟨s0, e0, h⟩ := bind_ok h
    rw [h0] at e0
    injection e0 with e0
    subst e0
    obtain ⟨st, hl, _⟩ := bind_ok h
    have hp := passes_lt_iff _ _ _ _ _ _ _ 0 st0 st hl
    unfold applications
    rw [h0]
    simp only []
    rw [hp]
    constructor
    · rintro ⟨k, prev, next, hk, h1, h2⟩
      rw [Nat.zero_add] at h2
      have hf := (iterStep_flag _ _ _ _ _ _ k prev (next, true) h2).1.1 rfl
      have hk2 : (k : Int) < max_iter := by omega
      refine ⟨k, prev, next, hk2, ?_, h1, h2, hf.2⟩
      rcases hf.1 with h3 | h3
      · exact h3
      · omega
    · rintro ⟨k, prev, next, hk, _, h1, h2, _⟩
      refine ⟨k, prev, next, by omega, h1, ?_⟩
      rw [Nat.zero_add]
      exact h2

/-- Witness of C23: the 4-cycle with damping 3/20 (for which `max_iter` is
398), print interval 10 and the all-ones start vector; the pass at index 0
measures the relative difference 0 and ends the loop. -/
theorem calc_pagerank_project_policy_witness :
    (tested 398 10 0 ∧
        stopTest (3 / 20)
          (diff_norm_rel [1 / 4, 1 / 4, 1 / 4, 1 / 4] [1 / 4, 1 / 4, 1 / 4, 1 / 4]) (10 ^ 40)) ∧
      applications 398 [1, 1, 1, 1] fourCycle (3 / 20) 10 [] 0 < 399 := by
  have hs : iterStep 398 fourCycle (3 / 20) 10 [] 0 0
      ⟨[1 / 4, 1 / 4, 1 / 4, 1 / 4], [1 / 4, 1 / 4, 1 / 4, 1 / 4], 10 ^ 40, 0⟩ =
      Except.ok (⟨[1 / 4, 1 / 4, 1 / 4, 1 / 4], [1 / 4, 1 / 4, 1 / 4, 1 / 4], 0, 0⟩, true) := by
    decide!
  have h := calc_pagerank_project_policy 398 fourCycle (3 / 20) 10 [] 0
  have h1 := (h.1 0 ⟨[1 / 4, 1 / 4, 1 / 4, 1 / 4], [1 / 4, 1 / 4, 1 / 4, 1 / 4], 10 ^ 40, 0⟩
    (⟨[1 / 4, 1 / 4, 1 / 4, 1 / 4], [1 / 4, 1 / 4, 1 / 4, 1 / 4], 0, 0⟩, true) hs).1.1 rfl
  have h2 := (h.2 [1, 1, 1, 1]
    ⟨[1 / 4, 1 / 4, 1 / 4, 1 / 4], [1 / 4, 1 / 4, 1 / 4, 1 / 4], 10 ^ 40, 0⟩
    ([1 / 4, 1 / 4, 1 / 4, 1 / 4], 0) (by decide!) (by decide!)).2.2
    ⟨0, ⟨[1 / 4, 1 / 4, 1 / 4, 1 / 4], [1 / 4, 1 / 4, 1 / 4, 1 / 4], 10 ^ 40, 0⟩,
      ⟨[1 / 4, 1 / 4, 1 / 4, 1 / 4], [1 / 4, 1 / 4, 1 / 4, 1 / 4], 0, 0⟩, by decide, by decide,
      rfl, hs, h1.2⟩
  exact ⟨h1, h2⟩

/-- C23 as stated fails: on the 2-cycle with damping 1, for which
`max_iter = 2 * floor(-ln(1e-13) / 1.0000003) = 58`, the print interval 100 and
the start vector `[1, 2]`, the pass at index 0 measures the relative difference
`12/35` and goes on, the passes 1..57 make no test, and the pass at index 58,
where `58 % 100 = 58` is not 0, measures the relative difference 0 and ends in
`break`: the code also makes the stop test at `i === max_iter`. -/
theorem calc_pagerank_project_policy_counterexample :
    calc_entry [1, 2] [] 0 = Except.ok ⟨[1 / 3, 2 / 3], [1 / 3, 2 / 3], 10 ^ 40, 0⟩ ∧
      iterRun 58 (complete (loaded 2 [0, 1] [1, 0])) 1 100 [] 0 58 0
          ⟨[1 / 3, 2 / 3], [1 / 3, 2 / 3], 10 ^ 40, 0⟩ =
        Except.ok (⟨[1 / 2, 1 / 2], [1 / 2, 1 / 2], 12 / 35, 0⟩, false) ∧
      iterStep 58 (complete (loaded 2 [0, 1] [1, 0])) 1 100 [] 0 58
          ⟨[1 / 2, 1 / 2], [1 / 2, 1 / 2], 12 / 35, 0⟩ =
        Except.ok (⟨[1 / 2, 1 / 2], [1 / 2, 1 / 2], 0, 0⟩, true) ∧
      (58 : Int) % 100 ≠ 0 := by
  refine ⟨by decide!, by decide!, by decide!, by decide⟩

/-- C21, as the code has it. On a well-formed graph with at least one node,
for every damping and subset on which `calc_pagerank_project` in forward mode
returns without a division by zero (every normalisation sum is non-zero; the
loop makes at least one pass, `0 ≤ max_iter`), the returned value is the mass
that the last application of `GGmult` placed on the nodes of the subset, it
adds up to 1 with the sum `pnorm` of the remaining entries before the last
re-normalisation, and it is 0 for an empty subset. -/
theorem calc_pagerank_project_leaked (max_iter : Int) (pagerank : Vec) (net : Network) (α : ℚ)
    (iprint : Int) (node : List Nat) (res : Vec × ℚ) (hw : WellFormed net)
    (hlen : pagerank.length = net.size) (hpos : 0 < net.size)
    (_hnode : ∀ k, k ∈ node → k < net.size) (hmax : 0 ≤ max_iter)
    (h : calc_pagerank_project max_iter pagerank net α iprint node 0 = Except.ok res) :
    ∃ st0 prev b, calc_entry pagerank node 0 = Except.ok st0 ∧
      iterRun max_iter net α (if iprint ≤ 0 then 1 else iprint) node 0
        (applications max_iter pagerank net α iprint node 0 - 1) 0 st0 = Except.ok (prev, b) ∧
      res.2 = (∑ i ∈ Finset.range net.size,
        if i ∈ node then (GGmult net α prev.a prev.pagerank 1).getD i 0 else 0) ∧
      res.2 + sum_vector (deflate (GGmult net α prev.a prev.pagerank 1) node).2 = 1 ∧
      pagerank_normalize (deflate (GGmult net α prev.a prev.pagerank 1) node).2 =
        Except.ok (res.1, sum_vector (deflate (GGmult net α prev.a prev.pagerank 1) node).2) ∧
      (node = [] → res.2 = 0) := by
  have hn : 0 < pagerank.length := by omega
  rw [calc_pagerank_project_eq] at h
  obtain ⟨st0, h0, h⟩ := bind_ok h
  obtain ⟨st, hl, h⟩ := bind_ok h
  injection h with h
  obtain ⟨a1, a2⟩ := calc_entry_deflated _ _ _ _ hn h0
  rw [iterLoop_eq_run] at hl
  have happ : applications max_iter pagerank net α iprint node 0 =
      passes max_iter net α (if iprint ≤ 0 then 1 else iprint) node 0 (max_iter + 1).toNat 0
        st0 := by
    unfold applications
    rw [h0]
  have hp := passes_pos max_iter net α (if iprint ≤ 0 then 1 else iprint) node 0
    (max_iter + 1).toNat 0 st0 (by omega)
  rw [← happ] at hl hp
  obtain ⟨q, hq⟩ : ∃ q, applications max_iter pagerank net α iprint node 0 = q + 1 :=
    ⟨applications max_iter pagerank net α iprint node 0 - 1, by omega⟩
  rw [hq] at hl
  rw [hq, Nat.add_sub_cancel]
  cases hr : iterRun max_iter net α (if iprint ≤ 0 then 1 else iprint) node 0 (q + 1) 0 st0 with
  | error e =>
    rw [hr] at hl
    cases hl
  | ok r =>
    rw [hr] at hl
    injection hl with hl
    obtain ⟨prev, b1, b2, e1, e2⟩ := iterRun_last _ _ _ _ _ _ q 0 st0 r hr
    rw [Nat.zero_add, hl] at e2
    obtain ⟨f1, f2⟩ := iterStep_forward _ _ _ _ _ _ _ _ e2
    obtain ⟨s1, s2⟩ := iterRun_deflated _ _ _ _ _ _ _ _ _ _ _ hn a1 a2 e1
    have hs1 : prev.pagerank.length = net.size := by rw [s1.1, hlen]
    have hs2 : prev.a.length = net.size := by rw [s1.2, hlen]
    have hg : (GGmult net α prev.a prev.pagerank 1).length = net.size := by
      rw [GGmult_length, hs2]
    have hsum : (GGmult net α prev.a prev.pagerank 1).sum = 1 := by
      obtain ⟨net0, ha, hs, hr0, ht, rfl⟩ := hw
      rw [GGmult_sum hs hr0 ha ht hpos α prev.a prev.pagerank 1 hs2 hs1, s2.2]
      simp [normSum]
    have hd : res.2 = (deflate (GGmult net α prev.a prev.pagerank 1) node).1 := by
      rw [← h, ← f2]
    have hfst := deflate_fst (GGmult net α prev.a prev.pagerank 1) node
    rw [hg] at hfst
    refine ⟨st0, prev, b1, h0, e1, by rw [hd, hfst], ?_, ?_, ?_⟩
    · have hm := deflate_mass (GGmult net α prev.a prev.pagerank 1) node
      rw [hsum] at hm
      have hsv : sum_vector (deflate (GGmult net α prev.a prev.pagerank 1) node).2 =
          (deflate (GGmult net α prev.a prev.pagerank 1) node).2.sum :=
        foldl_range_sum _ _ rfl
      rw [hd, hsv]
      exact hm
    · rw [← h]
      exact f1
    · intro hnil
      rw [hd, hfst, hnil]
      simp

/-- Witness of C21: the complete graph on three nodes with damping 1/2 (for
which `max_iter` is 118), the subset `{0}` and the all-ones start vector; the
returned value is 5/12. -/
theorem calc_pagerank_project_leaked_witness :
    calc_pagerank_project 118 [1, 1, 1] triangle (1 / 2) 10 [0] 0 =
        Except.ok ([0, 1 / 2, 1 / 2], 5 / 12) ∧
      ∃ prev : IterState,
        (5 / 12 : ℚ) = (∑ i ∈ Finset.range 3,
          if i ∈ [0] then (GGmult triangle (1 / 2) prev.a prev.pagerank 1).getD i 0 else 0) ∧
        (5 / 12 : ℚ) +
          sum_vector (deflate (GGmult triangle (1 / 2) prev.a prev.pagerank 1) [0]).2 = 1 := by
  have h : calc_pagerank_project 118 [1, 1, 1] triangle (1 / 2) 10 [0] 0 =
      Except.ok ([0, 1 / 2, 1 / 2], 5 / 12) := by decide!
  obtain ⟨_, prev, _, _, _, e1, e2, _⟩ := calc_pagerank_project_leaked 118 [1, 1, 1] triangle
    (1 / 2) 10 [0] ([0, 1 / 2, 1 / 2], 5 / 12) triangle_wellFormed (by decide) (by decide)
    (by decide) (by decide) h
  exact ⟨h, prev, e1, e2⟩

/-- C21 as stated fails: on the 2-cycle `0 → 1 → 0` with damping 1/2 (for which
`max_iter` is 118) and the subset `{0, 1}` of all nodes, the entry sequence
zeroes both entries and then normalises by the sum 0 (the source leaves `NaN`
in every entry), every later `dlambda` is a sum of such quotients (`NaN` in the
source), and no value is returned that adds up to 1 with `pnorm`. -/
theorem calc_pagerank_project_leaked_counterexample :
    calc_pagerank_project 118 [1, 1] (complete (loaded 2 [0, 1] [1, 0])) (1 / 2) 10 [0, 1] 0 =
        Except.error Fault.divisionByZero ∧
      ¬ ∃ res : Vec × ℚ,
        calc_pagerank_project 118 [1, 1] (complete (loaded 2 [0, 1] [1, 0])) (1 / 2) 10 [0, 1] 0 =
          Except.ok res := by
  have h : calc_pagerank_project 118 [1, 1] (complete (loaded 2 [0, 1] [1, 0])) (1 / 2) 10
      [0, 1] 0 = Except.error Fault.divisionByZero := by decide!
  refine ⟨h, ?_⟩
  rintro ⟨res, hr⟩
  rw [h] at hr
  cases hr

end Regomax
